import Mathlib

/-!
# Shape inference of DaphneIR

A shallow embedding of `src/ir/daphneir/DaphneInferShapeOpInterface.cpp`.

* `ssize_t` values are integers (`Int`); `-1` is the "unknown" sentinel.  Signed
  overflow is undefined in C++; the embedding gives the two's complement
  result of the usual builds (`wrapSSizeT`, `wrapInt`).  A general statement
  on the value of a signed sum, product or `abs` carries the condition that
  it is in range; an evaluation outside that range says so in its comment.
* `size_t` arithmetic is arithmetic modulo `2^64`.
* A trap (division by zero, reading through a null pointer) is the exception
  `undefinedBehaviour`.
* A C++ exception is an `Except.error`; the source location of the operation
  is not part of the embedding.
* An `mlir::Value` is its type together with the compile-time constant that
  defines it, if any.
-/

namespace Daphne

/-! ## Data model -/

/-- A `std::pair<ssize_t, ssize_t>`: number of rows, number of columns. -/
abbrev Shape := Int × Int

/-- Value types that `CompilerUtils::isScaType` accepts. -/
inductive ScaTy where
  | f64
  | f32
  | si64
  | str
  | otherSca
  deriving DecidableEq, Repr

/-- The type of an `mlir::Value`, as far as shape inference looks at it.
The labels of a frame type are a pointer in the source, `none` is the null pointer. -/
inductive Ty where
  | matrix (numRows numCols : Int)
  | frame (numRows numCols : Int) (labels : Option (List (List Char)))
  | column (numRows : Int)
  | sca (vt : ScaTy)
  | unknown
  | other
  deriving DecidableEq, Repr

/-- A compile-time constant: a boolean, an integer (its signed 64-bit reading), a
floating-point number or a string. Floating-point constants carry no payload,
floating-point arithmetic is not part of the embedding. -/
inductive Const where
  | bool (b : Bool)
  | int (n : Int)
  | float
  | str (s : List Char)
  deriving DecidableEq, Repr

/-- An `mlir::Value`: its type and, if it is defined by a constant operation, the constant. -/
structure Value where
  ty : Ty
  cst : Option Const := none
  deriving DecidableEq, Repr

/-- The exceptions thrown by shape inference. A mismatch reports both counts,
a slice error the offending values. -/
inductive Err where
  | getShapeUnsupported
  | rowsMismatch (numRows nextNumRows : Int)
  | colsMismatch (numCols nextNumCols : Int)
  | seqUnsupportedValueType
  | condFrame
  | condUnsupported
  | sliceRowInput
  | sliceRowLower (loInPos srcNumRows : Int)
  | sliceRowUpper (upExPos srcNumRows : Int)
  | sliceRowOrder (loInPos upExPos : Int)
  | sliceColInput
  | sliceColLower (loInPos srcNumCols : Int)
  | sliceColUpper (upExPos srcNumCols : Int)
  | sliceColOrder (loInPos upExPos : Int)
  | recodeInvalidType
  | notConstant
  | fileMetaData
  | undefinedBehaviour
  deriving DecidableEq, Repr

/-- Whether an outcome is an exception. -/
def failed {α : Type} : Except Err α → Bool
  | .error _ => true
  | .ok _ => false

/-! ## Signed machine integers -/

/-- The two's complement reading in 64 bits of the exact result `x` of an `ssize_t` or
`int64_t` operation: `x` itself if `-2^63 ≤ x < 2^63`, otherwise the wrapped value the usual
builds compute (the overflow is undefined in C++). -/
def wrapSSizeT (x : Int) : Int := (x + 2 ^ 63) % 2 ^ 64 - 2 ^ 63

/-- The two's complement reading in 32 bits: the conversion of a value to `int`, and the value
of an `int` operation with the exact result `x`. -/
def wrapInt (x : Int) : Int := (x + 2 ^ 31) % 2 ^ 32 - 2 ^ 31

/-- The C function `int abs(int)` on the `int` value `x`; `abs(INT_MIN)` is undefined and
gives `INT_MIN` on the usual builds. -/
def absInt (x : Int) : Int := wrapInt |x|

/-! ## Utilities -/

/-- The function `getShape(Value v)`. -/
def getShape (v : Value) : Except Err Shape :=
  match v.ty with
  | .matrix numRows numCols => .ok (numRows, numCols)
  | .frame numRows numCols _ => .ok (numRows, numCols)
  | .column numRows => .ok (numRows, 1)
  | .sca _ => .ok (1, 1)
  | _ => .error .getShapeUnsupported

/-- The loop `for (size_t i = 1; i < vs.size(); i++)` of `inferNumRowsFromArgs`,
over the remaining values, with the loop-carried `numRows` and `someUnknown`. -/
def inferNumRowsFromArgs.loop : List Value → Int → Bool → Except Err (Int × Bool)
  | [], numRows, someUnknown => .ok (numRows, someUnknown)
  | v :: vs, numRows, someUnknown =>
    match getShape v with
    | .error e => .error e
    | .ok s =>
      let nextNumRows := s.1
      if nextNumRows = -1 then
        inferNumRowsFromArgs.loop vs numRows true
      else if numRows = -1 then
        inferNumRowsFromArgs.loop vs nextNumRows someUnknown
      else if nextNumRows ≠ numRows then
        .error (.rowsMismatch numRows nextNumRows)
      else
        inferNumRowsFromArgs.loop vs numRows someUnknown

/-- The function `inferNumRowsFromArgs(Operation *op, ValueRange vs)`. Reading `vs[0]` of an
empty range is undefined. -/
def inferNumRowsFromArgs (vs : List Value) : Except Err Int :=
  match vs with
  | [] => .error .undefinedBehaviour
  | v0 :: rest =>
    match getShape v0 with
    | .error e => .error e
    | .ok s =>
      let numRows := s.1
      let someUnknown := decide (numRows = -1)
      match inferNumRowsFromArgs.loop rest numRows someUnknown with
      | .error e => .error e
      | .ok (numRows, someUnknown) => .ok (if someUnknown then -1 else numRows)

/-- The loop of `inferNumColsFromArgs`. -/
def inferNumColsFromArgs.loop : List Value → Int → Bool → Except Err (Int × Bool)
  | [], numCols, someUnknown => .ok (numCols, someUnknown)
  | v :: vs, numCols, someUnknown =>
    match getShape v with
    | .error e => .error e
    | .ok s =>
      let nextNumCols := s.2
      if nextNumCols = -1 then
        inferNumColsFromArgs.loop vs numCols true
      else if numCols = -1 then
        inferNumColsFromArgs.loop vs nextNumCols someUnknown
      else if nextNumCols ≠ numCols then
        .error (.colsMismatch numCols nextNumCols)
      else
        inferNumColsFromArgs.loop vs numCols someUnknown

/-- The function `inferNumColsFromArgs(Operation *op, ValueRange vs)`. -/
def inferNumColsFromArgs (vs : List Value) : Except Err Int :=
  match vs with
  | [] => .error .undefinedBehaviour
  | v0 :: rest =>
    match getShape v0 with
    | .error e => .error e
    | .ok s =>
      let numCols := s.2
      let someUnknown := decide (numCols = -1)
      match inferNumColsFromArgs.loop rest numCols someUnknown with
      | .error e => .error e
      | .ok (numCols, someUnknown) => .ok (if someUnknown then -1 else numCols)

/-- The loop `for (Value v : vs)` of `inferNumRowsFromSumOfArgs` with the running `sumNumRows`;
`sumNumRows += numRows` is an `ssize_t` addition. -/
def inferNumRowsFromSumOfArgs.loop : List Value → Int → Except Err Int
  | [], sumNumRows => .ok sumNumRows
  | v :: vs, sumNumRows =>
    match getShape v with
    | .error e => .error e
    | .ok s =>
      let numRows := s.1
      if numRows = -1 then .ok (-1)
      else inferNumRowsFromSumOfArgs.loop vs (wrapSSizeT (sumNumRows + numRows))

/-- The function `inferNumRowsFromSumOfArgs(ValueRange vs)`. -/
def inferNumRowsFromSumOfArgs (vs : List Value) : Except Err Int :=
  inferNumRowsFromSumOfArgs.loop vs 0

/-- The loop of `inferNumColsFromSumOfArgs` with the running `sumNumCols`; `sumNumCols +=
numCols` is an `ssize_t` addition. -/
def inferNumColsFromSumOfArgs.loop : List Value → Int → Except Err Int
  | [], sumNumCols => .ok sumNumCols
  | v :: vs, sumNumCols =>
    match getShape v with
    | .error e => .error e
    | .ok s =>
      let numCols := s.2
      if numCols = -1 then .ok (-1)
      else inferNumColsFromSumOfArgs.loop vs (wrapSSizeT (sumNumCols + numCols))

/-- The function `inferNumColsFromSumOfArgs(ValueRange vs)`. -/
def inferNumColsFromSumOfArgs (vs : List Value) : Except Err Int :=
  inferNumColsFromSumOfArgs.loop vs 0

/-- The values `vs` have, in order, the shapes `shapes`: `getShape` succeeds on each. -/
def HasShapes (vs : List Value) (shapes : List Shape) : Prop :=
  List.Forall₂ (fun v s => getShape v = .ok s) vs shapes

/-! ## Machine integers, strings and constants -/

/-- Conversion of a signed value to `size_t`: the value modulo `2^64`. -/
def toSizeT (x : Int) : Nat := (x % 2 ^ 64).toNat

/-- Conversion of a `size_t` value to `ssize_t`: the two's complement reading. -/
def toSSizeT (x : Nat) : Int :=
  if x % 2 ^ 64 < 2 ^ 63 then ((x % 2 ^ 64 : Nat) : Int) else ((x % 2 ^ 64 : Nat) : Int) - 2 ^ 64

/-- Addition of `size_t` values. -/
def addSz (a b : Nat) : Nat := (a + b) % 2 ^ 64

/-- Subtraction of `size_t` values. -/
def subSz (a b : Nat) : Nat := toSizeT ((a : Int) - (b : Int))

/-- Multiplication of `size_t` values. -/
def mulSz (a b : Nat) : Nat := (a * b) % 2 ^ 64

/-- The value `std::string::npos`. -/
def npos : Nat := 2 ^ 64 - 1

/-- Search of `s.find(c)` from the position `i` of the remaining characters. -/
def findFrom (c : Char) : List Char → Nat → Nat
  | [], _ => npos
  | x :: xs, i => if x = c then i else findFrom c xs (i + 1)

/-- The call `s.find(delimiter)` for the one-character delimiter `"."`: position of the first
dot, `npos` if there is none. -/
def findDelimiter (s : List Char) : Nat := findFrom '.' s 0

/-- The call `s.substr(pos, n)` for `pos` up to the length of `s`. -/
def substr (s : List Char) (pos n : Nat) : List Char := (s.drop pos).take n

/-- The expression `label.substr(0, label.find(delimiter))`. -/
def frameNameOf (label : List Char) : List Char := substr label 0 (findDelimiter label)

/-- The expression
`label.substr(label.find(delimiter) + delimiter.length(), label.length())`. -/
def colLabelOf (label : List Char) : List Char :=
  substr label (addSz (findDelimiter label) 1) label.length

/-- Modelled from the spec: `CompilerUtils::isConstant<bool>` is declared outside src; the
constant query returns whether the value is a compile-time constant of the asked type and, if
so, the constant. -/
def isConstantBool (v : Value) : Bool × Bool :=
  match v.cst with
  | some (.bool b) => (true, b)
  | _ => (false, false)

/-- Modelled from the spec: `CompilerUtils::isConstant<int64_t>` is declared outside src; the
constant query for a signed 64-bit integer. -/
def isConstantInt (v : Value) : Bool × Int :=
  match v.cst with
  | some (.int n) => (true, n)
  | _ => (false, 0)

/-- Modelled from the spec: `CompilerUtils::isConstant<std::string>` is declared outside src;
the constant query for a string. -/
def isConstantStr (v : Value) : Bool × List Char :=
  match v.cst with
  | some (.str s) => (true, s)
  | _ => (false, [])

/-- Modelled from the spec: `CompilerUtils::isConstant<double>` and `<float>` are declared
outside src; the constant query for a floating-point number, without the number. -/
def isConstantFloat (v : Value) : Bool :=
  match v.cst with
  | some .float => true
  | _ => false

/-- Modelled from the spec: `CompilerUtils::constantOrThrow<std::string>` is declared outside
src; the constant, or an exception if the value is no constant string. -/
def constantOrThrowStr (v : Value) : Except Err (List Char) :=
  if (isConstantStr v).1 then .ok (isConstantStr v).2 else .error .notConstant

/-- Modelled from the spec: `CompilerUtils::constantOrThrow<uint64_t>` is declared outside
src; an integer constant read as unsigned 64-bit value, or an exception. -/
def constantOrThrowUInt (v : Value) : Except Err Nat :=
  if (isConstantInt v).1 then .ok (toSizeT (isConstantInt v).2) else .error .notConstant

/-- Modelled from the spec: `CompilerUtils::constantOrDefault<int64_t>` and `<ssize_t>` are
declared outside src; the integer constant, or the default if the value is no constant. -/
def constantOrDefaultInt (v : Value) (d : Int) : Int :=
  if (isConstantInt v).1 then (isConstantInt v).2 else d

/-- Modelled from the spec: `CompilerUtils::constantOrDefault<size_t>` is declared outside
src; the integer constant read as `size_t`, or the default if the value is no constant. -/
def constantOrDefaultSizeT (v : Value) (d : Nat) : Nat :=
  if (isConstantInt v).1 then toSizeT (isConstantInt v).2 else d

/-! ## Shape inference interface implementations -/

/-- The method `daphne::CartesianOp::inferNumRows()`. The `dyn_cast` of a type that is no
frame type gives a null type, reading its rows is undefined. The product is an `ssize_t`
product. -/
def CartesianOp.inferNumRows (lhs rhs : Value) : Except Err Int :=
  match lhs.ty, rhs.ty with
  | .frame lhsNumRows _ _, .frame rhsNumRows _ _ => .ok (wrapSSizeT (lhsNumRows * rhsNumRows))
  | _, _ => .error .undefinedBehaviour

/-- The method `daphne::SeqOp::inferNumRows()`. The value `fpNumRows` stands for
`floor(vTo / vInc - vFrom / vInc) + 1` of the floating-point branches, which is not computed
here. In the integer branch `abs` is called unqualified, without `using namespace std`: with
the standard headers the file includes this is the C function `int abs(int)`, so `vTo - vFrom`
(an `int64_t` difference) and `vInc` are converted to `int`, and the division and the addition
of 1 are `int` operations; the division truncates. Integer division by zero is undefined. -/
def SeqOp.inferNumRows (seqFrom seqTo seqInc : Value) (fpNumRows : Int) : Except Err Int :=
  match seqFrom.ty with
  | .sca .f64 =>
    if isConstantFloat seqFrom ∧ isConstantFloat seqTo ∧ isConstantFloat seqInc then
      .ok fpNumRows
    else .ok (-1)
  | .sca .f32 =>
    if isConstantFloat seqFrom ∧ isConstantFloat seqTo ∧ isConstantFloat seqInc then
      .ok fpNumRows
    else .ok (-1)
  | .sca .si64 =>
    if (isConstantInt seqFrom).1 ∧ (isConstantInt seqTo).1 ∧ (isConstantInt seqInc).1 then
      let vFrom := (isConstantInt seqFrom).2
      let vTo := (isConstantInt seqTo).2
      let vInc := (isConstantInt seqInc).2
      let absDiff := absInt (wrapInt (wrapSSizeT (vTo - vFrom)))
      let absInc := absInt (wrapInt vInc)
      if absInc = 0 then .error .undefinedBehaviour
      else .ok (wrapInt (Int.tdiv absDiff absInc + 1))
    else .ok (-1)
  | _ => .error .seqUnsupportedValueType

/-- The method `daphne::CreateFrameOp::inferShape()`. -/
def CreateFrameOp.inferShape (cols : List Value) : Except Err (List Shape) :=
  match inferNumRowsFromArgs cols with
  | .error e => .error e
  | .ok numRows =>
    match inferNumColsFromSumOfArgs cols with
    | .error e => .error e
    | .ok numCols => .ok [(numRows, numCols)]

/-- The method `daphne::GroupJoinOp::inferShape()`. -/
def GroupJoinOp.inferShape : Except Err (List Shape) :=
  .ok [(-1, 2), (-1, 1)]

/-- The labels `*arg.getLabels()` of the frame argument; undefined if the value is no frame
or its labels are the null pointer. -/
def frameLabels (frame : Value) : Except Err (List (List Char)) :=
  match frame.ty with
  | .frame _ _ (some labels) => .ok labels
  | _ => .error .undefinedBehaviour

/-- The loop `for (Value t : getKeyCol())` of `GroupOp::inferShape` with the growing
`newLabels`. -/
def GroupOp.inferShape.loop (frame : Value) :
    List Value → List (List Char) → Except Err (List (List Char))
  | [], newLabels => .ok newLabels
  | t :: ts, newLabels =>
    match constantOrThrowStr t with
    | .error e => .error e
    | .ok keyLabel =>
      let frameName := frameNameOf keyLabel
      let colLabel := colLabelOf keyLabel
      if keyLabel = ['*'] then
        match frameLabels frame with
        | .error e => .error e
        | .ok labels => GroupOp.inferShape.loop frame ts (newLabels ++ labels)
      else if colLabel = ['*'] then
        match frameLabels frame with
        | .error e => .error e
        | .ok labels =>
          GroupOp.inferShape.loop frame ts
            (newLabels ++ labels.filter (fun label => frameNameOf label = frameName))
      else
        GroupOp.inferShape.loop frame ts (newLabels ++ [keyLabel])

/-- The method `daphne::GroupOp::inferShape()`. -/
def GroupOp.inferShape (frame : Value) (keyCol aggCol : List Value) :
    Except Err (List Shape) :=
  let numRows : Nat := toSizeT (-1)
  match GroupOp.inferShape.loop frame keyCol [] with
  | .error e => .error e
  | .ok newLabels =>
    let numCols : Nat := addSz newLabels.length aggCol.length
    .ok [(toSSizeT numRows, toSSizeT numCols)]

/-- The method `daphne::MatMulOp::inferShape()`. -/
def MatMulOp.inferShape (lhs rhs transa transb : Value) : Except Err (List Shape) :=
  match getShape lhs with
  | .error e => .error e
  | .ok shapeLhs =>
    match getShape rhs with
    | .error e => .error e
    | .ok shapeRhs =>
      let pr := isConstantBool transa
      let numRows : Int := if pr.1 then (if pr.2 then shapeLhs.2 else shapeLhs.1) else -1
      let pc := isConstantBool transb
      let numCols : Int := if pc.1 then (if pc.2 then shapeRhs.1 else shapeRhs.2) else -1
      .ok [(numRows, numCols)]

/-- The method `daphne::ReadOp::inferShape()`. The file meta data lookup
`CompilerUtils::getFileMetaData` is external, `getFileMetaData` gives the `numRows` and
`numCols` it returns for a file name. -/
def ReadOp.inferShape (fileName : Value)
    (getFileMetaData : List Char → Except Err (Nat × Nat)) : Except Err (List Shape) :=
  let p := isConstantStr fileName
  if p.1 then
    match getFileMetaData p.2 with
    | .error e => .error e
    | .ok fmd => .ok [(toSSizeT fmd.1, toSSizeT fmd.2)]
  else .ok [(-1, -1)]

/-- The method `daphne::OrderOp::inferShape()`; `numRows` and `numCols` are `size_t` there. -/
def OrderOp.inferShape (arg returnIdxs : Value) : Except Err (List Shape) :=
  let init : Nat × Nat := (toSizeT (-1), toSizeT (-1))
  let dims : Nat × Nat :=
    match arg.ty with
    | .matrix r c => (toSizeT r, toSizeT c)
    | .frame r c _ => (toSizeT r, toSizeT c)
    | _ => init
  let numRows := dims.1
  let p := isConstantBool returnIdxs
  let numCols : Nat := if p.1 then (if p.2 then 1 else dims.2) else toSizeT (-1)
  .ok [(toSSizeT numRows, toSSizeT numCols)]

/-- The rows and columns of a matrix or frame type, `(-1, -1)` otherwise: the initialisation
of `thenNumRows`, `thenNumCols` (and the else counterparts) in `CondOp::inferShape`. -/
def matOrFrmDims (t : Ty) : Int × Int :=
  match t with
  | .matrix r c => (r, c)
  | .frame r c _ => (r, c)
  | _ => (-1, -1)

/-- Whether the `dyn_cast` to a matrix type or to a frame type is non-null. -/
def isMatOrFrm (t : Ty) : Bool :=
  match t with
  | .matrix _ _ => true
  | .frame _ _ _ => true
  | _ => false

/-- The method `daphne::CondOp::inferShape()`. -/
def CondOp.inferShape (cond thenVal elseVal : Value) : Except Err (List Shape) :=
  match cond.ty with
  | .unknown => .ok [(-1, -1)]
  | .matrix r c => .ok [(r, c)]
  | .frame _ _ _ => .error .condFrame
  | .sca _ =>
    let thenDims := matOrFrmDims thenVal.ty
    let elseDims := matOrFrmDims elseVal.ty
    if isMatOrFrm thenVal.ty ∧ isMatOrFrm elseVal.ty then
      .ok [(if thenDims.1 = elseDims.1 then thenDims.1 else -1,
            if thenDims.2 = elseDims.2 then thenDims.2 else -1)]
    else .ok [(-1, -1)]
  | _ => .error .condUnsupported

/-- The round trip `size_t` to `double` to `size_t` made by `std::floor` on an integral
argument: exact below `2^53`, otherwise the conversion to `double` rounds to 53 significant
bits (to nearest, ties to even); converting `2^64` back is undefined. -/
def floorSizeT (x : Nat) : Except Err Nat :=
  if x < 2 ^ 53 then .ok x
  else
    let e := Nat.log2 x - 52
    let q := x / 2 ^ e
    let r := x % 2 ^ e
    let half := 2 ^ (e - 1)
    let q1 := if r > half ∨ (r = half ∧ q % 2 = 1) then q + 1 else q
    if q1 * 2 ^ e < 2 ^ 64 then .ok (q1 * 2 ^ e) else .error .undefinedBehaviour

/-- The expression `std::floor((in + 2 * pad - f) / stride + 1)` on `size_t` values, which
gives `Hout` and `Wout` in the convolution and pooling operations. Division by zero is
undefined. -/
def outDim (inDim pad fDim stride : Nat) : Except Err Nat :=
  if stride = 0 then .error .undefinedBehaviour
  else floorSizeT (addSz (subSz (addSz inDim (mulSz 2 pad)) fDim / stride) 1)

/-- The method `daphne::Conv2DForwardOp::inferShape()`. -/
def Conv2DForwardOp.inferShape (input filter inputHeight inputWidth filterHeight filterWidth
    padHeight padWidth strideHeight strideWidth : Value) : Except Err (List Shape) :=
  match getShape input with
  | .error e => .error e
  | .ok shapeX =>
    match getShape filter with
    | .error e => .error e
    | .ok shapeW =>
      let Hin := constantOrDefaultSizeT inputHeight 1
      let Win := constantOrDefaultSizeT inputWidth 1
      let Hf := constantOrDefaultSizeT filterHeight 1
      let Wf := constantOrDefaultSizeT filterWidth 1
      let padh := constantOrDefaultSizeT padHeight 1
      let padw := constantOrDefaultSizeT padWidth 1
      let strideh := constantOrDefaultSizeT strideHeight 1
      let stridew := constantOrDefaultSizeT strideWidth 1
      match outDim Hin padh Hf strideh with
      | .error e => .error e
      | .ok Hout =>
        match outDim Win padw Wf stridew with
        | .error e => .error e
        | .ok Wout =>
          let F := shapeW.1
          let numRows := shapeX.1
          let numCols : Int :=
            if F = -1 then -1 else toSSizeT (mulSz (mulSz (toSizeT F) Hout) Wout)
          .ok [(numRows, numCols), (1, 1), (1, 1)]

/-- The method `daphne::AvgPoolForwardOp::inferShape()`. -/
def AvgPoolForwardOp.inferShape (input inputNumChannels inputHeight inputWidth poolHeight
    poolWidth padHeight padWidth strideHeight strideWidth : Value) : Except Err (List Shape) :=
  let Hin := constantOrDefaultSizeT inputHeight 1
  let Win := constantOrDefaultSizeT inputWidth 1
  let C := constantOrDefaultSizeT inputNumChannels 1
  let Hf := constantOrDefaultSizeT poolHeight 1
  let Wf := constantOrDefaultSizeT poolWidth 1
  let padh := constantOrDefaultSizeT padHeight 1
  let padw := constantOrDefaultSizeT padWidth 1
  let strideh := constantOrDefaultSizeT strideHeight 1
  let stridew := constantOrDefaultSizeT strideWidth 1
  match getShape input with
  | .error e => .error e
  | .ok shapeX =>
    let numRows := shapeX.1
    match outDim Hin padh Hf strideh with
    | .error e => .error e
    | .ok Hout =>
      match outDim Win padw Wf stridew with
      | .error e => .error e
      | .ok Wout =>
        let numCols : Nat := mulSz (mulSz C Hout) Wout
        .ok [(numRows, toSSizeT numCols), (1, 1), (1, 1)]

/-- The method `daphne::MaxPoolForwardOp::inferShape()`. -/
def MaxPoolForwardOp.inferShape (input inputNumChannels inputHeight inputWidth poolHeight
    poolWidth padHeight padWidth strideHeight strideWidth : Value) : Except Err (List Shape) :=
  let Hin := constantOrDefaultSizeT inputHeight 1
  let Win := constantOrDefaultSizeT inputWidth 1
  let C := constantOrDefaultSizeT inputNumChannels 1
  let Hf := constantOrDefaultSizeT poolHeight 1
  let Wf := constantOrDefaultSizeT poolWidth 1
  let padh := constantOrDefaultSizeT padHeight 1
  let padw := constantOrDefaultSizeT padWidth 1
  let strideh := constantOrDefaultSizeT strideHeight 1
  let stridew := constantOrDefaultSizeT strideWidth 1
  match getShape input with
  | .error e => .error e
  | .ok shapeX =>
    let numRows := shapeX.1
    match outDim Hin padh Hf strideh with
    | .error e => .error e
    | .ok Hout =>
      match outDim Win padw Wf stridew with
      | .error e => .error e
      | .ok Wout =>
        let numCols : Nat := mulSz (mulSz C Hout) Wout
        .ok [(numRows, toSSizeT numCols), (1, 1), (1, 1)]

/-- The method `daphne::CTableOp::inferShape()`. -/
def CTableOp.inferShape (resNumRows resNumCols : Value) : Except Err (List Shape) :=
  .ok [(constantOrDefaultInt resNumRows (-1), constantOrDefaultInt resNumCols (-1))]

/-- The method `daphne::MatrixConstantOp::inferShape()`. The constant is the address of a
`Structure`; `deref` gives the `numRows` and `numCols` of the structure at an address, `none`
where there is none (reading it is undefined). -/
def MatrixConstantOp.inferShape (matrixAddr : Value) (deref : Nat → Option (Nat × Nat)) :
    Except Err (List Shape) :=
  match constantOrThrowUInt matrixAddr with
  | .error e => .error e
  | .ok addr =>
    match deref addr with
    | none => .error .undefinedBehaviour
    | some mat => .ok [(toSSizeT mat.1, toSSizeT mat.2)]

/-- The method `daphne::SliceRowOp::inferShape()`. -/
def SliceRowOp.inferShape (source lowerIncl upperExcl : Value) : Except Err (List Shape) :=
  let src : Except Err (Int × Int) :=
    match source.ty with
    | .unknown => .ok (-1, -1)
    | .matrix r c => .ok (r, c)
    | .frame r c _ => .ok (r, c)
    | _ => .error .sliceRowInput
  match src with
  | .error e => .error e
  | .ok (srcNumRows, srcNumCols) =>
    let loIn := isConstantInt lowerIncl
    let upEx := isConstantInt upperExcl
    if srcNumRows ≠ -1 ∧ loIn.1 ∧ upEx.1 then
      let loInPos := loIn.2
      let upExPos := upEx.2
      if loInPos < 0 ∨ loInPos ≥ srcNumRows then
        .error (.sliceRowLower loInPos srcNumRows)
      else if upExPos < 0 ∨ upExPos > srcNumRows then
        .error (.sliceRowUpper upExPos srcNumRows)
      else if loInPos > upExPos then
        .error (.sliceRowOrder loInPos upExPos)
      else .ok [(upExPos - loInPos, srcNumCols)]
    else .ok [(-1, srcNumCols)]

/-- The method `daphne::SliceColOp::inferShape()`. -/
def SliceColOp.inferShape (source lowerIncl upperExcl : Value) : Except Err (List Shape) :=
  let src : Except Err (Int × Int) :=
    match source.ty with
    | .matrix r c => .ok (r, c)
    | .frame r c _ => .ok (r, c)
    | _ => .error .sliceColInput
  match src with
  | .error e => .error e
  | .ok (srcNumRows, srcNumCols) =>
    let loIn := isConstantInt lowerIncl
    let upEx := isConstantInt upperExcl
    if srcNumCols ≠ -1 ∧ loIn.1 ∧ upEx.1 then
      let loInPos := loIn.2
      let upExPos := upEx.2
      if loInPos < 0 ∨ loInPos ≥ srcNumCols then
        .error (.sliceColLower loInPos srcNumCols)
      else if upExPos < 0 ∨ upExPos > srcNumCols then
        .error (.sliceColUpper upExPos srcNumCols)
      else if loInPos > upExPos then
        .error (.sliceColOrder loInPos upExPos)
      else .ok [(srcNumRows, upEx.2 - loIn.2)]
    else .ok [(srcNumRows, -1)]

/-- The loop `for (size_t i = 0; i < labels.size(); i++)` of `ExtractColOp::inferShape`
counting into `numCols`. -/
def ExtractColOp.inferShape.loop (frameName : List Char) : List (List Char) → Int → Int
  | [], numCols => numCols
  | label :: labels, numCols =>
    if frameNameOf label = frameName then
      ExtractColOp.inferShape.loop frameName labels (numCols + 1)
    else ExtractColOp.inferShape.loop frameName labels numCols

/-- The method `daphne::ExtractColOp::inferShape()`; `source` is operand 0 and
`selectedCols` operand 1. -/
def ExtractColOp.inferShape (source selectedCols : Value) : Except Err (List Shape) :=
  match getShape source with
  | .error e => .error e
  | .ok shapeSrc =>
    let srcNumRows := shapeSrc.1
    let dflt : Except Err (List Shape) :=
      match getShape selectedCols with
      | .error e => .error e
      | .ok shapeSel => .ok [(srcNumRows, shapeSel.2)]
    match source.ty, selectedCols.ty with
    | .frame _ _ labelsPtr, .sca .str =>
      match constantOrThrowStr selectedCols with
      | .error e => .error e
      | .ok label =>
        let frameName := frameNameOf label
        let colLabel := colLabelOf label
        if colLabel = ['*'] then
          match labelsPtr with
          | none => .error .undefinedBehaviour
          | some labels => .ok [(srcNumRows, ExtractColOp.inferShape.loop frameName labels 0)]
        else dflt
    | _, _ => dflt

/-- The method `daphne::EigenOp::inferShape()`. -/
def EigenOp.inferShape (arg : Value) : Except Err (List Shape) :=
  match getShape arg with
  | .error e => .error e
  | .ok shape => .ok [(shape.1, 1), (shape.1, shape.1)]

/-- The method `daphne::RecodeOp::inferShape()`. -/
def RecodeOp.inferShape (arg : Value) : Except Err (List Shape) :=
  let res : Except Err (Int × Int) :=
    match arg.ty with
    | .matrix r c => .ok (r, c)
    | .frame r c _ => .ok (r, c)
    | .unknown => .ok (-1, -1)
    | _ => .error .recodeInvalidType
  match res with
  | .error e => .error e
  | .ok (resNumRows, resNumCols) =>
    let dictNumRows : Int := -1
    let dictNumCols : Int := 1
    .ok [(resNumRows, resNumCols), (dictNumRows, dictNumCols)]

/-! ## Operations -/

/-- The operations that implement the `InferShape` interface, with the operands their
`inferShape()` reads. -/
inductive InferShapeOp where
  | CreateFrameOp (cols : List Value)
  | GroupJoinOp
  | GroupOp (frame : Value) (keyCol aggCol : List Value)
  | MatMulOp (lhs rhs transa transb : Value)
  | ReadOp (fileName : Value) (getFileMetaData : List Char → Except Err (Nat × Nat))
  | OrderOp (arg returnIdxs : Value)
  | CondOp (cond thenVal elseVal : Value)
  | Conv2DForwardOp (input filter inputHeight inputWidth filterHeight filterWidth padHeight
      padWidth strideHeight strideWidth : Value)
  | AvgPoolForwardOp (input inputNumChannels inputHeight inputWidth poolHeight poolWidth
      padHeight padWidth strideHeight strideWidth : Value)
  | MaxPoolForwardOp (input inputNumChannels inputHeight inputWidth poolHeight poolWidth
      padHeight padWidth strideHeight strideWidth : Value)
  | CTableOp (resNumRows resNumCols : Value)
  | MatrixConstantOp (matrixAddr : Value) (deref : Nat → Option (Nat × Nat))
  | SliceRowOp (source lowerIncl upperExcl : Value)
  | SliceColOp (source lowerIncl upperExcl : Value)
  | ExtractColOp (source selectedCols : Value)
  | EigenOp (arg : Value)
  | RecodeOp (arg : Value)

/-- The call `inferShapeOp.inferShape()` through the interface. -/
def InferShapeOp.inferShape : InferShapeOp → Except Err (List Shape)
  | .CreateFrameOp cols => CreateFrameOp.inferShape cols
  | .GroupJoinOp => GroupJoinOp.inferShape
  | .GroupOp frame keyCol aggCol => GroupOp.inferShape frame keyCol aggCol
  | .MatMulOp lhs rhs transa transb => MatMulOp.inferShape lhs rhs transa transb
  | .ReadOp fileName getFileMetaData => ReadOp.inferShape fileName getFileMetaData
  | .OrderOp arg returnIdxs => OrderOp.inferShape arg returnIdxs
  | .CondOp cond thenVal elseVal => CondOp.inferShape cond thenVal elseVal
  | .Conv2DForwardOp input filter inputHeight inputWidth filterHeight filterWidth padHeight
      padWidth strideHeight strideWidth =>
    Conv2DForwardOp.inferShape input filter inputHeight inputWidth filterHeight filterWidth
      padHeight padWidth strideHeight strideWidth
  | .AvgPoolForwardOp input inputNumChannels inputHeight inputWidth poolHeight poolWidth
      padHeight padWidth strideHeight strideWidth =>
    AvgPoolForwardOp.inferShape input inputNumChannels inputHeight inputWidth poolHeight
      poolWidth padHeight padWidth strideHeight strideWidth
  | .MaxPoolForwardOp input inputNumChannels inputHeight inputWidth poolHeight poolWidth
      padHeight padWidth strideHeight strideWidth =>
    MaxPoolForwardOp.inferShape input inputNumChannels inputHeight inputWidth poolHeight
      poolWidth padHeight padWidth strideHeight strideWidth
  | .CTableOp resNumRows resNumCols => CTableOp.inferShape resNumRows resNumCols
  | .MatrixConstantOp matrixAddr deref => MatrixConstantOp.inferShape matrixAddr deref
  | .SliceRowOp source lowerIncl upperExcl => SliceRowOp.inferShape source lowerIncl upperExcl
  | .SliceColOp source lowerIncl upperExcl => SliceColOp.inferShape source lowerIncl upperExcl
  | .ExtractColOp source selectedCols => ExtractColOp.inferShape source selectedCols
  | .EigenOp arg => EigenOp.inferShape arg
  | .RecodeOp arg => RecodeOp.inferShape arg

/-- The operations that implement the `InferNumRows` interface. -/
inductive InferNumRowsOp where
  | CartesianOp (lhs rhs : Value)
  | SeqOp (seqFrom seqTo seqInc : Value) (fpNumRows : Int)

/-- The call `inferNumRowsOp.inferNumRows()` through the interface. -/
def InferNumRowsOp.inferNumRows : InferNumRowsOp → Except Err Int
  | .CartesianOp lhs rhs => CartesianOp.inferNumRows lhs rhs
  | .SeqOp seqFrom seqTo seqInc fpNumRows => SeqOp.inferNumRows seqFrom seqTo seqInc fpNumRows

/-- The shape inference traits of an operation. -/
inductive Trait where
  | OneRow
  | OneCol
  | NumRowsFromIthScalar (i : Nat)
  | NumColsFromIthScalar (i : Nat)
  | NumRowsFromIthArg (i : Nat)
  | NumColsFromIthArg (i : Nat)
  | NumRowsFromIthArgNumCols (i : Nat)
  | NumColsFromIthArgNumRows (i : Nat)
  | NumRowsFromAllArgs
  | NumColsFromAllArgs
  | NumRowsFromSumOfAllArgs
  | NumColsFromSumOfAllArgs
  | ShapeFromIthArg (i : Nat)
  | ShapeEwBinary
  deriving DecidableEq, Repr

/-- An `mlir::Operation` as `tryInferShape` sees it: the `InferShape` implementation if the
operation has one, the number of results, the operands, the declared traits, the
`InferNumRows` implementation if it has one, and the outcome of `inferNumCols()` if it
implements `InferNumCols` (the source has no implementation of that interface). -/
structure Operation where
  inferShapeOp : Option InferShapeOp := none
  numResults : Nat := 1
  operands : List Value := []
  traits : List Trait := []
  inferNumRowsOp : Option InferNumRowsOp := none
  inferNumColsOp : Option (Except Err Int) := none

/-- The call `op->hasTrait<T>()`. -/
def Operation.hasTrait (op : Operation) (t : Trait) : Bool := op.traits.contains t

/-- The call `op->getOperand(i)`; undefined for an index beyond the operands. -/
def Operation.getOperand (op : Operation) (i : Nat) : Except Err Value :=
  match op.operands[i]? with
  | some v => .ok v
  | none => .error .undefinedBehaviour

/-! ## Shape inference trait implementations -/

/-- The template `tryNumRowsFromIthScalar<i>::apply`. -/
def tryNumRowsFromIthScalar (i : Nat) (shape : Shape) (op : Operation) : Except Err Shape :=
  if op.hasTrait (.NumRowsFromIthScalar i) then
    match op.getOperand i with
    | .error e => .error e
    | .ok v => .ok (constantOrDefaultInt v (-1), shape.2)
  else .ok shape

/-- The template `tryNumColsFromIthScalar<i>::apply`. -/
def tryNumColsFromIthScalar (i : Nat) (shape : Shape) (op : Operation) : Except Err Shape :=
  if op.hasTrait (.NumColsFromIthScalar i) then
    match op.getOperand i with
    | .error e => .error e
    | .ok v => .ok (shape.1, constantOrDefaultInt v (-1))
  else .ok shape

/-- The template `tryNumRowsFromIthArg<i>::apply`. -/
def tryNumRowsFromIthArg (i : Nat) (shape : Shape) (op : Operation) : Except Err Shape :=
  if op.hasTrait (.NumRowsFromIthArg i) then
    match op.getOperand i with
    | .error e => .error e
    | .ok v =>
      match getShape v with
      | .error e => .error e
      | .ok s => .ok (s.1, shape.2)
  else .ok shape

/-- The template `tryNumColsFromIthArg<i>::apply`. -/
def tryNumColsFromIthArg (i : Nat) (shape : Shape) (op : Operation) : Except Err Shape :=
  if op.hasTrait (.NumColsFromIthArg i) then
    match op.getOperand i with
    | .error e => .error e
    | .ok v =>
      match getShape v with
      | .error e => .error e
      | .ok s => .ok (shape.1, s.2)
  else .ok shape

/-- The template `tryNumRowsFromIthArgNumCols<i>::apply`. -/
def tryNumRowsFromIthArgNumCols (i : Nat) (shape : Shape) (op : Operation) :
    Except Err Shape :=
  if op.hasTrait (.NumRowsFromIthArgNumCols i) then
    match op.getOperand i with
    | .error e => .error e
    | .ok v =>
      match getShape v with
      | .error e => .error e
      | .ok s => .ok (s.2, shape.2)
  else .ok shape

/-- The template `tryNumColsFromIthArgNumRows<i>::apply`. -/
def tryNumColsFromIthArgNumRows (i : Nat) (shape : Shape) (op : Operation) :
    Except Err Shape :=
  if op.hasTrait (.NumColsFromIthArgNumRows i) then
    match op.getOperand i with
    | .error e => .error e
    | .ok v =>
      match getShape v with
      | .error e => .error e
      | .ok s => .ok (shape.1, s.1)
  else .ok shape

/-- The template `tryShapeFromIthArg<i>::apply`. -/
def tryShapeFromIthArg (i : Nat) (shape : Shape) (op : Operation) : Except Err Shape :=
  if op.hasTrait (.ShapeFromIthArg i) then
    match op.getOperand i with
    | .error e => .error e
    | .ok v => getShape v
  else .ok shape

/-- Modelled from the spec: the template `tryParamTraitUntil<upper, tryParametricTrait>` is
declared outside src; it applies the parametric trait for every index up to `upper`, here from
`upper` down to 0. -/
def tryParamTraitUntil (tryParametricTrait : Nat → Shape → Operation → Except Err Shape) :
    Nat → Shape → Operation → Except Err Shape
  | 0, shape, op => tryParametricTrait 0 shape op
  | upper + 1, shape, op =>
    match tryParametricTrait (upper + 1) shape op with
    | .error e => .error e
    | .ok shape1 => tryParamTraitUntil tryParametricTrait upper shape1 op

/-- The step `if (op->hasTrait<ShapeEwBinary>())` of `tryInferShape`. -/
def tryShapeEwBinary (shape : Shape) (op : Operation) : Except Err Shape :=
  if op.hasTrait .ShapeEwBinary then
    match op.getOperand 0 with
    | .error e => .error e
    | .ok v0 =>
      match getShape v0 with
      | .error e => .error e
      | .ok shapeLhs =>
        match op.getOperand 1 with
        | .error e => .error e
        | .ok v1 =>
          match getShape v1 with
          | .error e => .error e
          | .ok shapeRhs =>
            if shapeLhs.1 = -1 ∧ shapeLhs.2 = 1 ∧ shapeRhs.1 = -1 ∧ shapeRhs.2 = 1 then
              .ok (-1, 1)
            else if shapeRhs.1 = -1 ∨ shapeRhs.2 = -1 then .ok (-1, -1)
            else .ok (shapeLhs.1, shapeLhs.2)
  else .ok shape

/-! ## Shape inference function -/

/-- The branch of `tryInferShape` for an operation with exactly one result and without the
`InferShape` interface: the traits and the `InferNumRows` / `InferNumCols` interfaces, in the
order of the source. -/
def inferShapeFromTraits (op : Operation) : Except Err Shape := do
  let shape : Shape := (-1, -1)
  let shape : Shape := if op.hasTrait .OneRow then (1, shape.2) else shape
  let shape : Shape := if op.hasTrait .OneCol then (shape.1, 1) else shape
  let u : Nat := 9
  let shape ← tryParamTraitUntil tryNumRowsFromIthScalar u shape op
  let shape ← tryParamTraitUntil tryNumColsFromIthScalar u shape op
  let shape ← tryParamTraitUntil tryNumRowsFromIthArg u shape op
  let shape ← tryParamTraitUntil tryNumColsFromIthArg u shape op
  let shape ← tryParamTraitUntil tryNumRowsFromIthArgNumCols u shape op
  let shape ← tryParamTraitUntil tryNumColsFromIthArgNumRows u shape op
  let shape ←
    (if op.hasTrait .NumRowsFromAllArgs then
      (inferNumRowsFromArgs op.operands).map fun numRows => (numRows, shape.2)
    else .ok shape)
  let shape ←
    (if op.hasTrait .NumColsFromAllArgs then
      (inferNumColsFromArgs op.operands).map fun numCols => (shape.1, numCols)
    else .ok shape)
  let shape ←
    (if op.hasTrait .NumRowsFromSumOfAllArgs then
      (inferNumRowsFromSumOfArgs op.operands).map fun numRows => (numRows, shape.2)
    else .ok shape)
  let shape ←
    (if op.hasTrait .NumColsFromSumOfAllArgs then
      (inferNumColsFromSumOfArgs op.operands).map fun numCols => (shape.1, numCols)
    else .ok shape)
  let shape ← tryParamTraitUntil tryShapeFromIthArg u shape op
  let shape ← tryShapeEwBinary shape op
  let shape ←
    (match op.inferNumRowsOp with
    | some inferNumRowsOp => inferNumRowsOp.inferNumRows.map fun numRows => (numRows, shape.2)
    | none => .ok shape)
  let shape ←
    (match op.inferNumColsOp with
    | some inferNumCols => inferNumCols.map fun numCols => (shape.1, numCols)
    | none => .ok shape)
  return shape

/-- The loop `for (size_t i = 0; i < op->getNumResults(); i++) shapes.push_back({-1, -1})`
with the remaining number of rounds and the growing `shapes`. -/
def tryInferShape.loop : Nat → List Shape → List Shape
  | 0, shapes => shapes
  | n + 1, shapes => tryInferShape.loop n (shapes ++ [(-1, -1)])

/-- The function `daphne::tryInferShape(Operation *op)`. -/
def tryInferShape (op : Operation) : Except Err (List Shape) :=
  match op.inferShapeOp with
  | some inferShapeOp => inferShapeOp.inferShape
  | none =>
    if op.numResults = 1 then
      match inferShapeFromTraits op with
      | .error e => .error e
      | .ok shape => .ok [shape]
    else .ok (tryInferShape.loop op.numResults [])

/-! ## The invariant of shape pairs -/

/-- A field of a shape pair is a non-negative count or exactly the sentinel `-1`. -/
def validDim (d : Int) : Prop := 0 ≤ d ∨ d = -1

/-- Both fields of a shape pair are valid. -/
def validShape (s : Shape) : Prop := validDim s.1 ∧ validDim s.2

/-- The dimensions stored in the type of a value are valid fields and `ssize_t` values. -/
def Value.validDims (v : Value) : Prop :=
  match v.ty with
  | .matrix r c => validDim r ∧ validDim c ∧ r < 2 ^ 63 ∧ c < 2 ^ 63
  | .frame r c _ => validDim r ∧ validDim c ∧ r < 2 ^ 63 ∧ c < 2 ^ 63
  | .column r => validDim r ∧ r < 2 ^ 63
  | _ => True

/-- The operand values of an operation with the `InferShape` interface. -/
def InferShapeOp.operands : InferShapeOp → List Value
  | .CreateFrameOp cols => cols
  | .GroupJoinOp => []
  | .GroupOp frame keyCol aggCol => frame :: (keyCol ++ aggCol)
  | .MatMulOp lhs rhs transa transb => [lhs, rhs, transa, transb]
  | .ReadOp fileName _ => [fileName]
  | .OrderOp arg returnIdxs => [arg, returnIdxs]
  | .CondOp cond thenVal elseVal => [cond, thenVal, elseVal]
  | .Conv2DForwardOp input filter inputHeight inputWidth filterHeight filterWidth padHeight
      padWidth strideHeight strideWidth =>
    [input, filter, inputHeight, inputWidth, filterHeight, filterWidth, padHeight, padWidth,
      strideHeight, strideWidth]
  | .AvgPoolForwardOp input inputNumChannels inputHeight inputWidth poolHeight poolWidth
      padHeight padWidth strideHeight strideWidth =>
    [input, inputNumChannels, inputHeight, inputWidth, poolHeight, poolWidth, padHeight,
      padWidth, strideHeight, strideWidth]
  | .MaxPoolForwardOp input inputNumChannels inputHeight inputWidth poolHeight poolWidth
      padHeight padWidth strideHeight strideWidth =>
    [input, inputNumChannels, inputHeight, inputWidth, poolHeight, poolWidth, padHeight,
      padWidth, strideHeight, strideWidth]
  | .CTableOp resNumRows resNumCols => [resNumRows, resNumCols]
  | .MatrixConstantOp matrixAddr _ => [matrixAddr]
  | .SliceRowOp source lowerIncl upperExcl => [source, lowerIncl, upperExcl]
  | .SliceColOp source lowerIncl upperExcl => [source, lowerIncl, upperExcl]
  | .ExtractColOp source selectedCols => [source, selectedCols]
  | .EigenOp arg => [arg]
  | .RecodeOp arg => [arg]

/-- The operand values of an operation with the `InferNumRows` interface. -/
def InferNumRowsOp.operands : InferNumRowsOp → List Value
  | .CartesianOp lhs rhs => [lhs, rhs]
  | .SeqOp seqFrom seqTo seqInc _ => [seqFrom, seqTo, seqInc]

/-- All operand values shape inference of the operation can read. -/
def Operation.allOperands (op : Operation) : List Value :=
  op.operands ++
    (match op.inferShapeOp with
      | some inferShapeOp => inferShapeOp.operands
      | none => []) ++
    (match op.inferNumRowsOp with
      | some inferNumRowsOp => inferNumRowsOp.operands
      | none => [])

/-- The sum of the known counts among `dims`, those that are not `-1`. -/
def sumOfKnown (dims : List Int) : Int := (dims.filter (fun d => d ≠ -1)).sum

/-- The side conditions of the shape-pair invariant for a custom rule: what the rule takes
from a compile-time constant, from outside the operands or from `size_t` arithmetic is in
range, and the `ssize_t` sum of `CreateFrameOp` does not overflow. -/
def InferShapeOp.dimsInRange : InferShapeOp → Prop
  | .CreateFrameOp cols =>
    ∀ ss, HasShapes cols ss → sumOfKnown (ss.map Prod.snd) < 2 ^ 63
  | .CTableOp resNumRows resNumCols =>
    validDim (constantOrDefaultInt resNumRows (-1)) ∧
      validDim (constantOrDefaultInt resNumCols (-1))
  | .ReadOp fileName getFileMetaData =>
    ∀ fmd, getFileMetaData (isConstantStr fileName).2 = .ok fmd →
      fmd.1 < 2 ^ 63 ∧ fmd.2 < 2 ^ 63
  | .MatrixConstantOp matrixAddr deref =>
    ∀ addr mat, constantOrThrowUInt matrixAddr = .ok addr → deref addr = some mat →
      mat.1 < 2 ^ 63 ∧ mat.2 < 2 ^ 63
  | .GroupOp frame keyCol aggCol =>
    ∀ newLabels, GroupOp.inferShape.loop frame keyCol [] = .ok newLabels →
      newLabels.length + aggCol.length < 2 ^ 63
  | .Conv2DForwardOp _ filter inputHeight inputWidth filterHeight filterWidth padHeight
      padWidth strideHeight strideWidth =>
    ∀ shapeW Hout Wout, getShape filter = .ok shapeW →
      outDim (constantOrDefaultSizeT inputHeight 1) (constantOrDefaultSizeT padHeight 1)
        (constantOrDefaultSizeT filterHeight 1) (constantOrDefaultSizeT strideHeight 1)
        = .ok Hout →
      outDim (constantOrDefaultSizeT inputWidth 1) (constantOrDefaultSizeT padWidth 1)
        (constantOrDefaultSizeT filterWidth 1) (constantOrDefaultSizeT strideWidth 1)
        = .ok Wout →
      shapeW.1 ≠ -1 → toSizeT shapeW.1 * Hout * Wout < 2 ^ 63
  | .AvgPoolForwardOp _ inputNumChannels inputHeight inputWidth poolHeight poolWidth
      padHeight padWidth strideHeight strideWidth =>
    ∀ Hout Wout,
      outDim (constantOrDefaultSizeT inputHeight 1) (constantOrDefaultSizeT padHeight 1)
        (constantOrDefaultSizeT poolHeight 1) (constantOrDefaultSizeT strideHeight 1)
        = .ok Hout →
      outDim (constantOrDefaultSizeT inputWidth 1) (constantOrDefaultSizeT padWidth 1)
        (constantOrDefaultSizeT poolWidth 1) (constantOrDefaultSizeT strideWidth 1)
        = .ok Wout →
      constantOrDefaultSizeT inputNumChannels 1 * Hout * Wout < 2 ^ 63
  | .MaxPoolForwardOp _ inputNumChannels inputHeight inputWidth poolHeight poolWidth
      padHeight padWidth strideHeight strideWidth =>
    ∀ Hout Wout,
      outDim (constantOrDefaultSizeT inputHeight 1) (constantOrDefaultSizeT padHeight 1)
        (constantOrDefaultSizeT poolHeight 1) (constantOrDefaultSizeT strideHeight 1)
        = .ok Hout →
      outDim (constantOrDefaultSizeT inputWidth 1) (constantOrDefaultSizeT padWidth 1)
        (constantOrDefaultSizeT poolWidth 1) (constantOrDefaultSizeT strideWidth 1)
        = .ok Wout →
      constantOrDefaultSizeT inputNumChannels 1 * Hout * Wout < 2 ^ 63
  | _ => True

/-- The side conditions of the shape-pair invariant for an `InferNumRows` rule: the two row
counts of `CartesianOp` are known and their product is below `2^63`; the count of a
floating-point `SeqOp` is a valid field, and the constants of a signed 64-bit integer `SeqOp`
fit its `int` arithmetic: `|to - from| + 1` and `|inc|` are below `2^31`. -/
def InferNumRowsOp.dimsInRange : InferNumRowsOp → Prop
  | .CartesianOp lhs rhs =>
    ∀ shapeLhs shapeRhs, getShape lhs = .ok shapeLhs → getShape rhs = .ok shapeRhs →
      shapeLhs.1 ≠ -1 ∧ shapeRhs.1 ≠ -1 ∧ shapeLhs.1 * shapeRhs.1 < 2 ^ 63
  | .SeqOp seqFrom seqTo seqInc fpNumRows =>
    (seqFrom.ty = .sca .f64 ∨ seqFrom.ty = .sca .f32 → validDim fpNumRows) ∧
      (seqFrom.ty = .sca .si64 → ∀ vFrom vTo vInc : Int, seqFrom.cst = some (.int vFrom) →
        seqTo.cst = some (.int vTo) → seqInc.cst = some (.int vInc) →
        |vTo - vFrom| + 1 < 2 ^ 31 ∧ |vInc| < 2 ^ 31)

/-- The side conditions of the shape-pair invariant for an operation: those of its custom
rule; without one, every constant read by an i-th-scalar trait with `i ≤ 9` is a valid
field, the `InferNumRows` rule is in range, the value of `inferNumCols()` is a valid field,
and the sum of the known row (column) counts of the operands is below `2^63` if the operation
takes its rows (columns) from the sum of all arguments. -/
def Operation.dimsInRange (op : Operation) : Prop :=
  match op.inferShapeOp with
  | some inferShapeOp => inferShapeOp.dimsInRange
  | none =>
    (∀ i v, i ≤ 9 → op.operands[i]? = some v →
      op.hasTrait (.NumRowsFromIthScalar i) = true ∨
        op.hasTrait (.NumColsFromIthScalar i) = true →
      validDim (constantOrDefaultInt v (-1))) ∧
    (∀ inferNumRowsOp, op.inferNumRowsOp = some inferNumRowsOp →
      inferNumRowsOp.dimsInRange) ∧
    (∀ numCols, op.inferNumColsOp = some (.ok numCols) → validDim numCols) ∧
    (op.hasTrait .NumRowsFromSumOfAllArgs = true → ∀ ss, HasShapes op.operands ss →
      sumOfKnown (ss.map Prod.fst) < 2 ^ 63) ∧
    (op.hasTrait .NumColsFromSumOfAllArgs = true → ∀ ss, HasShapes op.operands ss →
      sumOfKnown (ss.map Prod.snd) < 2 ^ 63)

/-! ## Labels in the words of the specification -/

/-- The part of a label before its first `'.'`; the whole label if it has no `'.'`. -/
def prefixBeforeDot (label : List Char) : List Char := label.takeWhile (fun ch => ch != '.')

/-- The number of labels whose prefix before the first `'.'` equals the frame name. -/
def countFrameLabels (frameName : List Char) (labels : List (List Char)) : Nat :=
  (labels.filter (fun label => prefixBeforeDot label = frameName)).length

/-- The number of columns a group key stands for: all labels for `"*"`, the labels of the
frame `f` for a key `"f.*"` with a frame name `f` without `'.'`, one column for any other
key. -/
def expandCount (labels : List (List Char)) (key : List Char) : Nat :=
  if key = ['*'] then labels.length
  else if key = prefixBeforeDot key ++ ['.', '*'] then
    countFrameLabels (prefixBeforeDot key) labels
  else 1

/-! ## The trait engine in the words of the specification -/

/-- The shape of the operand `i` of the operation. -/
def operandShape (op : Operation) (i : Nat) : Except Err Shape :=
  match op.getOperand i with
  | .error e => .error e
  | .ok v => getShape v

/-- The row count of the operand `i`. -/
def operandRows (op : Operation) (i : Nat) : Except Err Int :=
  (operandShape op i).map Prod.fst

/-- The column count of the operand `i`. -/
def operandCols (op : Operation) (i : Nat) : Except Err Int :=
  (operandShape op i).map Prod.snd

/-- The integer constant that defines the operand `i`, `-1` if the operand is no integer
constant. -/
def operandScalar (op : Operation) (i : Nat) : Except Err Int :=
  match op.getOperand i with
  | .error e => .error e
  | .ok v => .ok (constantOrDefaultInt v (-1))

/-- The element-wise binary rule on the shape `l` of the left and `r` of the right operand:
`(-1, 1)` if both are `(-1, 1)`; otherwise `(-1, -1)` if a field of `r` is `-1`; otherwise
`l`. -/
def ewBinaryRule (l r : Shape) : Shape :=
  if l = (-1, 1) ∧ r = (-1, 1) then (-1, 1)
  else if r.1 = -1 ∨ r.2 = -1 then (-1, -1)
  else l

/-- The shape the element-wise binary rule gives for the operands 0 and 1 of the operation. -/
def ewBinaryShape (op : Operation) : Except Err Shape :=
  match operandShape op 0 with
  | .error e => .error e
  | .ok l =>
    match operandShape op 1 with
    | .error e => .error e
    | .ok r => .ok (ewBinaryRule l r)

/-- The indices `upper`, ..., 1, 0 of a parametric trait, in the order in which they are
tried. -/
def traitIndices : Nat → List Nat
  | 0 => [0]
  | upper + 1 => (upper + 1) :: traitIndices upper

/-- What a step sets a field to: the outcome `x` of computing the field if the operation
declares the trait of the step, nothing otherwise. -/
def ifDeclared (op : Operation) (t : Trait) (x : Except Err Int) : Option (Except Err Int) :=
  if op.hasTrait t then some x else none

/-- The steps of the trait engine in their fixed order, each as the pair of what it sets the
row count to and what it sets the column count to; `none` stands for a field that the step
does not govern or whose trait the operation does not declare. -/
def traitSteps (op : Operation) : List (Option (Except Err Int) × Option (Except Err Int)) :=
  [(ifDeclared op .OneRow (.ok 1), none), (none, ifDeclared op .OneCol (.ok 1))] ++
  (traitIndices 9).map (fun i =>
    (ifDeclared op (.NumRowsFromIthScalar i) (operandScalar op i), none)) ++
  (traitIndices 9).map (fun i =>
    (none, ifDeclared op (.NumColsFromIthScalar i) (operandScalar op i))) ++
  (traitIndices 9).map (fun i =>
    (ifDeclared op (.NumRowsFromIthArg i) (operandRows op i), none)) ++
  (traitIndices 9).map (fun i =>
    (none, ifDeclared op (.NumColsFromIthArg i) (operandCols op i))) ++
  (traitIndices 9).map (fun i =>
    (ifDeclared op (.NumRowsFromIthArgNumCols i) (operandCols op i), none)) ++
  (traitIndices 9).map (fun i =>
    (none, ifDeclared op (.NumColsFromIthArgNumRows i) (operandRows op i))) ++
  [(ifDeclared op .NumRowsFromAllArgs (inferNumRowsFromArgs op.operands), none),
    (none, ifDeclared op .NumColsFromAllArgs (inferNumColsFromArgs op.operands)),
    (ifDeclared op .NumRowsFromSumOfAllArgs (inferNumRowsFromSumOfArgs op.operands), none),
    (none, ifDeclared op .NumColsFromSumOfAllArgs (inferNumColsFromSumOfArgs op.operands))] ++
  (traitIndices 9).map (fun i =>
    (ifDeclared op (.ShapeFromIthArg i) (operandRows op i),
      ifDeclared op (.ShapeFromIthArg i) (operandCols op i))) ++
  [(ifDeclared op .ShapeEwBinary ((ewBinaryShape op).map Prod.fst),
      ifDeclared op .ShapeEwBinary ((ewBinaryShape op).map Prod.snd)),
    (op.inferNumRowsOp.map InferNumRowsOp.inferNumRows, none),
    (none, op.inferNumColsOp)]

/-- The row-governing steps the operation declares, in the fixed order (OneRow; rows from the
i-th scalar; rows from the i-th argument; rows from the columns of the i-th argument; rows
from all arguments; rows from the sum; shape from the i-th argument; element-wise binary; row
hook), each as the row count it produces. -/
def declaredRowSteps (op : Operation) : List (Except Err Int) :=
  (traitSteps op).filterMap Prod.fst

/-- The column-governing steps the operation declares, in the fixed order, each as the column
count it produces. -/
def declaredColSteps (op : Operation) : List (Except Err Int) :=
  (traitSteps op).filterMap Prod.snd

/-- One step applied to a shape: a field the step sets gets the computed value, the other
field is kept; an exception of a computation is the outcome. -/
def applyStep (shape : Shape) (st : Option (Except Err Int) × Option (Except Err Int)) :
    Except Err Shape :=
  match st.1.getD (.ok shape.1) with
  | .error e => .error e
  | .ok r =>
    match st.2.getD (.ok shape.2) with
    | .error e => .error e
    | .ok c => .ok (r, c)

/-- The steps applied one after the other. -/
def applySteps : List (Option (Except Err Int) × Option (Except Err Int)) → Shape →
    Except Err Shape
  | [], shape => .ok shape
  | st :: sts, shape =>
    match applyStep shape st with
    | .error e => .error e
    | .ok shape1 => applySteps sts shape1

/-- The exception `inferNumColsFromArgs` throws where `inferNumRowsFromArgs` throws `e`,
and conversely. -/
def Err.mirror : Err → Err
  | .rowsMismatch a b => .colsMismatch a b
  | .colsMismatch a b => .rowsMismatch a b
  | e => e

/-! ## Lemmas on the utilities -/

theorem hasShapes_nil_left {ss : List Shape} (h : HasShapes [] ss) : ss = [] := by
  cases h
  rfl

theorem hasShapes_cons_left {v : Value} {vs : List Value} {ss : List Shape}
    (h : HasShapes (v :: vs) ss) :
    ∃ s rest, ss = s :: rest ∧ getShape v = .ok s ∧ HasShapes vs rest := by
  cases h with
  | cons h1 h2 => exact ⟨_, _, rfl, h1, h2⟩

/-- An exception of the row loop is a mismatch of two known, different counts: the first is
the carried count or the count of a scanned value, the second the count of a scanned value. -/
theorem rowsLoop_error (vs : List Value) :
    ∀ (ss : List Shape) (n : Int) (u : Bool) (e : Err), HasShapes vs ss →
      inferNumRowsFromArgs.loop vs n u = .error e →
      ∃ a b, e = .rowsMismatch a b ∧ a ≠ -1 ∧ b ≠ -1 ∧ a ≠ b ∧
        (a = n ∨ ∃ s ∈ ss, s.1 = a) ∧ ∃ t ∈ ss, t.1 = b := by
  induction vs with
  | nil =>
    intro ss n u e _ h
    simp [inferNumRowsFromArgs.loop] at h
  | cons v vs ih =>
    intro ss n u e hs h
    obtain ⟨s, rest, rfl, hv, hrest⟩ := hasShapes_cons_left hs
    simp only [inferNumRowsFromArgs.loop, hv] at h
    by_cases h1 : s.1 = -1
    · simp only [h1, if_true] at h
      obtain ⟨a, b, he, ha, hb, hab, hl, t, ht, htb⟩ := ih rest n true e hrest h
      refine ⟨a, b, he, ha, hb, hab, ?_, t, List.mem_cons_of_mem _ ht, htb⟩
      rcases hl with hl | ⟨x, hx, hxa⟩
      · exact Or.inl hl
      · exact Or.inr ⟨x, List.mem_cons_of_mem _ hx, hxa⟩
    · simp only [h1, if_false] at h
      by_cases h2 : n = -1
      · simp only [h2, if_true] at h
        obtain ⟨a, b, he, ha, hb, hab, hl, t, ht, htb⟩ := ih rest s.1 u e hrest h
        refine ⟨a, b, he, ha, hb, hab, Or.inr ?_, t, List.mem_cons_of_mem _ ht, htb⟩
        rcases hl with hl | ⟨x, hx, hxa⟩
        · exact ⟨s, List.mem_cons_self _ _, hl.symm⟩
        · exact ⟨x, List.mem_cons_of_mem _ hx, hxa⟩
      · simp only [h2, if_false] at h
        by_cases h3 : s.1 = n
        · simp only [h3, ne_eq, not_true_eq_false, if_false] at h
          obtain ⟨a, b, he, ha, hb, hab, hl, t, ht, htb⟩ := ih rest n u e hrest h
          refine ⟨a, b, he, ha, hb, hab, ?_, t, List.mem_cons_of_mem _ ht, htb⟩
          rcases hl with hl | ⟨x, hx, hxa⟩
          · exact Or.inl hl
          · exact Or.inr ⟨x, List.mem_cons_of_mem _ hx, hxa⟩
        · simp only [ne_eq, h3, not_false_eq_true, if_true] at h
          cases h
          exact ⟨n, s.1, rfl, h2, h1, fun h => h3 h.symm, Or.inl rfl,
            s, List.mem_cons_self _ _, rfl⟩

/-- When the row loop ends normally, every known scanned count equals the final count,
a known carried count is kept, the final count is the carried one or a scanned one, and the
flag is set exactly if it was set before or some scanned count is unknown. -/
theorem rowsLoop_ok (vs : List Value) :
    ∀ (ss : List Shape) (n : Int) (u : Bool) (m : Int) (w : Bool), HasShapes vs ss →
      inferNumRowsFromArgs.loop vs n u = .ok (m, w) →
      (∀ s ∈ ss, s.1 ≠ -1 → s.1 = m) ∧ (n ≠ -1 → m = n) ∧
        (m = n ∨ ∃ s ∈ ss, s.1 = m) ∧ (w = true ↔ u = true ∨ ∃ s ∈ ss, s.1 = -1) := by
  induction vs with
  | nil =>
    intro ss n u m w hs h
    have := hasShapes_nil_left hs
    subst this
    simp only [inferNumRowsFromArgs.loop, Except.ok.injEq, Prod.mk.injEq] at h
    obtain ⟨rfl, rfl⟩ := h
    simp
  | cons v vs ih =>
    intro ss n u m w hs h
    obtain ⟨s, rest, rfl, hv, hrest⟩ := hasShapes_cons_left hs
    simp only [inferNumRowsFromArgs.loop, hv] at h
    by_cases h1 : s.1 = -1
    · simp only [h1, if_true] at h
      obtain ⟨hall, hn, hm, hw⟩ := ih rest n true m w hrest h
      refine ⟨?_, hn, ?_, ?_⟩
      · intro t ht htk
        rcases List.mem_cons.mp ht with rfl | ht
        · exact absurd h1 htk
        · exact hall t ht htk
      · rcases hm with hm | ⟨x, hx, hxm⟩
        · exact Or.inl hm
        · exact Or.inr ⟨x, List.mem_cons_of_mem _ hx, hxm⟩
      · have hw1 : w = true := hw.mpr (Or.inl rfl)
        simp only [hw1, true_iff]
        exact Or.inr ⟨s, List.mem_cons_self _ _, h1⟩
    · simp only [h1, if_false] at h
      by_cases h2 : n = -1
      · simp only [h2, if_true] at h
        obtain ⟨hall, hn, hm, hw⟩ := ih rest s.1 u m w hrest h
        have hms : m = s.1 := hn h1
        refine ⟨?_, ?_, ?_, ?_⟩
        · intro t ht htk
          rcases List.mem_cons.mp ht with rfl | ht
          · exact hms.symm
          · exact hall t ht htk
        · intro hc
          exact absurd h2 hc
        · exact Or.inr ⟨s, List.mem_cons_self _ _, hms.symm⟩
        · rw [hw]
          constructor
          · rintro (hu | ⟨x, hx, hxu⟩)
            · exact Or.inl hu
            · exact Or.inr ⟨x, List.mem_cons_of_mem _ hx, hxu⟩
          · rintro (hu | ⟨x, hx, hxu⟩)
            · exact Or.inl hu
            · rcases List.mem_cons.mp hx with rfl | hx
              · exact absurd hxu h1
              · exact Or.inr ⟨x, hx, hxu⟩
      · simp only [h2, if_false] at h
        by_cases h3 : s.1 = n
        · simp only [h3, ne_eq, not_true_eq_false, if_false] at h
          obtain ⟨hall, hn, hm, hw⟩ := ih rest n u m w hrest h
          refine ⟨?_, hn, ?_, ?_⟩
          · intro t ht htk
            rcases List.mem_cons.mp ht with rfl | ht
            · rw [h3]
              exact (hn h2).symm
            · exact hall t ht htk
          · exact Or.inl (hn h2)
          · rw [hw]
            constructor
            · rintro (hu | ⟨x, hx, hxu⟩)
              · exact Or.inl hu
              · exact Or.inr ⟨x, List.mem_cons_of_mem _ hx, hxu⟩
            · rintro (hu | ⟨x, hx, hxu⟩)
              · exact Or.inl hu
              · rcases List.mem_cons.mp hx with rfl | hx
                · exact absurd hxu h1
                · exact Or.inr ⟨x, hx, hxu⟩
        · simp only [ne_eq, h3, not_false_eq_true, if_true] at h
          cases h

/-- Any exception of `inferNumRowsFromArgs` on values with shapes is a mismatch of two known,
different row counts of two of the values. -/
theorem rows_error {vs : List Value} {ss : List Shape} {e : Err} (hs : HasShapes vs ss)
    (hne : vs ≠ []) (h : inferNumRowsFromArgs vs = .error e) :
    ∃ a b, e = .rowsMismatch a b ∧ a ≠ -1 ∧ b ≠ -1 ∧ a ≠ b ∧
      (∃ s ∈ ss, s.1 = a) ∧ ∃ t ∈ ss, t.1 = b := by
  cases vs with
  | nil => exact absurd rfl hne
  | cons v0 rest =>
    obtain ⟨s0, ss1, rfl, hv, hrest⟩ := hasShapes_cons_left hs
    simp only [inferNumRowsFromArgs, hv] at h
    cases hl : inferNumRowsFromArgs.loop rest s0.1 (decide (s0.1 = -1)) with
    | error e1 =>
      rw [hl] at h
      cases h
      obtain ⟨a, b, he, ha, hb, hab, hfst, t, ht, htb⟩ := rowsLoop_error rest ss1 _ _ _ hrest hl
      refine ⟨a, b, he, ha, hb, hab, ?_, t, List.mem_cons_of_mem _ ht, htb⟩
      rcases hfst with hfst | ⟨x, hx, hxa⟩
      · exact ⟨s0, List.mem_cons_self _ _, hfst.symm⟩
      · exact ⟨x, List.mem_cons_of_mem _ hx, hxa⟩
    | ok r =>
      rw [hl] at h
      cases h

/-- When `inferNumRowsFromArgs` returns `m` on values with shapes: all known row counts equal
each other; `m` is `-1` if some row count is unknown; otherwise `m` is the common row count. -/
theorem rows_ok {vs : List Value} {ss : List Shape} {m : Int} (hs : HasShapes vs ss)
    (h : inferNumRowsFromArgs vs = .ok m) :
    (∀ s ∈ ss, ∀ t ∈ ss, s.1 ≠ -1 → t.1 ≠ -1 → s.1 = t.1) ∧
      ((∃ s ∈ ss, s.1 = -1) → m = -1) ∧
      ((∀ s ∈ ss, s.1 ≠ -1) → ∀ s ∈ ss, s.1 = m) := by
  cases vs with
  | nil => simp [inferNumRowsFromArgs] at h
  | cons v0 rest =>
    obtain ⟨s0, ss1, rfl, hv, hrest⟩ := hasShapes_cons_left hs
    simp only [inferNumRowsFromArgs, hv] at h
    cases hl : inferNumRowsFromArgs.loop rest s0.1 (decide (s0.1 = -1)) with
    | error e1 =>
      rw [hl] at h
      cases h
    | ok r =>
      obtain ⟨m1, w⟩ := r
      rw [hl] at h
      simp only [Except.ok.injEq] at h
      obtain ⟨hall, hn, -, hw⟩ := rowsLoop_ok rest ss1 _ _ _ _ hrest hl
      have hknown : ∀ s ∈ s0 :: ss1, s.1 ≠ -1 → s.1 = m1 := by
        intro s hmem hk
        rcases List.mem_cons.mp hmem with rfl | hmem
        · exact (hn hk).symm
        · exact hall s hmem hk
      refine ⟨?_, ?_, ?_⟩
      · intro s hsm t htm hsk htk
        rw [hknown s hsm hsk, hknown t htm htk]
      · rintro ⟨x, hx, hxu⟩
        have hw1 : w = true := by
          rw [hw]
          rcases List.mem_cons.mp hx with rfl | hx
          · exact Or.inl (by simp [hxu])
          · exact Or.inr ⟨x, hx, hxu⟩
        rw [hw1] at h
        simpa using h.symm
      · intro hallk s hsm
        have hw0 : w = false := by
          cases hwc : w with
          | false => rfl
          | true =>
            rcases hw.mp hwc with hu | ⟨x, hx, hxu⟩
            · exact absurd (of_decide_eq_true hu) (hallk s0 (List.mem_cons_self _ _))
            · exact absurd hxu (hallk x (List.mem_cons_of_mem _ hx))
        rw [hw0] at h
        simp only [Bool.false_eq_true, if_false] at h
        rw [← h]
        exact hknown s hsm (hallk s hsm)

/-- The row loop started with the agreed known count returns it when every scanned value has
that row count. -/
theorem rowsLoop_all_equal (r : Int) (hr : r ≠ -1) (vs : List Value)
    (hall : ∀ v ∈ vs, ∃ c, getShape v = .ok (r, c)) :
    inferNumRowsFromArgs.loop vs r false = .ok (r, false) := by
  induction vs with
  | nil => rfl
  | cons v vs ih =>
    obtain ⟨c, hc⟩ := hall v (List.mem_cons_self _ _)
    simp only [inferNumRowsFromArgs.loop, hc, hr, if_false, ne_eq, not_true_eq_false]
    exact ih (fun w hw => hall w (List.mem_cons_of_mem _ hw))

/-! ## The claims on the utilities -/

/-- C1: for a non-empty argument list in which every argument has the known row count `r`
(`r ≠ -1`), `inferNumRowsFromArgs` succeeds and returns `r`. -/
theorem C1_inferNumRowsFromArgs_all_known (vs : List Value) (r : Int) (hne : vs ≠ [])
    (hr : r ≠ -1) (hall : ∀ v ∈ vs, ∃ c, getShape v = .ok (r, c)) :
    inferNumRowsFromArgs vs = .ok r := by
  cases vs with
  | nil => exact absurd rfl hne
  | cons v0 rest =>
    obtain ⟨c, hc⟩ := hall v0 (List.mem_cons_self _ _)
    have hl := rowsLoop_all_equal r hr rest (fun w hw => hall w (List.mem_cons_of_mem _ hw))
    simp [inferNumRowsFromArgs, hc, hr, hl]

/-- Witness of C1: a matrix, a frame and a column with 3 rows give 3. -/
theorem C1_witness :
    inferNumRowsFromArgs
      [⟨.matrix 3 4, none⟩, ⟨.frame 3 2 none, none⟩, ⟨.column 3, none⟩] = .ok 3 :=
  C1_inferNumRowsFromArgs_all_known _ 3 (by simp) (by decide) (by
    intro v hv
    simp only [List.mem_cons, List.mem_singleton, List.not_mem_nil, or_false] at hv
    rcases hv with rfl | rfl | rfl <;> exact ⟨_, rfl⟩)

/-- C2: on a non-empty list of arguments with shapes `ss`, `inferNumRowsFromArgs` fails exactly
if two arguments have known, different row counts, wherever arguments with unknown rows stand;
every failure is a mismatch whose two reported counts are known, different row counts of
arguments; rows 5 and 7 are reported as 5 and 7. -/
theorem C2_inferNumRowsFromArgs_mismatch (vs : List Value) (ss : List Shape) (hne : vs ≠ [])
    (hs : HasShapes vs ss) :
    (failed (inferNumRowsFromArgs vs) = true ↔
        ∃ s ∈ ss, ∃ t ∈ ss, s.1 ≠ -1 ∧ t.1 ≠ -1 ∧ s.1 ≠ t.1) ∧
      (∀ e, inferNumRowsFromArgs vs = .error e →
        ∃ a b, e = .rowsMismatch a b ∧ a ≠ -1 ∧ b ≠ -1 ∧ a ≠ b ∧
          (∃ s ∈ ss, s.1 = a) ∧ ∃ t ∈ ss, t.1 = b) ∧
      inferNumRowsFromArgs [⟨.matrix 5 1, none⟩, ⟨.matrix 7 1, none⟩]
        = .error (.rowsMismatch 5 7) := by
  refine ⟨?_, fun e he => rows_error hs hne he, rfl⟩
  cases hres : inferNumRowsFromArgs vs with
  | error e =>
    simp only [failed, true_iff]
    obtain ⟨a, b, -, ha, hb, hab, ⟨s, hsm, hsa⟩, t, htm, htb⟩ := rows_error hs hne hres
    exact ⟨s, hsm, t, htm, by rw [hsa]; exact ha, by rw [htb]; exact hb, by rw [hsa, htb]; exact hab⟩
  | ok m =>
    simp only [failed, Bool.false_eq_true, false_iff]
    rintro ⟨s, hsm, t, htm, hsk, htk, hne1⟩
    exact hne1 ((rows_ok hs hres).1 s hsm t htm hsk htk)

/-- Witness of C2: with rows 5, unknown, 7 the failure reports 5 and 7. -/
theorem C2_witness :
    inferNumRowsFromArgs [⟨.matrix 5 1, none⟩, ⟨.matrix (-1) 1, none⟩, ⟨.frame 7 2 none, none⟩]
      = .error (.rowsMismatch 5 7) ∧
    (failed (inferNumRowsFromArgs
        [⟨.matrix 5 1, none⟩, ⟨.matrix (-1) 1, none⟩, ⟨.frame 7 2 none, none⟩]) = true ↔
      ∃ s ∈ [((5 : Int), (1 : Int)), (-1, 1), (7, 2)],
        ∃ t ∈ [((5 : Int), (1 : Int)), (-1, 1), (7, 2)], s.1 ≠ -1 ∧ t.1 ≠ -1 ∧ s.1 ≠ t.1) :=
  ⟨rfl,
    (C2_inferNumRowsFromArgs_mismatch
      [⟨.matrix 5 1, none⟩, ⟨.matrix (-1) 1, none⟩, ⟨.frame 7 2 none, none⟩]
      [(5, 1), (-1, 1), (7, 2)] (by simp)
      (List.Forall₂.cons rfl (List.Forall₂.cons rfl (List.Forall₂.cons rfl List.Forall₂.nil)))).1⟩

/-- C3: on a non-empty list of arguments with shapes `ss` in which no two known row counts
differ and some row count is unknown, `inferNumRowsFromArgs` returns the sentinel `-1`. -/
theorem C3_inferNumRowsFromArgs_some_unknown (vs : List Value) (ss : List Shape)
    (hne : vs ≠ []) (hs : HasShapes vs ss)
    (hagree : ∀ s ∈ ss, ∀ t ∈ ss, s.1 ≠ -1 → t.1 ≠ -1 → s.1 = t.1)
    (hunk : ∃ s ∈ ss, s.1 = -1) :
    inferNumRowsFromArgs vs = .ok (-1) := by
  cases hres : inferNumRowsFromArgs vs with
  | error e =>
    obtain ⟨a, b, -, ha, hb, hab, ⟨s, hsm, hsa⟩, t, htm, htb⟩ := rows_error hs hne hres
    exact absurd (hagree s hsm t htm (by rw [hsa]; exact ha) (by rw [htb]; exact hb))
      (by rw [hsa, htb]; exact hab)
  | ok m =>
    rw [(rows_ok hs hres).2.1 hunk]

/-- Witness of C3: rows 4, 4, unknown give `-1`, not 4. -/
theorem C3_witness :
    inferNumRowsFromArgs [⟨.matrix 4 2, none⟩, ⟨.frame 4 3 none, none⟩, ⟨.matrix (-1) 2, none⟩]
      = .ok (-1) :=
  C3_inferNumRowsFromArgs_some_unknown
    [⟨.matrix 4 2, none⟩, ⟨.frame 4 3 none, none⟩, ⟨.matrix (-1) 2, none⟩]
    [(4, 2), (4, 3), (-1, 2)] (by simp)
    (List.Forall₂.cons rfl (List.Forall₂.cons rfl (List.Forall₂.cons rfl List.Forall₂.nil)))
    (by decide) (by decide)

/-- The column loop on values with shapes `ss` runs like the row loop on values with the
swapped shapes. -/
theorem colsLoop_mirror (vs : List Value) :
    ∀ (ws : List Value) (ss : List Shape) (n : Int) (u : Bool), HasShapes vs ss →
      HasShapes ws (ss.map Prod.swap) →
      inferNumColsFromArgs.loop vs n u
        = (inferNumRowsFromArgs.loop ws n u).mapError Err.mirror := by
  induction vs with
  | nil =>
    intro ws ss n u hs hw
    have := hasShapes_nil_left hs
    subst this
    cases hw
    rfl
  | cons v vs ih =>
    intro ws ss n u hs hw
    obtain ⟨s, rest, rfl, hv, hrest⟩ := hasShapes_cons_left hs
    cases hw with
    | cons hw1 hw2 =>
      rename_i w ws1
      simp only [inferNumColsFromArgs.loop, inferNumRowsFromArgs.loop, hv, hw1, Prod.swap,
        Prod.fst, Prod.snd]
      by_cases h1 : s.2 = -1
      · simp only [h1, if_true]
        exact ih ws1 rest n true hrest hw2
      · simp only [h1, if_false]
        by_cases h2 : n = -1
        · simp only [h2, if_true]
          exact ih ws1 rest s.2 u hrest hw2
        · simp only [h2, if_false]
          by_cases h3 : s.2 = n
          · simp only [h3, ne_eq, not_true_eq_false, if_false]
            exact ih ws1 rest n u hrest hw2
          · simp only [ne_eq, h3, not_false_eq_true, if_true]
            rfl

/-- Mirror lemma for the whole functions. -/
theorem cols_mirror {vs ws : List Value} {ss : List Shape} (hs : HasShapes vs ss)
    (hw : HasShapes ws (ss.map Prod.swap)) :
    inferNumColsFromArgs vs = (inferNumRowsFromArgs ws).mapError Err.mirror := by
  cases vs with
  | nil =>
    have := hasShapes_nil_left hs
    subst this
    cases hw
    rfl
  | cons v0 rest =>
    obtain ⟨s0, ss1, rfl, hv, hrest⟩ := hasShapes_cons_left hs
    cases hw with
    | cons hw1 hw2 =>
      rename_i w ws1
      simp only [inferNumColsFromArgs, inferNumRowsFromArgs, hv, hw1, Prod.swap, Prod.fst,
        Prod.snd]
      rw [colsLoop_mirror rest ws1 ss1 _ _ hrest hw2]
      cases inferNumRowsFromArgs.loop ws1 s0.2 (decide (s0.2 = -1)) with
      | error e => rfl
      | ok r => rfl

/-- C4: `inferNumColsFromArgs` mirrors `inferNumRowsFromArgs`: on a non-empty list of values
with shapes `ss` it returns the value that `inferNumRowsFromArgs` returns on values with the
swapped shapes, and it fails exactly if that one fails, with the same two reported counts. -/
theorem C4_inferNumColsFromArgs_mirror (vs ws : List Value) (ss : List Shape)
    (hne : vs ≠ []) (hs : HasShapes vs ss) (hw : HasShapes ws (ss.map Prod.swap)) :
    (inferNumColsFromArgs vs).toOption = (inferNumRowsFromArgs ws).toOption ∧
      failed (inferNumColsFromArgs vs) = failed (inferNumRowsFromArgs ws) ∧
      ∀ a b, inferNumColsFromArgs vs = .error (.colsMismatch a b) ↔
        inferNumRowsFromArgs ws = .error (.rowsMismatch a b) := by
  have hwne : ws ≠ [] := by
    rintro rfl
    cases hw_len : ss with
    | nil =>
      subst hw_len
      cases hs
      exact hne rfl
    | cons s rest =>
      subst hw_len
      cases hw
  rw [cols_mirror hs hw]
  cases hres : inferNumRowsFromArgs ws with
  | ok m => exact ⟨rfl, rfl, fun a b => by simp [Except.mapError]⟩
  | error e =>
    obtain ⟨a, b, rfl, -⟩ := rows_error hw hwne hres
    refine ⟨rfl, rfl, fun c d => ?_⟩
    simp [Except.mapError, Err.mirror]

/-- Witness of C4: columns 4, unknown, 4 against rows 4, unknown, 4. -/
theorem C4_witness :
    (inferNumColsFromArgs
        [⟨.matrix 2 4, none⟩, ⟨.matrix 3 (-1), none⟩, ⟨.frame 5 4 none, none⟩]).toOption
      = (inferNumRowsFromArgs
        [⟨.matrix 4 2, none⟩, ⟨.matrix (-1) 3, none⟩, ⟨.frame 4 5 none, none⟩]).toOption ∧
    (inferNumColsFromArgs
        [⟨.matrix 2 4, none⟩, ⟨.matrix 3 (-1), none⟩, ⟨.frame 5 4 none, none⟩]).toOption
      = some (-1) :=
  ⟨(C4_inferNumColsFromArgs_mirror
      [⟨.matrix 2 4, none⟩, ⟨.matrix 3 (-1), none⟩, ⟨.frame 5 4 none, none⟩]
      [⟨.matrix 4 2, none⟩, ⟨.matrix (-1) 3, none⟩, ⟨.frame 4 5 none, none⟩]
      [(2, 4), (3, -1), (5, 4)] (by simp)
      (List.Forall₂.cons rfl (List.Forall₂.cons rfl (List.Forall₂.cons rfl List.Forall₂.nil)))
      (List.Forall₂.cons rfl (List.Forall₂.cons rfl (List.Forall₂.cons rfl List.Forall₂.nil)))).1,
    rfl⟩

theorem wrapSSizeT_of_range {x : Int} (h1 : -2 ^ 63 ≤ x) (h2 : x < 2 ^ 63) :
    wrapSSizeT x = x := by
  unfold wrapSSizeT
  omega

theorem wrapInt_of_range {x : Int} (h1 : -2 ^ 31 ≤ x) (h2 : x < 2 ^ 31) : wrapInt x = x := by
  unfold wrapInt
  omega

theorem sumOfKnown_cons_known {d : Int} (h : d ≠ -1) (ds : List Int) :
    sumOfKnown (d :: ds) = d + sumOfKnown ds := by
  simp [sumOfKnown, List.filter_cons, h]

theorem sumOfKnown_cons_unknown (ds : List Int) : sumOfKnown (-1 :: ds) = sumOfKnown ds := by
  simp [sumOfKnown, List.filter_cons]

/-- The sum of the known counts of valid fields is not negative. -/
theorem sumOfKnown_nonneg (ds : List Int) (h : ∀ d ∈ ds, 0 ≤ d ∨ d = -1) :
    0 ≤ sumOfKnown ds := by
  induction ds with
  | nil => simp [sumOfKnown]
  | cons d ds ih =>
    have ih1 := ih (fun x hx => h x (List.mem_cons_of_mem _ hx))
    by_cases hd : d = -1
    · rw [hd, sumOfKnown_cons_unknown]
      exact ih1
    · rw [sumOfKnown_cons_known hd]
      rcases h d (List.mem_cons_self _ _) with h0 | h0
      · omega
      · exact absurd h0 hd

/-- Without an unknown count the sum of the known counts is the sum. -/
theorem sumOfKnown_eq_sum (ds : List Int) (h : (-1 : Int) ∉ ds) : sumOfKnown ds = ds.sum := by
  induction ds with
  | nil => simp [sumOfKnown]
  | cons d ds ih =>
    have hd : d ≠ -1 := fun hd => h (by simp [hd])
    have hds : (-1 : Int) ∉ ds := fun hm => h (List.mem_cons_of_mem _ hm)
    rw [sumOfKnown_cons_known hd, ih hds, List.sum_cons]

/-- The row-sum loop on values with shapes whose row counts are non-negative or `-1`, when the
running sum plus the known row counts stays below `2^63`: `-1` if some row count is `-1`,
otherwise the running sum plus all row counts. -/
theorem rowsSumLoop_eq (vs : List Value) :
    ∀ (ss : List Shape) (acc : Int), HasShapes vs ss → (∀ s ∈ ss, 0 ≤ s.1 ∨ s.1 = -1) →
      0 ≤ acc → acc + sumOfKnown (ss.map Prod.fst) < 2 ^ 63 →
      inferNumRowsFromSumOfArgs.loop vs acc
        = .ok (if (-1 : Int) ∈ ss.map Prod.fst then -1 else acc + (ss.map Prod.fst).sum) := by
  induction vs with
  | nil =>
    intro ss acc hs _ _ _
    have := hasShapes_nil_left hs
    subst this
    simp [inferNumRowsFromSumOfArgs.loop]
  | cons v vs ih =>
    intro ss acc hs hval hacc hfit
    obtain ⟨s, rest, rfl, hv, hrest⟩ := hasShapes_cons_left hs
    have hvrest : ∀ t ∈ rest, 0 ≤ t.1 ∨ t.1 = -1 :=
      fun t ht => hval t (List.mem_cons_of_mem _ ht)
    simp only [inferNumRowsFromSumOfArgs.loop, hv]
    by_cases h1 : s.1 = -1
    · simp [h1]
    · have h1b : ¬ (-1 : Int) = s.1 := fun h => h1 h.symm
      have hs0 : 0 ≤ s.1 := by
        rcases hval s (List.mem_cons_self _ _) with h0 | h0
        · exact h0
        · exact absurd h0 h1
      have hnn : 0 ≤ sumOfKnown (rest.map Prod.fst) := by
        apply sumOfKnown_nonneg
        intro d hd
        obtain ⟨t, ht, rfl⟩ := List.mem_map.mp hd
        exact hvrest t ht
      rw [List.map_cons, sumOfKnown_cons_known h1] at hfit
      have hw : wrapSSizeT (acc + s.1) = acc + s.1 := wrapSSizeT_of_range (by omega) (by omega)
      have hih := ih rest (acc + s.1) hrest hvrest (by omega) (by omega)
      simp only [h1, if_false, hw, hih, List.map_cons, List.mem_cons, h1b, false_or,
        List.sum_cons, add_assoc]

/-- The column-sum loop on values with shapes, as the row-sum loop. -/
theorem colsSumLoop_eq (vs : List Value) :
    ∀ (ss : List Shape) (acc : Int), HasShapes vs ss → (∀ s ∈ ss, 0 ≤ s.2 ∨ s.2 = -1) →
      0 ≤ acc → acc + sumOfKnown (ss.map Prod.snd) < 2 ^ 63 →
      inferNumColsFromSumOfArgs.loop vs acc
        = .ok (if (-1 : Int) ∈ ss.map Prod.snd then -1 else acc + (ss.map Prod.snd).sum) := by
  induction vs with
  | nil =>
    intro ss acc hs _ _ _
    have := hasShapes_nil_left hs
    subst this
    simp [inferNumColsFromSumOfArgs.loop]
  | cons v vs ih =>
    intro ss acc hs hval hacc hfit
    obtain ⟨s, rest, rfl, hv, hrest⟩ := hasShapes_cons_left hs
    have hvrest : ∀ t ∈ rest, 0 ≤ t.2 ∨ t.2 = -1 :=
      fun t ht => hval t (List.mem_cons_of_mem _ ht)
    simp only [inferNumColsFromSumOfArgs.loop, hv]
    by_cases h1 : s.2 = -1
    · simp [h1]
    · have h1b : ¬ (-1 : Int) = s.2 := fun h => h1 h.symm
      have hs0 : 0 ≤ s.2 := by
        rcases hval s (List.mem_cons_self _ _) with h0 | h0
        · exact h0
        · exact absurd h0 h1
      have hnn : 0 ≤ sumOfKnown (rest.map Prod.snd) := by
        apply sumOfKnown_nonneg
        intro d hd
        obtain ⟨t, ht, rfl⟩ := List.mem_map.mp hd
        exact hvrest t ht
      rw [List.map_cons, sumOfKnown_cons_known h1] at hfit
      have hw : wrapSSizeT (acc + s.2) = acc + s.2 := wrapSSizeT_of_range (by omega) (by omega)
      have hih := ih rest (acc + s.2) hrest hvrest (by omega) (by omega)
      simp only [h1, if_false, hw, hih, List.map_cons, List.mem_cons, h1b, false_or,
        List.sum_cons, add_assoc]

/-- C6: `getShape` gives (1, 1) for a scalar, the stored rows and columns for a matrix and for
a frame, the stored rows and 1 for a column, and fails exactly if the type of the value is
none of scalar, matrix, frame and column. -/
theorem C6_getShape :
    (∀ vt cst, getShape ⟨.sca vt, cst⟩ = .ok (1, 1)) ∧
      (∀ r c cst, getShape ⟨.matrix r c, cst⟩ = .ok (r, c)) ∧
      (∀ r c labels cst, getShape ⟨.frame r c labels, cst⟩ = .ok (r, c)) ∧
      (∀ r cst, getShape ⟨.column r, cst⟩ = .ok (r, 1)) ∧
      ∀ v : Value, failed (getShape v) = true ↔
        ¬ ((∃ vt, v.ty = .sca vt) ∨ (∃ r c, v.ty = .matrix r c) ∨
          (∃ r c labels, v.ty = .frame r c labels) ∨ ∃ r, v.ty = .column r) := by
  refine ⟨fun _ _ => rfl, fun _ _ _ => rfl, fun _ _ _ _ => rfl, fun _ _ => rfl, ?_⟩
  intro v
  obtain ⟨ty, cst⟩ := v
  cases ty <;> simp [getShape, failed]

/-! ## The claims on the dispatch and on row slicing -/

/-- The loop that pushes one unknown shape per result appends as many unknown shapes as there
are rounds. -/
theorem tryInferShape_loop_eq (n : Nat) :
    ∀ shapes : List Shape,
      tryInferShape.loop n shapes = shapes ++ List.replicate n ((-1, -1) : Shape) := by
  induction n with
  | zero =>
    intro shapes
    simp [tryInferShape.loop]
  | succ k ih =>
    intro shapes
    rw [tryInferShape.loop, ih, List.append_assoc]
    rfl

/-- C7: `tryInferShape` returns the vector of the custom `inferShape` rule if the operation has
one; otherwise, with exactly one result, the one-element list holding the shape of the traits;
otherwise one `(-1, -1)` per result (none for zero results). -/
theorem C7_tryInferShape_dispatch (op : Operation) :
    tryInferShape op =
      match op.inferShapeOp with
      | some inferShapeOp => inferShapeOp.inferShape
      | none =>
        if op.numResults = 1 then (inferShapeFromTraits op).map fun shape => [shape]
        else .ok (List.replicate op.numResults (-1, -1)) := by
  unfold tryInferShape
  cases op.inferShapeOp with
  | some r => rfl
  | none =>
    by_cases h : op.numResults = 1
    · simp only [h, if_true]
      cases inferShapeFromTraits op <;> rfl
    · simp only [h, if_false, tryInferShape_loop_eq, List.nil_append]

/-- C9, as stated, fails: a 10-row matrix sliced with the constants `lower = upper = 10`
satisfies `0 ≤ lower ≤ upper ≤ n`, but inference throws, reporting `lowerIncl` 10 with 10
rows. -/
theorem C9_counterexample :
    SliceRowOp.inferShape ⟨.matrix 10 3, none⟩ ⟨.sca .si64, some (.int 10)⟩
        ⟨.sca .si64, some (.int 10)⟩ = .error (.sliceRowLower 10 10) ∧
      ¬ (failed (SliceRowOp.inferShape ⟨.matrix 10 3, none⟩ ⟨.sca .si64, some (.int 10)⟩
          ⟨.sca .si64, some (.int 10)⟩) = true ↔
        ¬ ((0 : Int) ≤ 10 ∧ (10 : Int) ≤ 10 ∧ (10 : Int) ≤ 10)) := by
  refine ⟨rfl, ?_⟩
  have h : failed (SliceRowOp.inferShape ⟨.matrix 10 3, none⟩ ⟨.sca .si64, some (.int 10)⟩
      ⟨.sca .si64, some (.int 10)⟩) = true := rfl
  rw [h]
  decide

/-- C9, amended: for a matrix or frame source with known row count `n ≥ 0` and constant
bounds, `SliceRowOp` inference fails exactly if not `0 ≤ lower < n` and `lower ≤ upper ≤ n`;
the lower bound has to be below `n`. -/
theorem C9_sliceRow_bounds (source lowerIncl upperExcl : Value) (n c lower upper : Int)
    (hsrc : source.ty = .matrix n c ∨ ∃ labels, source.ty = .frame n c labels)
    (hn : 0 ≤ n) (hlo : lowerIncl.cst = some (.int lower))
    (hup : upperExcl.cst = some (.int upper)) :
    failed (SliceRowOp.inferShape source lowerIncl upperExcl) = true ↔
      ¬ (0 ≤ lower ∧ lower < n ∧ lower ≤ upper ∧ upper ≤ n) := by
  have hn1 : n ≠ -1 := by omega
  rcases hsrc with h | ⟨labels, h⟩ <;>
  · simp only [SliceRowOp.inferShape, h, isConstantInt, hlo, hup, hn1, ne_eq,
      not_false_eq_true, and_self, if_true]
    by_cases h1 : lower < 0 ∨ lower ≥ n
    · simp only [h1, if_true, failed, true_iff]
      omega
    · simp only [h1, if_false]
      by_cases h2 : upper < 0 ∨ upper > n
      · simp only [h2, if_true, failed, true_iff]
        omega
      · simp only [h2, if_false]
        by_cases h3 : lower > upper
        · simp only [h3, if_true, failed, true_iff]
          omega
        · simp only [h3, if_false, failed, Bool.false_eq_true, false_iff, not_not]
          omega

/-- Witness of C9: a 10-row frame with the bounds 2 and 7 is accepted. -/
theorem C9_witness :
    (failed (SliceRowOp.inferShape ⟨.frame 10 3 none, none⟩ ⟨.sca .si64, some (.int 2)⟩
        ⟨.sca .si64, some (.int 7)⟩) = true ↔
      ¬ ((0 : Int) ≤ 2 ∧ (2 : Int) < 10 ∧ (2 : Int) ≤ 7 ∧ (7 : Int) ≤ 10)) :=
  C9_sliceRow_bounds ⟨.frame 10 3 none, none⟩ ⟨.sca .si64, some (.int 2)⟩
    ⟨.sca .si64, some (.int 7)⟩ 10 3 2 7 (Or.inr ⟨none, rfl⟩) (by decide) rfl rfl

/-- C10: for a matrix or frame source of shape `(n, c)` with `n` known and constant bounds, a
successful `SliceRowOp` inference returns the single shape `(upper - lower, c)`. -/
theorem C10_sliceRow_result (source lowerIncl upperExcl : Value) (n c lower upper : Int)
    (hsrc : source.ty = .matrix n c ∨ ∃ labels, source.ty = .frame n c labels)
    (hn : n ≠ -1) (hlo : lowerIncl.cst = some (.int lower))
    (hup : upperExcl.cst = some (.int upper))
    (hok : failed (SliceRowOp.inferShape source lowerIncl upperExcl) = false) :
    SliceRowOp.inferShape source lowerIncl upperExcl = .ok [(upper - lower, c)] := by
  rcases hsrc with h | ⟨labels, h⟩ <;>
  · simp only [SliceRowOp.inferShape, h, isConstantInt, hlo, hup, hn, ne_eq,
      not_false_eq_true, and_self, if_true] at hok ⊢
    by_cases h1 : lower < 0 ∨ lower ≥ n
    · simp [h1, failed] at hok
    · simp only [h1, if_false] at hok ⊢
      by_cases h2 : upper < 0 ∨ upper > n
      · simp [h2, failed] at hok
      · simp only [h2, if_false] at hok ⊢
        by_cases h3 : lower > upper
        · simp [h3, failed] at hok
        · simp only [h3, if_false]

/-- Witness of C10: 10 rows with the bounds 2 and 7 give 5 rows; the unknown column count of
the source passes through. -/
theorem C10_witness :
    SliceRowOp.inferShape ⟨.matrix 10 (-1), none⟩ ⟨.sca .si64, some (.int 2)⟩
        ⟨.sca .si64, some (.int 7)⟩ = .ok [(5, -1)] :=
  C10_sliceRow_result ⟨.matrix 10 (-1), none⟩ ⟨.sca .si64, some (.int 2)⟩
    ⟨.sca .si64, some (.int 7)⟩ 10 (-1) 2 7 (Or.inl rfl) (by decide) rfl rfl rfl

/-! ## The invariant of shape pairs -/

theorem validDim_iff (d : Int) : validDim d ↔ -1 ≤ d := by
  unfold validDim
  omega

theorem validDim_neg_one : validDim (-1) := Or.inr rfl

theorem validDim_one : validDim 1 := Or.inl (by decide)

theorem validShape_unknown : validShape (-1, -1) := ⟨validDim_neg_one, validDim_neg_one⟩

/-- The shape that `getShape` reads from a value with valid stored dimensions is valid and
made of `ssize_t` values. -/
theorem getShape_valid {v : Value} {s : Shape} (hv : v.validDims) (h : getShape v = .ok s) :
    validShape s ∧ s.1 < 2 ^ 63 ∧ s.2 < 2 ^ 63 := by
  obtain ⟨ty, cst⟩ := v
  cases ty with
  | matrix r c =>
    simp only [getShape, Except.ok.injEq] at h
    subst h
    exact ⟨⟨hv.1, hv.2.1⟩, hv.2.2.1, hv.2.2.2⟩
  | frame r c l =>
    simp only [getShape, Except.ok.injEq] at h
    subst h
    exact ⟨⟨hv.1, hv.2.1⟩, hv.2.2.1, hv.2.2.2⟩
  | column r =>
    simp only [getShape, Except.ok.injEq] at h
    subst h
    exact ⟨⟨hv.1, validDim_one⟩, hv.2, by norm_num⟩
  | sca vt =>
    simp only [getShape, Except.ok.injEq] at h
    subst h
    exact ⟨⟨validDim_one, validDim_one⟩, by norm_num, by norm_num⟩
  | unknown => simp [getShape] at h
  | other => simp [getShape] at h

theorem toSSizeT_nonneg {x : Nat} (h : x < 2 ^ 63) : validDim (toSSizeT x) := by
  rw [validDim_iff]
  unfold toSSizeT
  split <;> omega

theorem toSSizeT_toSizeT {r : Int} (h1 : validDim r) (h2 : r < 2 ^ 63) :
    toSSizeT (toSizeT r) = r := by
  rw [validDim_iff] at h1
  unfold toSSizeT toSizeT
  split <;> omega

theorem toSSizeT_mulSz_valid {a b c : Nat} (h : a * b * c < 2 ^ 63) :
    validDim (toSSizeT (mulSz (mulSz a b) c)) := by
  apply toSSizeT_nonneg
  unfold mulSz
  rcases Nat.eq_zero_or_pos c with rfl | hc
  · simp
  · have h1 : a * b ≤ a * b * c := Nat.le_mul_of_pos_right _ hc
    have h2 : a * b % 2 ^ 64 = a * b := Nat.mod_eq_of_lt (by omega)
    rw [h2]
    have h3 : a * b * c % 2 ^ 64 = a * b * c := Nat.mod_eq_of_lt (by omega)
    rw [h3]
    exact h

/-- The row loop keeps the carried count a valid field. -/
theorem rowsLoop_valid (vs : List Value) :
    ∀ (n : Int) (u : Bool) (m : Int) (w : Bool), (∀ v ∈ vs, v.validDims) → validDim n →
      inferNumRowsFromArgs.loop vs n u = .ok (m, w) → validDim m := by
  induction vs with
  | nil =>
    intro n u m w _ hn h
    simp only [inferNumRowsFromArgs.loop, Except.ok.injEq, Prod.mk.injEq] at h
    rw [← h.1]
    exact hn
  | cons v vs ih =>
    intro n u m w hv hn h
    have hvs : ∀ x ∈ vs, x.validDims := fun x hx => hv x (List.mem_cons_of_mem _ hx)
    cases hg : getShape v with
    | error e => simp [inferNumRowsFromArgs.loop, hg] at h
    | ok s =>
      have hs := (getShape_valid (hv v (List.mem_cons_self _ _)) hg).1
      simp only [inferNumRowsFromArgs.loop, hg] at h
      by_cases h1 : s.1 = -1
      · simp only [h1, if_true] at h
        exact ih n true m w hvs hn h
      · simp only [h1, if_false] at h
        by_cases h2 : n = -1
        · simp only [h2, if_true] at h
          exact ih s.1 u m w hvs hs.1 h
        · simp only [h2, if_false] at h
          by_cases h3 : s.1 = n
          · simp only [h3, ne_eq, not_true_eq_false, if_false] at h
            exact ih n u m w hvs hn h
          · simp [h3] at h

/-- The count returned by `inferNumRowsFromArgs` on valid values is a valid field. -/
theorem rows_valid {vs : List Value} {m : Int} (hv : ∀ v ∈ vs, v.validDims)
    (h : inferNumRowsFromArgs vs = .ok m) : validDim m := by
  cases vs with
  | nil => simp [inferNumRowsFromArgs] at h
  | cons v0 rest =>
    cases hg : getShape v0 with
    | error e => simp [inferNumRowsFromArgs, hg] at h
    | ok s =>
      have hs := (getShape_valid (hv v0 (List.mem_cons_self _ _)) hg).1
      simp only [inferNumRowsFromArgs, hg] at h
      cases hl : inferNumRowsFromArgs.loop rest s.1 (decide (s.1 = -1)) with
      | error e => simp [hl] at h
      | ok r =>
        obtain ⟨m1, w⟩ := r
        rw [hl] at h
        simp only [Except.ok.injEq] at h
        have hm1 := rowsLoop_valid rest _ _ _ _
          (fun x hx => hv x (List.mem_cons_of_mem _ hx)) hs.1 hl
        rw [← h]
        split
        · exact validDim_neg_one
        · exact hm1

/-- The column loop keeps the carried count a valid field. -/
theorem colsLoop_valid (vs : List Value) :
    ∀ (n : Int) (u : Bool) (m : Int) (w : Bool), (∀ v ∈ vs, v.validDims) → validDim n →
      inferNumColsFromArgs.loop vs n u = .ok (m, w) → validDim m := by
  induction vs with
  | nil =>
    intro n u m w _ hn h
    simp only [inferNumColsFromArgs.loop, Except.ok.injEq, Prod.mk.injEq] at h
    rw [← h.1]
    exact hn
  | cons v vs ih =>
    intro n u m w hv hn h
    have hvs : ∀ x ∈ vs, x.validDims := fun x hx => hv x (List.mem_cons_of_mem _ hx)
    cases hg : getShape v with
    | error e => simp [inferNumColsFromArgs.loop, hg] at h
    | ok s =>
      have hs := (getShape_valid (hv v (List.mem_cons_self _ _)) hg).1
      simp only [inferNumColsFromArgs.loop, hg] at h
      by_cases h1 : s.2 = -1
      · simp only [h1, if_true] at h
        exact ih n true m w hvs hn h
      · simp only [h1, if_false] at h
        by_cases h2 : n = -1
        · simp only [h2, if_true] at h
          exact ih s.2 u m w hvs hs.2 h
        · simp only [h2, if_false] at h
          by_cases h3 : s.2 = n
          · simp only [h3, ne_eq, not_true_eq_false, if_false] at h
            exact ih n u m w hvs hn h
          · simp [h3] at h

/-- The count returned by `inferNumColsFromArgs` on valid values is a valid field. -/
theorem cols_valid {vs : List Value} {m : Int} (hv : ∀ v ∈ vs, v.validDims)
    (h : inferNumColsFromArgs vs = .ok m) : validDim m := by
  cases vs with
  | nil => simp [inferNumColsFromArgs] at h
  | cons v0 rest =>
    cases hg : getShape v0 with
    | error e => simp [inferNumColsFromArgs, hg] at h
    | ok s =>
      have hs := (getShape_valid (hv v0 (List.mem_cons_self _ _)) hg).1
      simp only [inferNumColsFromArgs, hg] at h
      cases hl : inferNumColsFromArgs.loop rest s.2 (decide (s.2 = -1)) with
      | error e => simp [hl] at h
      | ok r =>
        obtain ⟨m1, w⟩ := r
        rw [hl] at h
        simp only [Except.ok.injEq] at h
        have hm1 := colsLoop_valid rest _ _ _ _
          (fun x hx => hv x (List.mem_cons_of_mem _ hx)) hs.2 hl
        rw [← h]
        split
        · exact validDim_neg_one
        · exact hm1

/-- The shapes of valid values are valid. -/
theorem hasShapes_validDims {vs : List Value} {ss : List Shape} (hs : HasShapes vs ss)
    (hv : ∀ v ∈ vs, v.validDims) : ∀ s ∈ ss, validShape s := by
  induction hs with
  | nil =>
    intro s h
    simp at h
  | cons h1 _ ih =>
    intro s h
    rcases List.mem_cons.mp h with rfl | h
    · exact (getShape_valid (hv _ (List.mem_cons_self _ _)) h1).1
    · exact ih (fun v hvm => hv v (List.mem_cons_of_mem _ hvm)) s h

/-- When the row-sum loop ends normally, it has returned `-1` or has read the shape of every
value and found every row count known. -/
theorem rowsSumLoop_ok (vs : List Value) :
    ∀ (acc m : Int), inferNumRowsFromSumOfArgs.loop vs acc = .ok m →
      m = -1 ∨ ∃ ss, HasShapes vs ss ∧ (-1 : Int) ∉ ss.map Prod.fst := by
  induction vs with
  | nil =>
    intro acc m _
    exact Or.inr ⟨[], List.Forall₂.nil, by simp⟩
  | cons v vs ih =>
    intro acc m h
    cases hg : getShape v with
    | error e => simp [inferNumRowsFromSumOfArgs.loop, hg] at h
    | ok s =>
      simp only [inferNumRowsFromSumOfArgs.loop, hg] at h
      by_cases h1 : s.1 = -1
      · simp only [h1, if_true, Except.ok.injEq] at h
        exact Or.inl h.symm
      · simp only [h1, if_false] at h
        rcases ih _ m h with hm | ⟨ss, hss, hno⟩
        · exact Or.inl hm
        · refine Or.inr ⟨s :: ss, List.Forall₂.cons hg hss, ?_⟩
          simp only [List.map_cons, List.mem_cons, not_or]
          exact ⟨fun hc => h1 hc.symm, hno⟩

/-- The column-sum loop, as the row-sum loop. -/
theorem colsSumLoop_ok (vs : List Value) :
    ∀ (acc m : Int), inferNumColsFromSumOfArgs.loop vs acc = .ok m →
      m = -1 ∨ ∃ ss, HasShapes vs ss ∧ (-1 : Int) ∉ ss.map Prod.snd := by
  induction vs with
  | nil =>
    intro acc m _
    exact Or.inr ⟨[], List.Forall₂.nil, by simp⟩
  | cons v vs ih =>
    intro acc m h
    cases hg : getShape v with
    | error e => simp [inferNumColsFromSumOfArgs.loop, hg] at h
    | ok s =>
      simp only [inferNumColsFromSumOfArgs.loop, hg] at h
      by_cases h1 : s.2 = -1
      · simp only [h1, if_true, Except.ok.injEq] at h
        exact Or.inl h.symm
      · simp only [h1, if_false] at h
        rcases ih _ m h with hm | ⟨ss, hss, hno⟩
        · exact Or.inl hm
        · refine Or.inr ⟨s :: ss, List.Forall₂.cons hg hss, ?_⟩
          simp only [List.map_cons, List.mem_cons, not_or]
          exact ⟨fun hc => h1 hc.symm, hno⟩

/-- The count returned by `inferNumRowsFromSumOfArgs` on valid values is a valid field when
the sum of the known row counts is below `2^63`. -/
theorem rowsSum_valid {vs : List Value} {m : Int} (hv : ∀ v ∈ vs, v.validDims)
    (hfit : ∀ ss, HasShapes vs ss → sumOfKnown (ss.map Prod.fst) < 2 ^ 63)
    (h : inferNumRowsFromSumOfArgs vs = .ok m) : validDim m := by
  unfold inferNumRowsFromSumOfArgs at h
  rcases rowsSumLoop_ok vs 0 m h with hm | ⟨ss, hss, hno⟩
  · rw [hm]
    exact validDim_neg_one
  · have hval : ∀ s ∈ ss, 0 ≤ s.1 ∨ s.1 = -1 :=
      fun s hs => (hasShapes_validDims hss hv s hs).1
    have hnn : 0 ≤ sumOfKnown (ss.map Prod.fst) := by
      apply sumOfKnown_nonneg
      intro d hd
      obtain ⟨t, ht, rfl⟩ := List.mem_map.mp hd
      exact hval t ht
    have heq := rowsSumLoop_eq vs ss 0 hss hval (le_refl 0) (by have := hfit ss hss; omega)
    rw [heq, if_neg hno, Except.ok.injEq, zero_add] at h
    rw [← h, ← sumOfKnown_eq_sum _ hno]
    exact Or.inl hnn

/-- The count returned by `inferNumColsFromSumOfArgs` on valid values is a valid field when
the sum of the known column counts is below `2^63`. -/
theorem colsSum_valid {vs : List Value} {m : Int} (hv : ∀ v ∈ vs, v.validDims)
    (hfit : ∀ ss, HasShapes vs ss → sumOfKnown (ss.map Prod.snd) < 2 ^ 63)
    (h : inferNumColsFromSumOfArgs vs = .ok m) : validDim m := by
  unfold inferNumColsFromSumOfArgs at h
  rcases colsSumLoop_ok vs 0 m h with hm | ⟨ss, hss, hno⟩
  · rw [hm]
    exact validDim_neg_one
  · have hval : ∀ s ∈ ss, 0 ≤ s.2 ∨ s.2 = -1 :=
      fun s hs => (hasShapes_validDims hss hv s hs).2
    have hnn : 0 ≤ sumOfKnown (ss.map Prod.snd) := by
      apply sumOfKnown_nonneg
      intro d hd
      obtain ⟨t, ht, rfl⟩ := List.mem_map.mp hd
      exact hval t ht
    have heq := colsSumLoop_eq vs ss 0 hss hval (le_refl 0) (by have := hfit ss hss; omega)
    rw [heq, if_neg hno, Except.ok.injEq, zero_add] at h
    rw [← h, ← sumOfKnown_eq_sum _ hno]
    exact Or.inl hnn

theorem bind_ok {α β : Type} {x : Except Err α} {f : α → Except Err β} {b : β}
    (h : (x >>= f) = .ok b) : ∃ a, x = .ok a ∧ f a = .ok b := by
  cases x with
  | error e => simp [bind, Except.bind] at h
  | ok a => exact ⟨a, rfl, h⟩

theorem map_ok {α β : Type} {x : Except Err α} {f : α → β} {b : β}
    (h : x.map f = .ok b) : ∃ a, x = .ok a ∧ f a = b := by
  cases x with
  | error e => simp [Except.map] at h
  | ok a =>
    simp only [Except.map, Except.ok.injEq] at h
    exact ⟨a, rfl, h⟩

theorem getOperand_ok {op : Operation} {i : Nat} {v : Value} (h : op.getOperand i = .ok v) :
    op.operands[i]? = some v ∧ v ∈ op.operands := by
  unfold Operation.getOperand at h
  cases hg : op.operands[i]? with
  | none => simp [hg] at h
  | some w =>
    simp only [hg, Except.ok.injEq] at h
    subst h
    exact ⟨rfl, List.getElem?_mem hg⟩

theorem tryNumRowsFromIthScalar_valid (op : Operation)
    (hsc : ∀ i v, i ≤ 9 → op.operands[i]? = some v →
      op.hasTrait (.NumRowsFromIthScalar i) = true ∨
        op.hasTrait (.NumColsFromIthScalar i) = true →
      validDim (constantOrDefaultInt v (-1)))
    (i : Nat) (hi : i ≤ 9) (shape shape1 : Shape) (hs : validShape shape)
    (h : tryNumRowsFromIthScalar i shape op = .ok shape1) : validShape shape1 := by
  unfold tryNumRowsFromIthScalar at h
  by_cases ht : op.hasTrait (.NumRowsFromIthScalar i) = true
  · simp only [ht, if_true] at h
    cases hop : op.getOperand i with
    | error e => simp [hop] at h
    | ok v =>
      simp only [hop, Except.ok.injEq] at h
      subst h
      exact ⟨hsc i v hi (getOperand_ok hop).1 (Or.inl ht), hs.2⟩
  · simp only [ht, Bool.false_eq_true, if_false, Except.ok.injEq] at h
    subst h
    exact hs

theorem tryNumColsFromIthScalar_valid (op : Operation)
    (hsc : ∀ i v, i ≤ 9 → op.operands[i]? = some v →
      op.hasTrait (.NumRowsFromIthScalar i) = true ∨
        op.hasTrait (.NumColsFromIthScalar i) = true →
      validDim (constantOrDefaultInt v (-1)))
    (i : Nat) (hi : i ≤ 9) (shape shape1 : Shape) (hs : validShape shape)
    (h : tryNumColsFromIthScalar i shape op = .ok shape1) : validShape shape1 := by
  unfold tryNumColsFromIthScalar at h
  by_cases ht : op.hasTrait (.NumColsFromIthScalar i) = true
  · simp only [ht, if_true] at h
    cases hop : op.getOperand i with
    | error e => simp [hop] at h
    | ok v =>
      simp only [hop, Except.ok.injEq] at h
      subst h
      exact ⟨hs.1, hsc i v hi (getOperand_ok hop).1 (Or.inr ht)⟩
  · simp only [ht, Bool.false_eq_true, if_false, Except.ok.injEq] at h
    subst h
    exact hs

/-- The shape of operand `i` of an operation with valid operands is valid. -/
theorem operand_shape_valid {op : Operation} (hv : ∀ v ∈ op.operands, v.validDims) {i : Nat}
    {v : Value} {s : Shape} (hop : op.getOperand i = .ok v) (hg : getShape v = .ok s) :
    validShape s :=
  (getShape_valid (hv v (getOperand_ok hop).2) hg).1

theorem tryNumRowsFromIthArg_valid (op : Operation) (hv : ∀ v ∈ op.operands, v.validDims)
    (i : Nat) (shape shape1 : Shape) (hs : validShape shape)
    (h : tryNumRowsFromIthArg i shape op = .ok shape1) : validShape shape1 := by
  unfold tryNumRowsFromIthArg at h
  by_cases ht : op.hasTrait (.NumRowsFromIthArg i) = true
  · simp only [ht, if_true] at h
    cases hop : op.getOperand i with
    | error e => simp [hop] at h
    | ok v =>
      cases hg : getShape v with
      | error e => simp [hop, hg] at h
      | ok s =>
        simp only [hop, hg, Except.ok.injEq] at h
        subst h
        exact ⟨(operand_shape_valid hv hop hg).1, hs.2⟩
  · simp only [ht, Bool.false_eq_true, if_false, Except.ok.injEq] at h
    subst h
    exact hs

theorem tryNumColsFromIthArg_valid (op : Operation) (hv : ∀ v ∈ op.operands, v.validDims)
    (i : Nat) (shape shape1 : Shape) (hs : validShape shape)
    (h : tryNumColsFromIthArg i shape op = .ok shape1) : validShape shape1 := by
  unfold tryNumColsFromIthArg at h
  by_cases ht : op.hasTrait (.NumColsFromIthArg i) = true
  · simp only [ht, if_true] at h
    cases hop : op.getOperand i with
    | error e => simp [hop] at h
    | ok v =>
      cases hg : getShape v with
      | error e => simp [hop, hg] at h
      | ok s =>
        simp only [hop, hg, Except.ok.injEq] at h
        subst h
        exact ⟨hs.1, (operand_shape_valid hv hop hg).2⟩
  · simp only [ht, Bool.false_eq_true, if_false, Except.ok.injEq] at h
    subst h
    exact hs

theorem tryNumRowsFromIthArgNumCols_valid (op : Operation)
    (hv : ∀ v ∈ op.operands, v.validDims)
    (i : Nat) (shape shape1 : Shape) (hs : validShape shape)
    (h : tryNumRowsFromIthArgNumCols i shape op = .ok shape1) : validShape shape1 := by
  unfold tryNumRowsFromIthArgNumCols at h
  by_cases ht : op.hasTrait (.NumRowsFromIthArgNumCols i) = true
  · simp only [ht, if_true] at h
    cases hop : op.getOperand i with
    | error e => simp [hop] at h
    | ok v =>
      cases hg : getShape v with
      | error e => simp [hop, hg] at h
      | ok s =>
        simp only [hop, hg, Except.ok.injEq] at h
        subst h
        exact ⟨(operand_shape_valid hv hop hg).2, hs.2⟩
  · simp only [ht, Bool.false_eq_true, if_false, Except.ok.injEq] at h
    subst h
    exact hs

theorem tryNumColsFromIthArgNumRows_valid (op : Operation)
    (hv : ∀ v ∈ op.operands, v.validDims)
    (i : Nat) (shape shape1 : Shape) (hs : validShape shape)
    (h : tryNumColsFromIthArgNumRows i shape op = .ok shape1) : validShape shape1 := by
  unfold tryNumColsFromIthArgNumRows at h
  by_cases ht : op.hasTrait (.NumColsFromIthArgNumRows i) = true
  · simp only [ht, if_true] at h
    cases hop : op.getOperand i with
    | error e => simp [hop] at h
    | ok v =>
      cases hg : getShape v with
      | error e => simp [hop, hg] at h
      | ok s =>
        simp only [hop, hg, Except.ok.injEq] at h
        subst h
        exact ⟨hs.1, (operand_shape_valid hv hop hg).1⟩
  · simp only [ht, Bool.false_eq_true, if_false, Except.ok.injEq] at h
    subst h
    exact hs

theorem tryShapeFromIthArg_valid (op : Operation) (hv : ∀ v ∈ op.operands, v.validDims)
    (i : Nat) (shape shape1 : Shape) (hs : validShape shape)
    (h : tryShapeFromIthArg i shape op = .ok shape1) : validShape shape1 := by
  unfold tryShapeFromIthArg at h
  by_cases ht : op.hasTrait (.ShapeFromIthArg i) = true
  · simp only [ht, if_true] at h
    cases hop : op.getOperand i with
    | error e => simp [hop] at h
    | ok v =>
      simp only [hop] at h
      exact operand_shape_valid hv hop h
  · simp only [ht, Bool.false_eq_true, if_false, Except.ok.injEq] at h
    subst h
    exact hs

theorem tryShapeEwBinary_valid (op : Operation) (hv : ∀ v ∈ op.operands, v.validDims)
    (shape shape1 : Shape) (hs : validShape shape)
    (h : tryShapeEwBinary shape op = .ok shape1) : validShape shape1 := by
  unfold tryShapeEwBinary at h
  by_cases ht : op.hasTrait .ShapeEwBinary = true
  · simp only [ht, if_true] at h
    cases hop0 : op.getOperand 0 with
    | error e => simp [hop0] at h
    | ok v0 =>
      cases hg0 : getShape v0 with
      | error e => simp [hop0, hg0] at h
      | ok shapeLhs =>
        cases hop1 : op.getOperand 1 with
        | error e => simp [hop0, hg0, hop1] at h
        | ok v1 =>
          cases hg1 : getShape v1 with
          | error e => simp [hop0, hg0, hop1, hg1] at h
          | ok shapeRhs =>
            simp only [hop0, hg0, hop1, hg1] at h
            have hl := operand_shape_valid hv hop0 hg0
            split at h
            · simp only [Except.ok.injEq] at h
              subst h
              exact ⟨validDim_neg_one, validDim_one⟩
            · split at h
              · simp only [Except.ok.injEq] at h
                subst h
                exact validShape_unknown
              · simp only [Except.ok.injEq] at h
                subst h
                exact hl
  · simp only [ht, Bool.false_eq_true, if_false, Except.ok.injEq] at h
    subst h
    exact hs

/-- Applying a parametric trait for all indices keeps what each index keeps. -/
theorem tryParamTraitUntil_valid
    (tryParametricTrait : Nat → Shape → Operation → Except Err Shape) (op : Operation)
    (hF : ∀ i shape shape1, validShape shape → tryParametricTrait i shape op = .ok shape1 →
      validShape shape1) :
    ∀ (upper : Nat) (shape shape1 : Shape), validShape shape →
      tryParamTraitUntil tryParametricTrait upper shape op = .ok shape1 →
      validShape shape1 := by
  intro upper
  induction upper with
  | zero =>
    intro shape shape1 hs h
    exact hF 0 shape shape1 hs h
  | succ k ih =>
    intro shape shape1 hs h
    unfold tryParamTraitUntil at h
    cases hstep : tryParametricTrait (k + 1) shape op with
    | error e => simp [hstep] at h
    | ok shape2 =>
      simp only [hstep] at h
      exact ih shape2 shape1 (hF (k + 1) shape shape2 hs hstep) h

/-- Applying a parametric trait for the indices up to `upper` keeps what each of these indices
keeps. -/
theorem tryParamTraitUntil_valid_le
    (tryParametricTrait : Nat → Shape → Operation → Except Err Shape) (op : Operation) :
    ∀ (upper : Nat),
      (∀ i, i ≤ upper → ∀ shape shape1, validShape shape →
        tryParametricTrait i shape op = .ok shape1 → validShape shape1) →
      ∀ (shape shape1 : Shape), validShape shape →
        tryParamTraitUntil tryParametricTrait upper shape op = .ok shape1 →
        validShape shape1 := by
  intro upper
  induction upper with
  | zero =>
    intro hF shape shape1 hs h
    exact hF 0 (Nat.le_refl 0) shape shape1 hs h
  | succ k ih =>
    intro hF shape shape1 hs h
    unfold tryParamTraitUntil at h
    cases hstep : tryParametricTrait (k + 1) shape op with
    | error e => simp [hstep] at h
    | ok shape2 =>
      simp only [hstep] at h
      exact ih (fun i hi => hF i (Nat.le_succ_of_le hi)) shape2 shape1
        (hF (k + 1) (Nat.le_refl _) shape shape2 hs hstep) h

theorem isConstantInt_of_not_int {v : Value} (h : ∀ n, v.cst ≠ some (.int n)) :
    (isConstantInt v).1 = false := by
  unfold isConstantInt
  cases hc : v.cst with
  | none => rfl
  | some k =>
    cases k with
    | int n => exact absurd hc (h n)
    | bool b => rfl
    | float => rfl
    | str t => rfl

theorem isConstantInt_of_int {v : Value} {n : Int} (h : v.cst = some (.int n)) :
    isConstantInt v = (true, n) := by
  unfold isConstantInt
  rw [h]

/-- A value that the integer constant query accepts is defined by an integer constant. -/
theorem isConstantInt_true {v : Value} (h : (isConstantInt v).1 = true) :
    ∃ n, v.cst = some (.int n) := by
  unfold isConstantInt at h
  cases hc : v.cst with
  | none => simp [hc] at h
  | some k =>
    cases k with
    | int n => exact ⟨n, rfl⟩
    | bool b => simp [hc] at h
    | float => simp [hc] at h
    | str t => simp [hc] at h

/-- The `int` function `abs` is exact on a value whose absolute value is below `2^31`. -/
theorem absInt_wrapInt {x : Int} (h : |x| < 2 ^ 31) : absInt (wrapInt x) = |x| := by
  have h1 := abs_lt.mp h
  have h2 : wrapInt x = x := wrapInt_of_range (by omega) (by omega)
  unfold absInt
  rw [h2]
  exact wrapInt_of_range (by have := abs_nonneg x; omega) h

/-- For integer constants that fit the `int` arithmetic (`|to - from| + 1` and `|inc|` below
`2^31`) and `inc ≠ 0`, the integer branch of `SeqOp` returns `|to - from| / |inc| + 1`. -/
theorem seq_int_fit (seqFrom seqTo seqInc : Value) (fpNumRows vFrom vTo vInc : Int)
    (hty : seqFrom.ty = .sca .si64) (h1 : seqFrom.cst = some (.int vFrom))
    (h2 : seqTo.cst = some (.int vTo)) (h3 : seqInc.cst = some (.int vInc)) (hinc : vInc ≠ 0)
    (hd : |vTo - vFrom| + 1 < 2 ^ 31) (hi : |vInc| < 2 ^ 31) :
    SeqOp.inferNumRows seqFrom seqTo seqInc fpNumRows = .ok (|vTo - vFrom| / |vInc| + 1) := by
  have hdl := abs_lt.mp (show |vTo - vFrom| < 2 ^ 31 by omega)
  have hw : wrapSSizeT (vTo - vFrom) = vTo - vFrom := wrapSSizeT_of_range (by omega) (by omega)
  have ha : absInt (wrapInt (vTo - vFrom)) = |vTo - vFrom| := absInt_wrapInt (by omega)
  have hb : absInt (wrapInt vInc) = |vInc| := absInt_wrapInt hi
  have hpos : 0 < |vInc| := abs_pos.mpr hinc
  have hne : ¬ |vInc| = 0 := by omega
  have hnn : 0 ≤ |vTo - vFrom| := abs_nonneg _
  have hq0 : 0 ≤ |vTo - vFrom| / |vInc| := Int.ediv_nonneg hnn (le_of_lt hpos)
  have hq1 : |vTo - vFrom| / |vInc| ≤ |vTo - vFrom| := Int.ediv_le_self _ hnn
  have hr : wrapInt (|vTo - vFrom| / |vInc| + 1) = |vTo - vFrom| / |vInc| + 1 :=
    wrapInt_of_range (by omega) (by omega)
  simp only [SeqOp.inferNumRows, hty, isConstantInt_of_int h1, isConstantInt_of_int h2,
    isConstantInt_of_int h3, and_self, if_true, hw, ha, hb, hne, if_false,
    Int.tdiv_eq_ediv hnn (le_of_lt hpos), hr]

/-- The integer branch of `SeqOp` with the constant increment 0 divides by zero. -/
theorem seq_int_zero (seqFrom seqTo seqInc : Value) (fpNumRows vFrom vTo : Int)
    (hty : seqFrom.ty = .sca .si64) (h1 : seqFrom.cst = some (.int vFrom))
    (h2 : seqTo.cst = some (.int vTo)) (h3 : seqInc.cst = some (.int 0)) :
    SeqOp.inferNumRows seqFrom seqTo seqInc fpNumRows = .error .undefinedBehaviour := by
  have hb : absInt (wrapInt 0) = 0 := by decide
  simp only [SeqOp.inferNumRows, hty, isConstantInt_of_int h1, isConstantInt_of_int h2,
    isConstantInt_of_int h3, and_self, if_true, hb]

theorem inferNumRows_valid (r : InferNumRowsOp) (hv : ∀ v ∈ r.operands, v.validDims)
    (hg : r.dimsInRange) (n : Int) (h : r.inferNumRows = .ok n) : validDim n := by
  cases r with
  | CartesianOp lhs rhs =>
    simp only [InferNumRowsOp.inferNumRows, CartesianOp.inferNumRows] at h
    have hl : lhs.validDims := hv lhs (by simp [InferNumRowsOp.operands])
    have hr : rhs.validDims := hv rhs (by simp [InferNumRowsOp.operands])
    obtain ⟨lty, lc⟩ := lhs
    obtain ⟨rty, rc⟩ := rhs
    cases lty <;> cases rty <;> simp only [reduceCtorEq] at h
    rename_i lr lcn ll rr rcn rl
    simp only [Except.ok.injEq] at h
    have hk := hg (lr, lcn) (rr, rcn) rfl rfl
    simp only [Value.validDims, validDim] at hl hr
    simp only [ne_eq] at hk
    have hl0 : 0 ≤ lr := by
      rcases hl.1 with h0 | h0
      · exact h0
      · exact absurd h0 hk.1
    have hr0 : 0 ≤ rr := by
      rcases hr.1 with h0 | h0
      · exact h0
      · exact absurd h0 hk.2.1
    have hp : 0 ≤ lr * rr := mul_nonneg hl0 hr0
    rw [wrapSSizeT_of_range (by omega) hk.2.2] at h
    rw [← h]
    exact Or.inl hp
  | SeqOp seqFrom seqTo seqInc fpNumRows =>
    simp only [InferNumRowsOp.dimsInRange] at hg
    obtain ⟨hfp, hint⟩ := hg
    simp only [InferNumRowsOp.inferNumRows] at h
    by_cases hty : seqFrom.ty = .sca .si64
    · by_cases hc : (isConstantInt seqFrom).1 = true ∧ (isConstantInt seqTo).1 = true ∧
          (isConstantInt seqInc).1 = true
      · obtain ⟨vFrom, h1⟩ := isConstantInt_true hc.1
        obtain ⟨vTo, h2⟩ := isConstantInt_true hc.2.1
        obtain ⟨vInc, h3⟩ := isConstantInt_true hc.2.2
        obtain ⟨hd, hi⟩ := hint hty vFrom vTo vInc h1 h2 h3
        by_cases hinc : vInc = 0
        · subst hinc
          rw [seq_int_zero seqFrom seqTo seqInc fpNumRows vFrom vTo hty h1 h2 h3] at h
          cases h
        · rw [seq_int_fit seqFrom seqTo seqInc fpNumRows vFrom vTo vInc hty h1 h2 h3 hinc hd hi,
            Except.ok.injEq] at h
          rw [← h]
          have hq0 : 0 ≤ |vTo - vFrom| / |vInc| :=
            Int.ediv_nonneg (abs_nonneg _) (abs_nonneg _)
          exact Or.inl (by omega)
      · simp only [SeqOp.inferNumRows, hty, hc, if_false, Except.ok.injEq] at h
        rw [← h]
        exact validDim_neg_one
    · unfold SeqOp.inferNumRows at h
      split at h
      · rename_i h64
        split at h <;> simp only [Except.ok.injEq] at h <;> rw [← h]
        · exact hfp (Or.inl h64)
        · exact validDim_neg_one
      · rename_i h32
        split at h <;> simp only [Except.ok.injEq] at h <;> rw [← h]
        · exact hfp (Or.inr h32)
        · exact validDim_neg_one
      · rename_i hsi
        exact absurd hsi hty
      · simp at h

/-- The shape computed from the traits and the row and column interfaces is valid when the
operands are valid and the side conditions hold. -/
theorem inferShapeFromTraits_valid (op : Operation) (hv : ∀ v ∈ op.operands, v.validDims)
    (hsc : ∀ i v, i ≤ 9 → op.operands[i]? = some v →
      op.hasTrait (.NumRowsFromIthScalar i) = true ∨
        op.hasTrait (.NumColsFromIthScalar i) = true →
      validDim (constantOrDefaultInt v (-1)))
    (hrv : ∀ r, op.inferNumRowsOp = some r → ∀ v ∈ r.operands, v.validDims)
    (hrow : ∀ r, op.inferNumRowsOp = some r → r.dimsInRange)
    (hcol : ∀ numCols, op.inferNumColsOp = some (.ok numCols) → validDim numCols)
    (hrs : op.hasTrait .NumRowsFromSumOfAllArgs = true → ∀ ss, HasShapes op.operands ss →
      sumOfKnown (ss.map Prod.fst) < 2 ^ 63)
    (hcs : op.hasTrait .NumColsFromSumOfAllArgs = true → ∀ ss, HasShapes op.operands ss →
      sumOfKnown (ss.map Prod.snd) < 2 ^ 63)
    (shape : Shape) (h : inferShapeFromTraits op = .ok shape) : validShape shape := by
  unfold inferShapeFromTraits at h
  simp only [] at h
  have v0 : validShape
      (if op.hasTrait .OneCol = true then
        ((if op.hasTrait .OneRow = true then ((1 : Int), (-1 : Int)) else (-1, -1)).1, (1 : Int))
      else (if op.hasTrait .OneRow = true then ((1 : Int), (-1 : Int)) else (-1, -1))) := by
    split <;> split <;> simp [validShape, validDim]
  obtain ⟨s1, h1, h⟩ := bind_ok h
  have v1 := tryParamTraitUntil_valid_le _ op 9 (tryNumRowsFromIthScalar_valid op hsc) _ _ v0 h1
  obtain ⟨s2, h2, h⟩ := bind_ok h
  have v2 := tryParamTraitUntil_valid_le _ op 9 (tryNumColsFromIthScalar_valid op hsc) _ _ v1 h2
  obtain ⟨s3, h3, h⟩ := bind_ok h
  have v3 := tryParamTraitUntil_valid _ op (tryNumRowsFromIthArg_valid op hv) _ _ _ v2 h3
  obtain ⟨s4, h4, h⟩ := bind_ok h
  have v4 := tryParamTraitUntil_valid _ op (tryNumColsFromIthArg_valid op hv) _ _ _ v3 h4
  obtain ⟨s5, h5, h⟩ := bind_ok h
  have v5 := tryParamTraitUntil_valid _ op (tryNumRowsFromIthArgNumCols_valid op hv) _ _ _ v4 h5
  obtain ⟨s6, h6, h⟩ := bind_ok h
  have v6 := tryParamTraitUntil_valid _ op (tryNumColsFromIthArgNumRows_valid op hv) _ _ _ v5 h6
  obtain ⟨s7, h7, h⟩ := bind_ok h
  have v7 : validShape s7 := by
    split at h7
    · obtain ⟨n, hn, rfl⟩ := map_ok h7
      exact ⟨rows_valid hv hn, v6.2⟩
    · cases h7
      exact v6
  obtain ⟨s8, h8, h⟩ := bind_ok h
  have v8 : validShape s8 := by
    split at h8
    · obtain ⟨n, hn, rfl⟩ := map_ok h8
      exact ⟨v7.1, cols_valid hv hn⟩
    · cases h8
      exact v7
  obtain ⟨s9, h9, h⟩ := bind_ok h
  have v9 : validShape s9 := by
    split at h9
    · rename_i ht9
      obtain ⟨n, hn, rfl⟩ := map_ok h9
      exact ⟨rowsSum_valid hv (hrs ht9) hn, v8.2⟩
    · cases h9
      exact v8
  obtain ⟨s10, h10, h⟩ := bind_ok h
  have v10 : validShape s10 := by
    split at h10
    · rename_i ht10
      obtain ⟨n, hn, rfl⟩ := map_ok h10
      exact ⟨v9.1, colsSum_valid hv (hcs ht10) hn⟩
    · cases h10
      exact v9
  obtain ⟨s11, h11, h⟩ := bind_ok h
  have v11 := tryParamTraitUntil_valid _ op (tryShapeFromIthArg_valid op hv) _ _ _ v10 h11
  obtain ⟨s12, h12, h⟩ := bind_ok h
  have v12 := tryShapeEwBinary_valid op hv _ _ v11 h12
  obtain ⟨s13, h13, h⟩ := bind_ok h
  have v13 : validShape s13 := by
    cases hr : op.inferNumRowsOp with
    | none =>
      simp only [hr] at h13
      cases h13
      exact v12
    | some r =>
      simp only [hr] at h13
      obtain ⟨n, hn, rfl⟩ := map_ok h13
      exact ⟨inferNumRows_valid r (hrv r hr) (hrow r hr) n hn, v12.2⟩
  obtain ⟨s14, h14, h⟩ := bind_ok h
  have v14 : validShape s14 := by
    cases hc : op.inferNumColsOp with
    | none =>
      simp only [hc] at h14
      cases h14
      exact v13
    | some r =>
      simp only [hc] at h14
      obtain ⟨n, hn, rfl⟩ := map_ok h14
      exact ⟨v13.1, hcol n (by rw [hc, hn])⟩
  cases h
  exact v14

theorem validDim_unknownSizeT : toSSizeT (toSizeT (-1)) = -1 :=
  toSSizeT_toSizeT validDim_neg_one (by norm_num)

theorem matOrFrmDims_valid {v : Value} (hv : v.validDims) : validShape (matOrFrmDims v.ty) := by
  obtain ⟨ty, cst⟩ := v
  cases ty with
  | matrix r c => exact ⟨hv.1, hv.2.1⟩
  | frame r c l => exact ⟨hv.1, hv.2.1⟩
  | column r => exact validShape_unknown
  | sca vt => exact validShape_unknown
  | unknown => exact validShape_unknown
  | other => exact validShape_unknown

theorem CreateFrameOp_valid (cols : List Value) (hv : ∀ v ∈ cols, v.validDims)
    (hg : (InferShapeOp.CreateFrameOp cols).dimsInRange)
    (shapes : List Shape) (h : CreateFrameOp.inferShape cols = .ok shapes) :
    ∀ s ∈ shapes, validShape s := by
  unfold CreateFrameOp.inferShape at h
  cases hr : inferNumRowsFromArgs cols with
  | error e => simp [hr] at h
  | ok numRows =>
    cases hc : inferNumColsFromSumOfArgs cols with
    | error e => simp [hr, hc] at h
    | ok numCols =>
      simp only [hr, hc, Except.ok.injEq] at h
      subst h
      intro s hs
      rw [List.mem_singleton] at hs
      subst hs
      exact ⟨rows_valid hv hr, colsSum_valid hv hg hc⟩

theorem GroupOp_valid (frame : Value) (keyCol aggCol : List Value)
    (hg : (InferShapeOp.GroupOp frame keyCol aggCol).dimsInRange)
    (shapes : List Shape) (h : GroupOp.inferShape frame keyCol aggCol = .ok shapes) :
    ∀ s ∈ shapes, validShape s := by
  unfold GroupOp.inferShape at h
  cases hl : GroupOp.inferShape.loop frame keyCol [] with
  | error e => simp [hl] at h
  | ok newLabels =>
    simp only [hl, Except.ok.injEq] at h
    subst h
    intro s hs
    rw [List.mem_singleton] at hs
    subst hs
    have hlt := hg newLabels hl
    refine ⟨?_, ?_⟩
    · show validDim (toSSizeT (toSizeT (-1)))
      rw [validDim_unknownSizeT]
      exact validDim_neg_one
    · apply toSSizeT_nonneg
      unfold addSz
      omega

theorem MatMulOp_valid (lhs rhs transa transb : Value) (hl : lhs.validDims)
    (hr : rhs.validDims) (shapes : List Shape)
    (h : MatMulOp.inferShape lhs rhs transa transb = .ok shapes) :
    ∀ s ∈ shapes, validShape s := by
  unfold MatMulOp.inferShape at h
  cases hgl : getShape lhs with
  | error e => simp [hgl] at h
  | ok shapeLhs =>
    cases hgr : getShape rhs with
    | error e => simp [hgl, hgr] at h
    | ok shapeRhs =>
      simp only [hgl, hgr, Except.ok.injEq] at h
      subst h
      have vl := (getShape_valid hl hgl).1
      have vr := (getShape_valid hr hgr).1
      intro s hs
      rw [List.mem_singleton] at hs
      subst hs
      refine ⟨?_, ?_⟩
      · show validDim (if _ then (if _ then _ else _) else _)
        split
        · split
          · exact vl.2
          · exact vl.1
        · exact validDim_neg_one
      · show validDim (if _ then (if _ then _ else _) else _)
        split
        · split
          · exact vr.1
          · exact vr.2
        · exact validDim_neg_one

theorem ReadOp_valid (fileName : Value)
    (getFileMetaData : List Char → Except Err (Nat × Nat))
    (hg : (InferShapeOp.ReadOp fileName getFileMetaData).dimsInRange)
    (shapes : List Shape) (h : ReadOp.inferShape fileName getFileMetaData = .ok shapes) :
    ∀ s ∈ shapes, validShape s := by
  unfold ReadOp.inferShape at h
  simp only [] at h
  split at h
  · cases hf : getFileMetaData (isConstantStr fileName).2 with
    | error e => simp [hf] at h
    | ok fmd =>
      simp only [hf, Except.ok.injEq] at h
      subst h
      have hlt := hg fmd hf
      intro s hs
      rw [List.mem_singleton] at hs
      subst hs
      exact ⟨toSSizeT_nonneg hlt.1, toSSizeT_nonneg hlt.2⟩
  · simp only [Except.ok.injEq] at h
    subst h
    intro s hs
    rw [List.mem_singleton] at hs
    subst hs
    exact validShape_unknown

theorem OrderOp_valid (arg returnIdxs : Value) (ha : arg.validDims) (shapes : List Shape)
    (h : OrderOp.inferShape arg returnIdxs = .ok shapes) : ∀ s ∈ shapes, validShape s := by
  have hdims : validDim (toSSizeT (match arg.ty with
        | .matrix r c => (toSizeT r, toSizeT c)
        | .frame r c _ => (toSizeT r, toSizeT c)
        | _ => (toSizeT (-1), toSizeT (-1))).1) ∧
      validDim (toSSizeT (match arg.ty with
        | .matrix r c => (toSizeT r, toSizeT c)
        | .frame r c _ => (toSizeT r, toSizeT c)
        | _ => (toSizeT (-1), toSizeT (-1))).2) := by
    obtain ⟨ty, cst⟩ := arg
    cases ty with
    | matrix r c =>
      simp only [Value.validDims] at ha
      simp only [toSSizeT_toSizeT ha.1 ha.2.2.1, toSSizeT_toSizeT ha.2.1 ha.2.2.2]
      exact ⟨ha.1, ha.2.1⟩
    | frame r c l =>
      simp only [Value.validDims] at ha
      simp only [toSSizeT_toSizeT ha.1 ha.2.2.1, toSSizeT_toSizeT ha.2.1 ha.2.2.2]
      exact ⟨ha.1, ha.2.1⟩
    | column r => simp only [validDim_unknownSizeT]; exact ⟨validDim_neg_one, validDim_neg_one⟩
    | sca vt => simp only [validDim_unknownSizeT]; exact ⟨validDim_neg_one, validDim_neg_one⟩
    | unknown => simp only [validDim_unknownSizeT]; exact ⟨validDim_neg_one, validDim_neg_one⟩
    | other => simp only [validDim_unknownSizeT]; exact ⟨validDim_neg_one, validDim_neg_one⟩
  unfold OrderOp.inferShape at h
  simp only [Except.ok.injEq] at h
  subst h
  intro s hs
  rw [List.mem_singleton] at hs
  subst hs
  refine ⟨hdims.1, ?_⟩
  show validDim (toSSizeT (if _ then (if _ then _ else _) else _))
  split
  · split
    · exact toSSizeT_nonneg (by norm_num)
    · exact hdims.2
  · rw [validDim_unknownSizeT]
    exact validDim_neg_one

theorem CondOp_valid (cond thenVal elseVal : Value) (hc : cond.validDims)
    (ht : thenVal.validDims) (shapes : List Shape)
    (h : CondOp.inferShape cond thenVal elseVal = .ok shapes) : ∀ s ∈ shapes, validShape s := by
  unfold CondOp.inferShape at h
  obtain ⟨cty, ccst⟩ := cond
  cases cty with
  | matrix r c =>
    simp only [Except.ok.injEq] at h
    subst h
    intro s hs
    rw [List.mem_singleton] at hs
    subst hs
    exact ⟨hc.1, hc.2.1⟩
  | frame r c l => simp at h
  | column r => simp at h
  | unknown =>
    simp only [Except.ok.injEq] at h
    subst h
    intro s hs
    rw [List.mem_singleton] at hs
    subst hs
    exact validShape_unknown
  | other => simp at h
  | sca vt =>
    simp only [] at h
    have vt1 := matOrFrmDims_valid ht
    split at h
    · simp only [Except.ok.injEq] at h
      subst h
      intro s hs
      rw [List.mem_singleton] at hs
      subst hs
      refine ⟨?_, ?_⟩
      · show validDim (if _ then _ else _)
        split
        · exact vt1.1
        · exact validDim_neg_one
      · show validDim (if _ then _ else _)
        split
        · exact vt1.2
        · exact validDim_neg_one
    · simp only [Except.ok.injEq] at h
      subst h
      intro s hs
      rw [List.mem_singleton] at hs
      subst hs
      exact validShape_unknown

theorem Conv2DForwardOp_valid (input filter inputHeight inputWidth filterHeight filterWidth
    padHeight padWidth strideHeight strideWidth : Value) (hi : input.validDims)
    (hg : (InferShapeOp.Conv2DForwardOp input filter inputHeight inputWidth filterHeight
      filterWidth padHeight padWidth strideHeight strideWidth).dimsInRange)
    (shapes : List Shape)
    (h : Conv2DForwardOp.inferShape input filter inputHeight inputWidth filterHeight
      filterWidth padHeight padWidth strideHeight strideWidth = .ok shapes) :
    ∀ s ∈ shapes, validShape s := by
  unfold Conv2DForwardOp.inferShape at h
  cases hgx : getShape input with
  | error e => simp [hgx] at h
  | ok shapeX =>
    cases hgw : getShape filter with
    | error e => simp [hgx, hgw] at h
    | ok shapeW =>
      simp only [hgx, hgw] at h
      cases hh : outDim (constantOrDefaultSizeT inputHeight 1)
          (constantOrDefaultSizeT padHeight 1) (constantOrDefaultSizeT filterHeight 1)
          (constantOrDefaultSizeT strideHeight 1) with
      | error e => simp [hh] at h
      | ok Hout =>
        cases hw : outDim (constantOrDefaultSizeT inputWidth 1)
            (constantOrDefaultSizeT padWidth 1) (constantOrDefaultSizeT filterWidth 1)
            (constantOrDefaultSizeT strideWidth 1) with
        | error e => simp [hh, hw] at h
        | ok Wout =>
          simp only [hh, hw, Except.ok.injEq] at h
          subst h
          have hlt := hg shapeW Hout Wout hgw hh hw
          have vx := (getShape_valid hi hgx).1
          intro s hs
          simp only [List.mem_cons, List.mem_singleton, List.not_mem_nil, or_false] at hs
          rcases hs with rfl | rfl | rfl
          · refine ⟨vx.1, ?_⟩
            show validDim (if _ then _ else _)
            split
            · exact validDim_neg_one
            · rename_i hF
              exact toSSizeT_mulSz_valid (hlt hF)
          · exact ⟨validDim_one, validDim_one⟩
          · exact ⟨validDim_one, validDim_one⟩

theorem AvgPoolForwardOp_valid (input inputNumChannels inputHeight inputWidth poolHeight
    poolWidth padHeight padWidth strideHeight strideWidth : Value) (hi : input.validDims)
    (hg : (InferShapeOp.AvgPoolForwardOp input inputNumChannels inputHeight inputWidth
      poolHeight poolWidth padHeight padWidth strideHeight strideWidth).dimsInRange)
    (shapes : List Shape)
    (h : AvgPoolForwardOp.inferShape input inputNumChannels inputHeight inputWidth poolHeight
      poolWidth padHeight padWidth strideHeight strideWidth = .ok shapes) :
    ∀ s ∈ shapes, validShape s := by
  unfold AvgPoolForwardOp.inferShape at h
  simp only [] at h
  cases hgx : getShape input with
  | error e => simp [hgx] at h
  | ok shapeX =>
    cases hh : outDim (constantOrDefaultSizeT inputHeight 1) (constantOrDefaultSizeT padHeight 1)
        (constantOrDefaultSizeT poolHeight 1) (constantOrDefaultSizeT strideHeight 1) with
    | error e => simp [hgx, hh] at h
    | ok Hout =>
      cases hw : outDim (constantOrDefaultSizeT inputWidth 1) (constantOrDefaultSizeT padWidth 1)
          (constantOrDefaultSizeT poolWidth 1) (constantOrDefaultSizeT strideWidth 1) with
      | error e => simp [hgx, hh, hw] at h
      | ok Wout =>
        simp only [hgx, hh, hw, Except.ok.injEq] at h
        subst h
        have hlt := hg Hout Wout hh hw
        have vx := (getShape_valid hi hgx).1
        intro s hs
        simp only [List.mem_cons, List.mem_singleton, List.not_mem_nil, or_false] at hs
        rcases hs with rfl | rfl | rfl
        · exact ⟨vx.1, toSSizeT_mulSz_valid hlt⟩
        · exact ⟨validDim_one, validDim_one⟩
        · exact ⟨validDim_one, validDim_one⟩

theorem MaxPoolForwardOp_valid (input inputNumChannels inputHeight inputWidth poolHeight
    poolWidth padHeight padWidth strideHeight strideWidth : Value) (hi : input.validDims)
    (hg : (InferShapeOp.MaxPoolForwardOp input inputNumChannels inputHeight inputWidth
      poolHeight poolWidth padHeight padWidth strideHeight strideWidth).dimsInRange)
    (shapes : List Shape)
    (h : MaxPoolForwardOp.inferShape input inputNumChannels inputHeight inputWidth poolHeight
      poolWidth padHeight padWidth strideHeight strideWidth = .ok shapes) :
    ∀ s ∈ shapes, validShape s := by
  unfold MaxPoolForwardOp.inferShape at h
  simp only [] at h
  cases hgx : getShape input with
  | error e => simp [hgx] at h
  | ok shapeX =>
    cases hh : outDim (constantOrDefaultSizeT inputHeight 1) (constantOrDefaultSizeT padHeight 1)
        (constantOrDefaultSizeT poolHeight 1) (constantOrDefaultSizeT strideHeight 1) with
    | error e => simp [hgx, hh] at h
    | ok Hout =>
      cases hw : outDim (constantOrDefaultSizeT inputWidth 1) (constantOrDefaultSizeT padWidth 1)
          (constantOrDefaultSizeT poolWidth 1) (constantOrDefaultSizeT strideWidth 1) with
      | error e => simp [hgx, hh, hw] at h
      | ok Wout =>
        simp only [hgx, hh, hw, Except.ok.injEq] at h
        subst h
        have hlt := hg Hout Wout hh hw
        have vx := (getShape_valid hi hgx).1
        intro s hs
        simp only [List.mem_cons, List.mem_singleton, List.not_mem_nil, or_false] at hs
        rcases hs with rfl | rfl | rfl
        · exact ⟨vx.1, toSSizeT_mulSz_valid hlt⟩
        · exact ⟨validDim_one, validDim_one⟩
        · exact ⟨validDim_one, validDim_one⟩

theorem MatrixConstantOp_valid (matrixAddr : Value) (deref : Nat → Option (Nat × Nat))
    (hg : (InferShapeOp.MatrixConstantOp matrixAddr deref).dimsInRange)
    (shapes : List Shape) (h : MatrixConstantOp.inferShape matrixAddr deref = .ok shapes) :
    ∀ s ∈ shapes, validShape s := by
  unfold MatrixConstantOp.inferShape at h
  cases hc : constantOrThrowUInt matrixAddr with
  | error e => simp [hc] at h
  | ok addr =>
    cases hd : deref addr with
    | none => simp [hc, hd] at h
    | some mat =>
      simp only [hc, hd, Except.ok.injEq] at h
      subst h
      have hlt := hg addr mat hc hd
      intro s hs
      rw [List.mem_singleton] at hs
      subst hs
      exact ⟨toSSizeT_nonneg hlt.1, toSSizeT_nonneg hlt.2⟩

theorem SliceRowOp_valid (source lowerIncl upperExcl : Value) (hsrc : source.validDims)
    (shapes : List Shape) (h : SliceRowOp.inferShape source lowerIncl upperExcl = .ok shapes) :
    ∀ s ∈ shapes, validShape s := by
  have key : ∀ r c : Int, validDim c →
      (if r ≠ -1 ∧ (isConstantInt lowerIncl).1 = true ∧ (isConstantInt upperExcl).1 = true then
        if (isConstantInt lowerIncl).2 < 0 ∨ (isConstantInt lowerIncl).2 ≥ r then
          Except.error (Err.sliceRowLower (isConstantInt lowerIncl).2 r)
        else if (isConstantInt upperExcl).2 < 0 ∨ (isConstantInt upperExcl).2 > r then
          Except.error (Err.sliceRowUpper (isConstantInt upperExcl).2 r)
        else if (isConstantInt lowerIncl).2 > (isConstantInt upperExcl).2 then
          Except.error (Err.sliceRowOrder (isConstantInt lowerIncl).2 (isConstantInt upperExcl).2)
        else Except.ok [((isConstantInt upperExcl).2 - (isConstantInt lowerIncl).2, c)]
      else Except.ok [((-1 : Int), c)]) = Except.ok shapes → ∀ s ∈ shapes, validShape s := by
    intro r c hc h
    split at h
    · split at h
      · simp at h
      · split at h
        · simp at h
        · split at h
          · simp at h
          · simp only [Except.ok.injEq] at h
            subst h
            intro s hs
            rw [List.mem_singleton] at hs
            subst hs
            exact ⟨Or.inl (by show (0 : Int) ≤ _ - _; omega), hc⟩
    · simp only [Except.ok.injEq] at h
      subst h
      intro s hs
      rw [List.mem_singleton] at hs
      subst hs
      exact ⟨validDim_neg_one, hc⟩
  unfold SliceRowOp.inferShape at h
  obtain ⟨ty, cst⟩ := source
  cases ty with
  | matrix r c => exact key r c hsrc.2.1 h
  | frame r c l => exact key r c hsrc.2.1 h
  | unknown => exact key (-1) (-1) validDim_neg_one h
  | column r => simp at h
  | sca vt => simp at h
  | other => simp at h

theorem SliceColOp_valid (source lowerIncl upperExcl : Value) (hsrc : source.validDims)
    (shapes : List Shape) (h : SliceColOp.inferShape source lowerIncl upperExcl = .ok shapes) :
    ∀ s ∈ shapes, validShape s := by
  have key : ∀ r c : Int, validDim r →
      (if c ≠ -1 ∧ (isConstantInt lowerIncl).1 = true ∧ (isConstantInt upperExcl).1 = true then
        if (isConstantInt lowerIncl).2 < 0 ∨ (isConstantInt lowerIncl).2 ≥ c then
          Except.error (Err.sliceColLower (isConstantInt lowerIncl).2 c)
        else if (isConstantInt upperExcl).2 < 0 ∨ (isConstantInt upperExcl).2 > c then
          Except.error (Err.sliceColUpper (isConstantInt upperExcl).2 c)
        else if (isConstantInt lowerIncl).2 > (isConstantInt upperExcl).2 then
          Except.error (Err.sliceColOrder (isConstantInt lowerIncl).2 (isConstantInt upperExcl).2)
        else Except.ok [(r, (isConstantInt upperExcl).2 - (isConstantInt lowerIncl).2)]
      else Except.ok [(r, (-1 : Int))]) = Except.ok shapes → ∀ s ∈ shapes, validShape s := by
    intro r c hr h
    split at h
    · split at h
      · simp at h
      · split at h
        · simp at h
        · split at h
          · simp at h
          · simp only [Except.ok.injEq] at h
            subst h
            intro s hs
            rw [List.mem_singleton] at hs
            subst hs
            exact ⟨hr, Or.inl (by show (0 : Int) ≤ _ - _; omega)⟩
    · simp only [Except.ok.injEq] at h
      subst h
      intro s hs
      rw [List.mem_singleton] at hs
      subst hs
      exact ⟨hr, validDim_neg_one⟩
  unfold SliceColOp.inferShape at h
  obtain ⟨ty, cst⟩ := source
  cases ty with
  | matrix r c => exact key r c hsrc.1 h
  | frame r c l => exact key r c hsrc.1 h
  | unknown => simp at h
  | column r => simp at h
  | sca vt => simp at h
  | other => simp at h

/-- The counting loop of `ExtractColOp` never decreases the count. -/
theorem extractLoop_ge (frameName : List Char) (labels : List (List Char)) :
    ∀ numCols : Int, numCols ≤ ExtractColOp.inferShape.loop frameName labels numCols := by
  induction labels with
  | nil =>
    intro numCols
    exact le_refl _
  | cons label labels ih =>
    intro numCols
    unfold ExtractColOp.inferShape.loop
    split
    · exact le_trans (by omega) (ih (numCols + 1))
    · exact ih numCols

theorem ExtractColOp_valid (source selectedCols : Value) (hsrc : source.validDims)
    (hsel : selectedCols.validDims) (shapes : List Shape)
    (h : ExtractColOp.inferShape source selectedCols = .ok shapes) :
    ∀ s ∈ shapes, validShape s := by
  unfold ExtractColOp.inferShape at h
  cases hgs : getShape source with
  | error e => simp [hgs] at h
  | ok shapeSrc =>
    have vs := (getShape_valid hsrc hgs).1
    simp only [hgs] at h
    have hd : ∀ shapes1 : List Shape,
        (match getShape selectedCols with
          | .error e => Except.error e
          | .ok shapeSel => Except.ok [(shapeSrc.1, shapeSel.2)]) = Except.ok shapes1 →
        ∀ s ∈ shapes1, validShape s := by
      intro shapes1 h1
      cases hgl : getShape selectedCols with
      | error e => simp [hgl] at h1
      | ok shapeSel =>
        simp only [hgl, Except.ok.injEq] at h1
        subst h1
        intro s hs
        rw [List.mem_singleton] at hs
        subst hs
        exact ⟨vs.1, (getShape_valid hsel hgl).1.2⟩
    split at h
    · cases hc : constantOrThrowStr selectedCols with
      | error e => simp [hc] at h
      | ok label =>
        simp only [hc] at h
        split at h
        · split at h
          · simp at h
          · simp only [Except.ok.injEq] at h
            subst h
            intro s hs
            rw [List.mem_singleton] at hs
            subst hs
            exact ⟨vs.1, Or.inl (extractLoop_ge _ _ 0)⟩
        · exact hd shapes h
    · exact hd shapes h

theorem EigenOp_valid (arg : Value) (ha : arg.validDims) (shapes : List Shape)
    (h : EigenOp.inferShape arg = .ok shapes) : ∀ s ∈ shapes, validShape s := by
  unfold EigenOp.inferShape at h
  cases hg : getShape arg with
  | error e => simp [hg] at h
  | ok shape =>
    simp only [hg, Except.ok.injEq] at h
    subst h
    have v := (getShape_valid ha hg).1
    intro s hs
    simp only [List.mem_cons, List.mem_singleton, List.not_mem_nil, or_false] at hs
    rcases hs with rfl | rfl
    · exact ⟨v.1, validDim_one⟩
    · exact ⟨v.1, v.1⟩

theorem RecodeOp_valid (arg : Value) (ha : arg.validDims) (shapes : List Shape)
    (h : RecodeOp.inferShape arg = .ok shapes) : ∀ s ∈ shapes, validShape s := by
  unfold RecodeOp.inferShape at h
  obtain ⟨ty, cst⟩ := arg
  cases ty with
  | matrix r c =>
    simp only [Except.ok.injEq] at h
    subst h
    intro s hs
    simp only [List.mem_cons, List.mem_singleton, List.not_mem_nil, or_false] at hs
    rcases hs with rfl | rfl
    · exact ⟨ha.1, ha.2.1⟩
    · exact ⟨validDim_neg_one, validDim_one⟩
  | frame r c l =>
    simp only [Except.ok.injEq] at h
    subst h
    intro s hs
    simp only [List.mem_cons, List.mem_singleton, List.not_mem_nil, or_false] at hs
    rcases hs with rfl | rfl
    · exact ⟨ha.1, ha.2.1⟩
    · exact ⟨validDim_neg_one, validDim_one⟩
  | unknown =>
    simp only [Except.ok.injEq] at h
    subst h
    intro s hs
    simp only [List.mem_cons, List.mem_singleton, List.not_mem_nil, or_false] at hs
    rcases hs with rfl | rfl
    · exact validShape_unknown
    · exact ⟨validDim_neg_one, validDim_one⟩
  | column r => simp at h
  | sca vt => simp at h
  | other => simp at h

/-- Every custom rule keeps the invariant when its operands are valid and its side conditions
hold. -/
theorem InferShapeOp_valid (r : InferShapeOp) (hv : ∀ v ∈ r.operands, v.validDims)
    (hg : r.dimsInRange) (shapes : List Shape) (h : r.inferShape = .ok shapes) :
    ∀ s ∈ shapes, validShape s := by
  cases r with
  | CreateFrameOp cols => exact CreateFrameOp_valid cols hv hg shapes h
  | GroupJoinOp =>
    simp only [InferShapeOp.inferShape, GroupJoinOp.inferShape, Except.ok.injEq] at h
    subst h
    intro s hs
    simp only [List.mem_cons, List.mem_singleton, List.not_mem_nil, or_false] at hs
    rcases hs with rfl | rfl
    · exact ⟨validDim_neg_one, Or.inl (by decide)⟩
    · exact ⟨validDim_neg_one, validDim_one⟩
  | GroupOp frame keyCol aggCol => exact GroupOp_valid frame keyCol aggCol hg shapes h
  | MatMulOp lhs rhs transa transb =>
    exact MatMulOp_valid lhs rhs transa transb (hv lhs (by simp [InferShapeOp.operands]))
      (hv rhs (by simp [InferShapeOp.operands])) shapes h
  | ReadOp fileName getFileMetaData => exact ReadOp_valid fileName getFileMetaData hg shapes h
  | OrderOp arg returnIdxs =>
    exact OrderOp_valid arg returnIdxs (hv arg (by simp [InferShapeOp.operands])) shapes h
  | CondOp cond thenVal elseVal =>
    exact CondOp_valid cond thenVal elseVal (hv cond (by simp [InferShapeOp.operands]))
      (hv thenVal (by simp [InferShapeOp.operands])) shapes h
  | Conv2DForwardOp input filter inputHeight inputWidth filterHeight filterWidth padHeight
      padWidth strideHeight strideWidth =>
    exact Conv2DForwardOp_valid input filter inputHeight inputWidth filterHeight filterWidth
      padHeight padWidth strideHeight strideWidth (hv input (by simp [InferShapeOp.operands]))
      hg shapes h
  | AvgPoolForwardOp input inputNumChannels inputHeight inputWidth poolHeight poolWidth
      padHeight padWidth strideHeight strideWidth =>
    exact AvgPoolForwardOp_valid input inputNumChannels inputHeight inputWidth poolHeight
      poolWidth padHeight padWidth strideHeight strideWidth
      (hv input (by simp [InferShapeOp.operands])) hg shapes h
  | MaxPoolForwardOp input inputNumChannels inputHeight inputWidth poolHeight poolWidth
      padHeight padWidth strideHeight strideWidth =>
    exact MaxPoolForwardOp_valid input inputNumChannels inputHeight inputWidth poolHeight
      poolWidth padHeight padWidth strideHeight strideWidth
      (hv input (by simp [InferShapeOp.operands])) hg shapes h
  | CTableOp resNumRows resNumCols =>
    simp only [InferShapeOp.inferShape, CTableOp.inferShape, Except.ok.injEq] at h
    subst h
    intro s hs
    rw [List.mem_singleton] at hs
    subst hs
    exact hg
  | MatrixConstantOp matrixAddr deref =>
    exact MatrixConstantOp_valid matrixAddr deref hg shapes h
  | SliceRowOp source lowerIncl upperExcl =>
    exact SliceRowOp_valid source lowerIncl upperExcl
      (hv source (by simp [InferShapeOp.operands])) shapes h
  | SliceColOp source lowerIncl upperExcl =>
    exact SliceColOp_valid source lowerIncl upperExcl
      (hv source (by simp [InferShapeOp.operands])) shapes h
  | ExtractColOp source selectedCols =>
    exact ExtractColOp_valid source selectedCols (hv source (by simp [InferShapeOp.operands]))
      (hv selectedCols (by simp [InferShapeOp.operands])) shapes h
  | EigenOp arg => exact EigenOp_valid arg (hv arg (by simp [InferShapeOp.operands])) shapes h
  | RecodeOp arg => exact RecodeOp_valid arg (hv arg (by simp [InferShapeOp.operands])) shapes h

/-- C8, as stated, fails: with operand shapes whose fields are non-negative or `-1`,
`CTableOp` returns its constant `-5` as row count, an operation with the traits
`NumRowsFromIthScalar<0>` and `NumColsFromIthScalar<1>` returns the constant `-7` of operand 0
as row count, and `CartesianOp` on frames with unknown and 3 rows returns the row count
`-3`. -/
theorem C8_counterexample :
    ((∀ v ∈ Operation.allOperands
          { inferShapeOp := some (.CTableOp ⟨.sca .si64, some (.int (-5))⟩
              ⟨.sca .si64, some (.int 3)⟩)
            operands := [⟨.matrix 4 1, none⟩, ⟨.matrix 4 1, none⟩,
              ⟨.sca .si64, some (.int (-5))⟩, ⟨.sca .si64, some (.int 3)⟩] },
        v.validDims) ∧
      tryInferShape
        { inferShapeOp := some (.CTableOp ⟨.sca .si64, some (.int (-5))⟩
            ⟨.sca .si64, some (.int 3)⟩)
          operands := [⟨.matrix 4 1, none⟩, ⟨.matrix 4 1, none⟩,
            ⟨.sca .si64, some (.int (-5))⟩, ⟨.sca .si64, some (.int 3)⟩] }
        = .ok [(-5, 3)] ∧ ¬ validShape (-5, 3)) ∧
    ((∀ v ∈ Operation.allOperands
          { operands := [⟨.sca .si64, some (.int (-7))⟩, ⟨.sca .si64, some (.int 2)⟩]
            traits := [.NumRowsFromIthScalar 0, .NumColsFromIthScalar 1] },
        v.validDims) ∧
      tryInferShape
        { operands := [⟨.sca .si64, some (.int (-7))⟩, ⟨.sca .si64, some (.int 2)⟩]
          traits := [.NumRowsFromIthScalar 0, .NumColsFromIthScalar 1] }
        = .ok [(-7, 2)] ∧ ¬ validShape (-7, 2)) ∧
    ((∀ v ∈ Operation.allOperands
          { operands := [⟨.frame (-1) 2 none, none⟩, ⟨.frame 3 2 none, none⟩]
            traits := [.NumColsFromSumOfAllArgs]
            inferNumRowsOp :=
              some (.CartesianOp ⟨.frame (-1) 2 none, none⟩ ⟨.frame 3 2 none, none⟩) },
        v.validDims) ∧
      tryInferShape
        { operands := [⟨.frame (-1) 2 none, none⟩, ⟨.frame 3 2 none, none⟩]
          traits := [.NumColsFromSumOfAllArgs]
          inferNumRowsOp :=
            some (.CartesianOp ⟨.frame (-1) 2 none, none⟩ ⟨.frame 3 2 none, none⟩) }
        = .ok [(-3, 4)] ∧ ¬ validShape (-3, 4)) := by
  refine ⟨⟨?_, rfl, ?_⟩, ⟨?_, rfl, ?_⟩, ⟨?_, rfl, ?_⟩⟩
  · intro v hv
    simp only [Operation.allOperands, InferShapeOp.operands, List.append_nil, List.mem_append,
      List.mem_cons, List.mem_singleton, List.not_mem_nil, or_false] at hv
    rcases hv with (rfl | rfl | rfl | rfl) | rfl | rfl <;>
      simp [Value.validDims, validDim]
  · simp only [validShape, validDim]
    omega
  · intro v hv
    simp only [Operation.allOperands, List.append_nil, List.mem_cons, List.mem_singleton,
      List.not_mem_nil, or_false] at hv
    rcases hv with rfl | rfl <;> simp [Value.validDims]
  · simp only [validShape, validDim]
    omega
  · intro v hv
    simp only [Operation.allOperands, InferNumRowsOp.operands, List.mem_append, List.mem_cons,
      List.mem_singleton, List.not_mem_nil, or_false, List.append_nil] at hv
    rcases hv with (rfl | rfl) | rfl | rfl <;> simp [Value.validDims, validDim]
  · simp only [validShape, validDim]
    omega

/-- C8, amended: if every operand type stores only dimensions that are non-negative `ssize_t`
values or `-1`, and the side conditions `dimsInRange` hold (the constants used as a dimension
by `CTableOp` or an i-th-scalar trait, the value of an `InferNumCols` hook and the row count
of a floating-point `SeqOp` are non-negative or `-1`; both row counts of `CartesianOp` are
known and their product is below `2^63`; the sums of known counts taken by `CreateFrameOp`
and by the sum-of-all-arguments traits are below `2^63`; the constants of an integer `SeqOp`
fit its `int` arithmetic; the counts of file metadata and of a matrix constant, the label
count of `GroupOp` and the `size_t` products of the convolution with a known filter count
and of the pooling rules are below `2^63`), then every field of every shape pair that a
successful `tryInferShape` returns is non-negative or `-1`. -/
theorem C8_shapePair_invariant (op : Operation) (shapes : List Shape)
    (hv : ∀ v ∈ op.allOperands, v.validDims) (hg : op.dimsInRange)
    (h : tryInferShape op = .ok shapes) : ∀ s ∈ shapes, validShape s := by
  unfold tryInferShape at h
  cases hop : op.inferShapeOp with
  | some r =>
    simp only [hop] at h
    have hg1 : r.dimsInRange := by
      simpa only [Operation.dimsInRange, hop] using hg
    refine InferShapeOp_valid r (fun v hmem => hv v ?_) hg1 shapes h
    simp only [Operation.allOperands, hop, List.mem_append]
    exact Or.inl (Or.inr hmem)
  | none =>
    simp only [hop] at h
    simp only [Operation.dimsInRange, hop] at hg
    obtain ⟨hsc, hrow, hcol, hrs, hcs⟩ := hg
    by_cases hn : op.numResults = 1
    · simp only [hn, if_true] at h
      cases ht : inferShapeFromTraits op with
      | error e => simp [ht] at h
      | ok shape =>
        simp only [ht, Except.ok.injEq] at h
        subst h
        intro s hs
        rw [List.mem_singleton] at hs
        subst hs
        refine inferShapeFromTraits_valid op (fun v hmem => hv v ?_) hsc
          (fun r hr v hmem => hv v ?_) hrow hcol hrs hcs s ht
        · simp only [Operation.allOperands, List.mem_append]
          exact Or.inl (Or.inl hmem)
        · simp only [Operation.allOperands, hr, List.mem_append]
          exact Or.inr hmem
    · simp only [hn, if_false, tryInferShape_loop_eq, List.nil_append, Except.ok.injEq] at h
      subst h
      intro s hs
      rw [List.eq_of_mem_replicate hs]
      exact validShape_unknown

/-- Witness of C8: an operation with the traits `NumRowsFromIthScalar<1>` and
`NumColsFromIthScalar<2>` (as a fill operation has), the constant 4 as operand 1 and a
non-constant operand 2 gets the valid shape `(4, -1)`; a convolution whose filter count is
unknown gets the valid shapes `(8, -1)`, `(1, 1)`, `(1, 1)`; an integer sequence from 1 to 10
by 2 with one column gets the valid shape `(5, 1)`. -/
theorem C8_witness :
    (tryInferShape
        { operands := [⟨.sca .f64, some .float⟩, ⟨.sca .si64, some (.int 4)⟩,
            ⟨.sca .si64, none⟩]
          traits := [.NumRowsFromIthScalar 1, .NumColsFromIthScalar 2] }
        = .ok [(4, -1)] ∧
      ∀ s ∈ [((4 : Int), (-1 : Int))], validShape s) ∧
    (tryInferShape
        { inferShapeOp := some (.Conv2DForwardOp ⟨.matrix 8 60, none⟩ ⟨.matrix (-1) 18, none⟩
            ⟨.sca .si64, some (.int 5)⟩ ⟨.sca .si64, some (.int 4)⟩
            ⟨.sca .si64, some (.int 3)⟩ ⟨.sca .si64, some (.int 2)⟩
            ⟨.sca .si64, some (.int 1)⟩ ⟨.sca .si64, some (.int 0)⟩
            ⟨.sca .si64, some (.int 2)⟩ ⟨.sca .si64, some (.int 2)⟩)
          numResults := 3 }
        = .ok [(8, -1), (1, 1), (1, 1)] ∧
      ∀ s ∈ [((8 : Int), (-1 : Int)), (1, 1), (1, 1)], validShape s) ∧
    (tryInferShape
        { operands := [⟨.sca .si64, some (.int 1)⟩, ⟨.sca .si64, some (.int 10)⟩,
            ⟨.sca .si64, some (.int 2)⟩]
          traits := [.OneCol]
          inferNumRowsOp := some (.SeqOp ⟨.sca .si64, some (.int 1)⟩
            ⟨.sca .si64, some (.int 10)⟩ ⟨.sca .si64, some (.int 2)⟩ 0) }
        = .ok [(5, 1)] ∧
      ∀ s ∈ [((5 : Int), (1 : Int))], validShape s) := by
  refine ⟨⟨rfl, ?_⟩, ⟨rfl, ?_⟩, ⟨rfl, ?_⟩⟩
  · exact C8_shapePair_invariant
      { operands := [⟨.sca .f64, some .float⟩, ⟨.sca .si64, some (.int 4)⟩,
          ⟨.sca .si64, none⟩]
        traits := [.NumRowsFromIthScalar 1, .NumColsFromIthScalar 2] }
      [(4, -1)]
      (by
        intro v hv
        simp only [Operation.allOperands, List.append_nil, List.mem_cons, List.mem_singleton,
          List.not_mem_nil, or_false] at hv
        rcases hv with rfl | rfl | rfl <;> simp [Value.validDims])
      (by
        refine ⟨?_, ?_, ?_, ?_, ?_⟩
        · intro i v _ hiv ht
          simp only [Operation.hasTrait, List.contains_cons, List.contains_nil, Bool.or_false,
            Bool.or_eq_true, beq_iff_eq, Trait.NumRowsFromIthScalar.injEq, reduceCtorEq,
            or_false, false_or, Trait.NumColsFromIthScalar.injEq] at ht
          rcases ht with rfl | rfl
          · simp only [List.getElem?_cons_succ, List.getElem?_cons_zero, Option.some.injEq] at hiv
            subst hiv
            exact Or.inl (by decide)
          · simp only [List.getElem?_cons_succ, List.getElem?_cons_zero, Option.some.injEq] at hiv
            subst hiv
            exact Or.inr rfl
        · intro r hr
          cases hr
        · intro n hn
          cases hn
        · intro ht
          simp [Operation.hasTrait] at ht
        · intro ht
          simp [Operation.hasTrait] at ht)
      rfl
  · exact C8_shapePair_invariant
      { inferShapeOp := some (.Conv2DForwardOp ⟨.matrix 8 60, none⟩ ⟨.matrix (-1) 18, none⟩
          ⟨.sca .si64, some (.int 5)⟩ ⟨.sca .si64, some (.int 4)⟩
          ⟨.sca .si64, some (.int 3)⟩ ⟨.sca .si64, some (.int 2)⟩
          ⟨.sca .si64, some (.int 1)⟩ ⟨.sca .si64, some (.int 0)⟩
          ⟨.sca .si64, some (.int 2)⟩ ⟨.sca .si64, some (.int 2)⟩)
        numResults := 3 }
      [(8, -1), (1, 1), (1, 1)]
      (by
        intro v hv
        simp only [Operation.allOperands, InferShapeOp.operands, List.append_nil,
          List.nil_append, List.mem_cons, List.mem_singleton, List.not_mem_nil, or_false] at hv
        rcases hv with rfl | rfl | rfl | rfl | rfl | rfl | rfl | rfl | rfl | rfl <;>
          simp [Value.validDims, validDim])
      (by
        intro shapeW Hout Wout hW _ _ hne
        simp only [getShape, Except.ok.injEq] at hW
        subst hW
        exact absurd rfl hne)
      rfl
  · exact C8_shapePair_invariant
      { operands := [⟨.sca .si64, some (.int 1)⟩, ⟨.sca .si64, some (.int 10)⟩,
          ⟨.sca .si64, some (.int 2)⟩]
        traits := [.OneCol]
        inferNumRowsOp := some (.SeqOp ⟨.sca .si64, some (.int 1)⟩
          ⟨.sca .si64, some (.int 10)⟩ ⟨.sca .si64, some (.int 2)⟩ 0) }
      [(5, 1)]
      (by
        intro v hv
        simp only [Operation.allOperands, InferNumRowsOp.operands, List.append_nil,
          List.mem_append, List.mem_cons, List.mem_singleton, List.not_mem_nil, or_false] at hv
        rcases hv with (rfl | rfl | rfl) | rfl | rfl | rfl <;> simp [Value.validDims])
      (by
        refine ⟨?_, ?_, ?_, ?_, ?_⟩
        · intro i v _ _ ht
          simp [Operation.hasTrait] at ht
        · intro r hr
          simp only [Option.some.injEq] at hr
          subst hr
          refine ⟨?_, ?_⟩
          · intro h
            simp at h
          · intro _ vFrom vTo vInc h1 h2 h3
            simp only [Option.some.injEq, Const.int.injEq] at h1 h2 h3
            subst h1 h2 h3
            decide
        · intro n hn
          cases hn
        · intro ht
          simp [Operation.hasTrait] at ht
        · intro ht
          simp [Operation.hasTrait] at ht)
      rfl

/-! ## The claims on the custom rules -/

/-- C11: for a matrix or frame source of shape `(r, c)`, if the row count is unknown or a bound
is no integer constant, `SliceRowOp` inference returns `(-1, c)` without validating the
bounds; if the column count is unknown or a bound is no integer constant, `SliceColOp`
inference returns `(r, -1)`. -/
theorem C11_slice_missing_precondition (source lowerIncl upperExcl : Value) (r c : Int)
    (hsrc : source.ty = .matrix r c ∨ ∃ labels, source.ty = .frame r c labels) :
    ((r = -1 ∨ (∀ n, lowerIncl.cst ≠ some (.int n)) ∨ (∀ n, upperExcl.cst ≠ some (.int n))) →
        SliceRowOp.inferShape source lowerIncl upperExcl = .ok [(-1, c)]) ∧
      ((c = -1 ∨ (∀ n, lowerIncl.cst ≠ some (.int n)) ∨ (∀ n, upperExcl.cst ≠ some (.int n))) →
        SliceColOp.inferShape source lowerIncl upperExcl = .ok [(r, -1)]) := by
  constructor
  · intro hmiss
    have hcond : ¬ (r ≠ -1 ∧ (isConstantInt lowerIncl).1 = true ∧
        (isConstantInt upperExcl).1 = true) := by
      rintro ⟨h1, h2, h3⟩
      rcases hmiss with h | h | h
      · exact h1 h
      · rw [isConstantInt_of_not_int h] at h2
        cases h2
      · rw [isConstantInt_of_not_int h] at h3
        cases h3
    rcases hsrc with h | ⟨labels, h⟩ <;>
    · simp only [SliceRowOp.inferShape, h]
      rw [if_neg hcond]
  · intro hmiss
    have hcond : ¬ (c ≠ -1 ∧ (isConstantInt lowerIncl).1 = true ∧
        (isConstantInt upperExcl).1 = true) := by
      rintro ⟨h1, h2, h3⟩
      rcases hmiss with h | h | h
      · exact h1 h
      · rw [isConstantInt_of_not_int h] at h2
        cases h2
      · rw [isConstantInt_of_not_int h] at h3
        cases h3
    rcases hsrc with h | ⟨labels, h⟩ <;>
    · simp only [SliceColOp.inferShape, h]
      rw [if_neg hcond]

/-- Witness of C11: with an unknown row count the negative constant bound `-5` is not
validated; with a bound that is no constant a 10-row source gives unknown rows; an unknown
column count gives unknown columns. -/
theorem C11_witness :
    SliceRowOp.inferShape ⟨.matrix (-1) 3, none⟩ ⟨.sca .si64, some (.int (-5))⟩
        ⟨.sca .si64, some (.int 0)⟩ = .ok [(-1, 3)] ∧
      SliceRowOp.inferShape ⟨.frame 10 3 none, none⟩ ⟨.sca .si64, none⟩
        ⟨.sca .si64, some (.int 7)⟩ = .ok [(-1, 3)] ∧
      SliceColOp.inferShape ⟨.matrix 4 (-1), none⟩ ⟨.sca .si64, some (.int (-5))⟩
        ⟨.sca .si64, some (.int 2)⟩ = .ok [(4, -1)] :=
  ⟨(C11_slice_missing_precondition ⟨.matrix (-1) 3, none⟩ ⟨.sca .si64, some (.int (-5))⟩
      ⟨.sca .si64, some (.int 0)⟩ (-1) 3 (Or.inl rfl)).1 (Or.inl rfl),
    (C11_slice_missing_precondition ⟨.frame 10 3 none, none⟩ ⟨.sca .si64, none⟩
      ⟨.sca .si64, some (.int 7)⟩ 10 3 (Or.inr ⟨none, rfl⟩)).1
      (Or.inr (Or.inl (fun _ h => Option.noConfusion h))),
    (C11_slice_missing_precondition ⟨.matrix 4 (-1), none⟩ ⟨.sca .si64, some (.int (-5))⟩
      ⟨.sca .si64, some (.int 2)⟩ 4 (-1) (Or.inl rfl)).2 (Or.inl rfl)⟩

/-- C12: for operands with the shapes `(r1, c1)` and `(r2, c2)`, `MatMulOp` inference returns
one shape; its rows are `r1` if `transa` is the constant false, `c1` if it is the constant
true and `-1` if it is no boolean constant; its columns are `c2` if `transb` is the constant
false, `r2` if it is the constant true and `-1` if it is no boolean constant. -/
theorem C12_matMul (lhs rhs transa transb : Value) (r1 c1 r2 c2 : Int)
    (hl : getShape lhs = .ok (r1, c1)) (hr : getShape rhs = .ok (r2, c2)) :
    MatMulOp.inferShape lhs rhs transa transb =
      .ok [(match transa.cst with
            | some (.bool false) => r1
            | some (.bool true) => c1
            | _ => -1,
            match transb.cst with
            | some (.bool false) => c2
            | some (.bool true) => r2
            | _ => -1)] := by
  simp only [MatMulOp.inferShape, hl, hr, isConstantBool]
  rcases ha : transa.cst with _ | ka
  · rcases hb : transb.cst with _ | kb
    · rfl
    · cases kb with
      | bool b => cases b <;> rfl
      | int n => rfl
      | float => rfl
      | str t => rfl
  · cases ka with
    | bool a =>
      rcases hb : transb.cst with _ | kb
      · cases a <;> rfl
      · cases kb with
        | bool b => cases a <;> cases b <;> rfl
        | int n => cases a <;> rfl
        | float => cases a <;> rfl
        | str t => cases a <;> rfl
    | int n =>
      rcases hb : transb.cst with _ | kb
      · rfl
      · cases kb with
        | bool b => cases b <;> rfl
        | int n => rfl
        | float => rfl
        | str t => rfl
    | float =>
      rcases hb : transb.cst with _ | kb
      · rfl
      · cases kb with
        | bool b => cases b <;> rfl
        | int n => rfl
        | float => rfl
        | str t => rfl
    | str t =>
      rcases hb : transb.cst with _ | kb
      · rfl
      · cases kb with
        | bool b => cases b <;> rfl
        | int n => rfl
        | float => rfl
        | str t => rfl

/-- Witness of C12: shapes (3, 4) and (4, 5) with both flags the constant false give (3, 5). -/
theorem C12_witness :
    MatMulOp.inferShape ⟨.matrix 3 4, none⟩ ⟨.matrix 4 5, none⟩
        ⟨.sca .otherSca, some (.bool false)⟩ ⟨.sca .otherSca, some (.bool false)⟩
      = .ok [(3, 5)] :=
  C12_matMul ⟨.matrix 3 4, none⟩ ⟨.matrix 4 5, none⟩ ⟨.sca .otherSca, some (.bool false)⟩
    ⟨.sca .otherSca, some (.bool false)⟩ 3 4 4 5 rfl rfl

/-- C13 on the code: the integer branch of `SeqOp` calls the `int` function `abs`, so for the
signed 64-bit constants from = 0, to = 2^32 + 5 and inc = 1, without any 64-bit overflow, the
difference is converted to the `int` 5 and the row count is 6, not
`|to - from| / |inc| + 1 = 4294967302`. The example from = 1, to = 10, inc = 2 gives 5, and
with a `to` that is no constant the row count is `-1`. -/
theorem C13_seq_int_abs :
    SeqOp.inferNumRows ⟨.sca .si64, some (.int 0)⟩ ⟨.sca .si64, some (.int (2 ^ 32 + 5))⟩
        ⟨.sca .si64, some (.int 1)⟩ 0 = .ok 6 ∧
      |((2 : Int) ^ 32 + 5) - 0| / |(1 : Int)| + 1 = 4294967302 ∧
      SeqOp.inferNumRows ⟨.sca .si64, some (.int 1)⟩ ⟨.sca .si64, some (.int 10)⟩
        ⟨.sca .si64, some (.int 2)⟩ 0 = .ok 5 ∧
      SeqOp.inferNumRows ⟨.sca .si64, some (.int 1)⟩ ⟨.sca .si64, none⟩
        ⟨.sca .si64, some (.int 2)⟩ 0 = .ok (-1) := by
  refine ⟨?_, by decide, ?_, rfl⟩
  · have h : wrapInt (Int.tdiv (absInt (wrapInt (wrapSSizeT (2 ^ 32 + 5 - 0))))
        (absInt (wrapInt 1)) + 1) = 6 := by decide
    have hb : ¬ absInt (wrapInt 1) = 0 := by decide
    simp only [SeqOp.inferNumRows, isConstantInt, and_self, if_true, hb, if_false, h]
  · exact seq_int_fit _ _ _ 0 1 10 2 rfl rfl rfl rfl (by decide) (by decide) (by decide)

/-- On values with shapes, `inferNumRowsFromArgs` fails exactly if two known row counts
differ. -/
theorem rows_failed_iff {vs : List Value} {ss : List Shape} (hs : HasShapes vs ss)
    (hne : vs ≠ []) :
    failed (inferNumRowsFromArgs vs) = true ↔
      ∃ s ∈ ss, ∃ t ∈ ss, s.1 ≠ -1 ∧ t.1 ≠ -1 ∧ s.1 ≠ t.1 := by
  cases hres : inferNumRowsFromArgs vs with
  | error e =>
    simp only [failed, true_iff]
    obtain ⟨a, b, -, ha, hb, hab, ⟨s, hsm, hsa⟩, t, htm, htb⟩ := rows_error hs hne hres
    refine ⟨s, hsm, t, htm, ?_, ?_, ?_⟩
    · rw [hsa]
      exact ha
    · rw [htb]
      exact hb
    · rw [hsa, htb]
      exact hab
  | ok m =>
    simp only [failed, Bool.false_eq_true, false_iff]
    rintro ⟨s, hsm, t, htm, hsk, htk, hdiff⟩
    exact hdiff ((rows_ok hs hres).1 s hsm t htm hsk htk)

theorem toSSizeT_toSizeT_range {r : Int} (h1 : -2 ^ 63 ≤ r) (h2 : r < 2 ^ 63) :
    toSSizeT (toSizeT r) = r := by
  unfold toSSizeT toSizeT
  split <;> omega

theorem toSSizeT_one : toSSizeT 1 = 1 := by
  unfold toSSizeT
  split <;> omega

/-- C17: for a matrix or frame argument of shape `(r, c)`, both `ssize_t` values, `OrderOp`
inference returns one shape with `r` rows; its columns are 1 if `returnIdxs` is the constant
true, `c` if it is the constant false and `-1` if it is no boolean constant. -/
theorem C17_order (arg returnIdxs : Value) (r c : Int)
    (harg : arg.ty = .matrix r c ∨ ∃ labels, arg.ty = .frame r c labels)
    (hr : -2 ^ 63 ≤ r ∧ r < 2 ^ 63) (hc : -2 ^ 63 ≤ c ∧ c < 2 ^ 63) :
    OrderOp.inferShape arg returnIdxs =
      .ok [(r, match returnIdxs.cst with
              | some (.bool true) => 1
              | some (.bool false) => c
              | _ => -1)] := by
  have h1 := toSSizeT_toSizeT_range hr.1 hr.2
  have h2 := toSSizeT_toSizeT_range hc.1 hc.2
  have h3 := validDim_unknownSizeT
  have h4 := toSSizeT_one
  rcases harg with h | ⟨labels, h⟩ <;>
  · simp only [OrderOp.inferShape, h, isConstantBool]
    rcases hk : returnIdxs.cst with _ | k
    · simp only [Bool.false_eq_true, if_false, h1, h3]
    · cases k with
      | bool b => cases b <;> simp [h1, h2, h4]
      | int n => simp only [Bool.false_eq_true, if_false, h1, h3]
      | float => simp only [Bool.false_eq_true, if_false, h1, h3]
      | str t => simp only [Bool.false_eq_true, if_false, h1, h3]

/-- Witness of C17: a (7, 3) matrix keeps 7 rows; the constant true gives 1 column, the
constant false 3 columns, a flag that is no constant unknown columns. -/
theorem C17_witness :
    OrderOp.inferShape ⟨.matrix 7 3, none⟩ ⟨.sca .otherSca, some (.bool true)⟩
        = .ok [(7, 1)] ∧
      OrderOp.inferShape ⟨.matrix 7 3, none⟩ ⟨.sca .otherSca, some (.bool false)⟩
        = .ok [(7, 3)] ∧
      OrderOp.inferShape ⟨.frame 7 3 none, none⟩ ⟨.sca .otherSca, none⟩ = .ok [(7, -1)] :=
  ⟨C17_order ⟨.matrix 7 3, none⟩ ⟨.sca .otherSca, some (.bool true)⟩ 7 3 (Or.inl rfl)
      (by decide) (by decide),
    C17_order ⟨.matrix 7 3, none⟩ ⟨.sca .otherSca, some (.bool false)⟩ 7 3 (Or.inl rfl)
      (by decide) (by decide),
    C17_order ⟨.frame 7 3 none, none⟩ ⟨.sca .otherSca, none⟩ 7 3 (Or.inr ⟨none, rfl⟩)
      (by decide) (by decide)⟩

/-- C18: with a matrix-typed condition `CondOp` inference returns the stored rows and columns
of the condition, whatever the then- and else-values are; with a frame-typed condition it
fails. -/
theorem C18_cond_nonscalar :
    (∀ (r c : Int) (cst : Option Const) (thenVal elseVal : Value),
        CondOp.inferShape ⟨.matrix r c, cst⟩ thenVal elseVal = .ok [(r, c)]) ∧
      (∀ (r c : Int) (labels : Option (List (List Char))) (cst : Option Const)
          (thenVal elseVal : Value),
        CondOp.inferShape ⟨.frame r c labels, cst⟩ thenVal elseVal = .error .condFrame ∧
          failed (CondOp.inferShape ⟨.frame r c labels, cst⟩ thenVal elseVal) = true) :=
  ⟨fun _ _ _ _ _ => rfl, fun _ _ _ _ _ _ => ⟨rfl, rfl⟩⟩

theorem isMatOrFrm_of {t : Ty} {r c : Int}
    (h : t = .matrix r c ∨ ∃ labels, t = .frame r c labels) :
    isMatOrFrm t = true ∧ matOrFrmDims t = (r, c) := by
  rcases h with rfl | ⟨labels, rfl⟩ <;> exact ⟨rfl, rfl⟩

theorem isMatOrFrm_of_not {t : Ty} (h1 : ∀ r c, t ≠ .matrix r c)
    (h2 : ∀ r c labels, t ≠ .frame r c labels) : isMatOrFrm t = false := by
  cases t with
  | matrix r c => exact absurd rfl (h1 r c)
  | frame r c l => exact absurd rfl (h2 r c l)
  | column r => rfl
  | sca vt => rfl
  | unknown => rfl
  | other => rfl

/-- C19: with a scalar condition, if the then-value has the matrix or frame shape `(tr, tc)`
and the else-value the matrix or frame shape `(er, ec)`, `CondOp` inference returns the rows
`tr` if `tr = er` and `-1` otherwise, and the columns `tc` if `tc = ec` and `-1` otherwise, so
a result field is known exactly if both fields are known and equal; if the then-value or the
else-value is neither a matrix nor a frame, the result is `(-1, -1)`. -/
theorem C19_cond_scalar (cond thenVal elseVal : Value) (vt : ScaTy)
    (hcond : cond.ty = .sca vt) :
    (∀ tr tc er ec : Int,
        (thenVal.ty = .matrix tr tc ∨ ∃ labels, thenVal.ty = .frame tr tc labels) →
        (elseVal.ty = .matrix er ec ∨ ∃ labels, elseVal.ty = .frame er ec labels) →
        CondOp.inferShape cond thenVal elseVal
            = .ok [(if tr = er then tr else -1, if tc = ec then tc else -1)] ∧
          ((if tr = er then tr else -1) ≠ -1 ↔ tr ≠ -1 ∧ er ≠ -1 ∧ tr = er) ∧
          ((if tc = ec then tc else -1) ≠ -1 ↔ tc ≠ -1 ∧ ec ≠ -1 ∧ tc = ec)) ∧
      (((∀ r c, thenVal.ty ≠ .matrix r c) ∧ (∀ r c labels, thenVal.ty ≠ .frame r c labels)) ∨
          ((∀ r c, elseVal.ty ≠ .matrix r c) ∧
            (∀ r c labels, elseVal.ty ≠ .frame r c labels)) →
        CondOp.inferShape cond thenVal elseVal = .ok [(-1, -1)]) := by
  constructor
  · intro tr tc er ec ht he
    obtain ⟨ht1, ht2⟩ := isMatOrFrm_of ht
    obtain ⟨he1, he2⟩ := isMatOrFrm_of he
    refine ⟨?_, ?_, ?_⟩
    · simp only [CondOp.inferShape, hcond, ht1, he1, ht2, he2, and_self, if_true]
    · by_cases h : tr = er
      · simp only [h, if_true]
        constructor
        · intro h1
          exact ⟨h1, h1, trivial⟩
        · intro h1
          exact h1.1
      · simp [h]
    · by_cases h : tc = ec
      · simp only [h, if_true]
        constructor
        · intro h1
          exact ⟨h1, h1, trivial⟩
        · intro h1
          exact h1.1
      · simp [h]
  · intro hnot
    have hc : ¬ (isMatOrFrm thenVal.ty = true ∧ isMatOrFrm elseVal.ty = true) := by
      rintro ⟨h1, h2⟩
      rcases hnot with ⟨ha, hb⟩ | ⟨ha, hb⟩
      · rw [isMatOrFrm_of_not ha hb] at h1
        cases h1
      · rw [isMatOrFrm_of_not ha hb] at h2
        cases h2
    simp only [CondOp.inferShape, hcond]
    rw [if_neg hc]

/-- Witness of C19: branches (3, 4) and (3, 5) give (3, -1); two branches with unknown rows
give unknown rows although the fields are equal; a scalar else-value gives (-1, -1). -/
theorem C19_witness :
    CondOp.inferShape ⟨.sca .otherSca, none⟩ ⟨.matrix 3 4, none⟩ ⟨.frame 3 5 none, none⟩
        = .ok [(3, -1)] ∧
      CondOp.inferShape ⟨.sca .otherSca, none⟩ ⟨.matrix (-1) 4, none⟩ ⟨.matrix (-1) 4, none⟩
        = .ok [(-1, 4)] ∧
      CondOp.inferShape ⟨.sca .otherSca, none⟩ ⟨.matrix 3 4, none⟩ ⟨.sca .f64, none⟩
        = .ok [(-1, -1)] :=
  ⟨((C19_cond_scalar ⟨.sca .otherSca, none⟩ ⟨.matrix 3 4, none⟩ ⟨.frame 3 5 none, none⟩
      .otherSca rfl).1 3 4 3 5 (Or.inl rfl) (Or.inr ⟨none, rfl⟩)).1,
    ((C19_cond_scalar ⟨.sca .otherSca, none⟩ ⟨.matrix (-1) 4, none⟩ ⟨.matrix (-1) 4, none⟩
      .otherSca rfl).1 (-1) 4 (-1) 4 (Or.inl rfl) (Or.inl rfl)).1,
    (C19_cond_scalar ⟨.sca .otherSca, none⟩ ⟨.matrix 3 4, none⟩ ⟨.sca .f64, none⟩
      .otherSca rfl).2 (Or.inr ⟨by simp, by simp⟩)⟩

/-! ## The output dimension of convolution and pooling -/

/-- Without wrap-around and with a result below `2^53`, `outDim` is the quotient plus one. -/
theorem outDim_wellFormed (inDim pad fDim stride : Nat) (hs : 1 ≤ stride)
    (hf : fDim ≤ inDim + 2 * pad) (hfit : inDim + 2 * pad < 2 ^ 64)
    (hres : (inDim + 2 * pad - fDim) / stride + 1 < 2 ^ 53) :
    outDim inDim pad fDim stride = .ok ((inDim + 2 * pad - fDim) / stride + 1) := by
  have h1 : mulSz 2 pad = 2 * pad := by
    unfold mulSz
    omega
  have h2 : addSz inDim (2 * pad) = inDim + 2 * pad := by
    unfold addSz
    omega
  have h3 : subSz (inDim + 2 * pad) fDim = inDim + 2 * pad - fDim := by
    unfold subSz toSizeT
    omega
  have h5 : addSz ((inDim + 2 * pad - fDim) / stride) 1
      = (inDim + 2 * pad - fDim) / stride + 1 := by
    unfold addSz
    generalize (inDim + 2 * pad - fDim) / stride = y at hres ⊢
    omega
  unfold outDim
  rw [if_neg (by omega), h1, h2, h3, h5]
  unfold floorSizeT
  rw [if_pos hres]

/-- The quotient plus one is the floor of the rational expression. -/
theorem outDim_floor (inDim pad fDim stride : Nat) (hf : fDim ≤ inDim + 2 * pad) :
    (((inDim + 2 * pad - fDim) / stride + 1 : Nat) : Int)
      = ⌊((inDim : ℚ) + 2 * pad - fDim) / stride + 1⌋ := by
  have hcast : ((inDim : ℚ) + 2 * pad - fDim) = (((inDim + 2 * pad - fDim : ℕ) : ℤ) : ℚ) := by
    push_cast [Nat.cast_sub hf]
    ring
  rw [hcast, Int.floor_add_one, Rat.floor_intCast_div_natCast]
  push_cast
  rfl

/-- A non-negative integer constant below `2^64` is read as itself. -/
theorem constantOrDefaultSizeT_of_int {v : Value} {n : Nat} (d : Nat)
    (h : v.cst = some (.int (n : Int))) (hn : n < 2 ^ 64) : constantOrDefaultSizeT v d = n := by
  unfold constantOrDefaultSizeT
  rw [isConstantInt_of_int h]
  simp only [if_true]
  unfold toSizeT
  omega

/-- The data shape of `AvgPoolForwardOp` in terms of the two results of `outDim`. -/
theorem AvgPoolForwardOp_eq (input inputNumChannels inputHeight inputWidth poolHeight
    poolWidth padHeight padWidth strideHeight strideWidth : Value) (shapeX : Shape)
    (Hout Wout : Nat) (hx : getShape input = .ok shapeX)
    (hh : outDim (constantOrDefaultSizeT inputHeight 1) (constantOrDefaultSizeT padHeight 1)
      (constantOrDefaultSizeT poolHeight 1) (constantOrDefaultSizeT strideHeight 1) = .ok Hout)
    (hw : outDim (constantOrDefaultSizeT inputWidth 1) (constantOrDefaultSizeT padWidth 1)
      (constantOrDefaultSizeT poolWidth 1) (constantOrDefaultSizeT strideWidth 1) = .ok Wout) :
    AvgPoolForwardOp.inferShape input inputNumChannels inputHeight inputWidth poolHeight
        poolWidth padHeight padWidth strideHeight strideWidth
      = .ok [(shapeX.1,
          toSSizeT (mulSz (mulSz (constantOrDefaultSizeT inputNumChannels 1) Hout) Wout)),
          (1, 1), (1, 1)] := by
  simp only [AvgPoolForwardOp.inferShape, hx, hh, hw]

/-- The data shape of `MaxPoolForwardOp` in terms of the two results of `outDim`. -/
theorem MaxPoolForwardOp_eq (input inputNumChannels inputHeight inputWidth poolHeight
    poolWidth padHeight padWidth strideHeight strideWidth : Value) (shapeX : Shape)
    (Hout Wout : Nat) (hx : getShape input = .ok shapeX)
    (hh : outDim (constantOrDefaultSizeT inputHeight 1) (constantOrDefaultSizeT padHeight 1)
      (constantOrDefaultSizeT poolHeight 1) (constantOrDefaultSizeT strideHeight 1) = .ok Hout)
    (hw : outDim (constantOrDefaultSizeT inputWidth 1) (constantOrDefaultSizeT padWidth 1)
      (constantOrDefaultSizeT poolWidth 1) (constantOrDefaultSizeT strideWidth 1) = .ok Wout) :
    MaxPoolForwardOp.inferShape input inputNumChannels inputHeight inputWidth poolHeight
        poolWidth padHeight padWidth strideHeight strideWidth
      = .ok [(shapeX.1,
          toSSizeT (mulSz (mulSz (constantOrDefaultSizeT inputNumChannels 1) Hout) Wout)),
          (1, 1), (1, 1)] := by
  simp only [MaxPoolForwardOp.inferShape, hx, hh, hw]

/-- The data shape of `Conv2DForwardOp` in terms of the two results of `outDim`. -/
theorem Conv2DForwardOp_eq (input filter inputHeight inputWidth filterHeight filterWidth
    padHeight padWidth strideHeight strideWidth : Value) (shapeX shapeW : Shape)
    (Hout Wout : Nat) (hx : getShape input = .ok shapeX) (hf : getShape filter = .ok shapeW)
    (hh : outDim (constantOrDefaultSizeT inputHeight 1) (constantOrDefaultSizeT padHeight 1)
      (constantOrDefaultSizeT filterHeight 1) (constantOrDefaultSizeT strideHeight 1)
      = .ok Hout)
    (hw : outDim (constantOrDefaultSizeT inputWidth 1) (constantOrDefaultSizeT padWidth 1)
      (constantOrDefaultSizeT filterWidth 1) (constantOrDefaultSizeT strideWidth 1)
      = .ok Wout) :
    Conv2DForwardOp.inferShape input filter inputHeight inputWidth filterHeight filterWidth
        padHeight padWidth strideHeight strideWidth
      = .ok [(shapeX.1,
          if shapeW.1 = -1 then -1
          else toSSizeT (mulSz (mulSz (toSizeT shapeW.1) Hout) Wout)),
          (1, 1), (1, 1)] := by
  simp only [Conv2DForwardOp.inferShape, hx, hf, hh, hw]

/-- C20, as stated, fails. With in = 3, pad = 0, f = 5, stride = 2 the `size_t` difference
`3 - 5` wraps around and the output height is `2^63`, not `floor((3 - 5) / 2 + 1) = 0`; an
average pooling with these height constants gets the column count `-2^63`. With in = `2^53`,
pad = 0, f = 0, stride = 1 the value `2^53 + 1` is rounded by the conversion to `double` in
`std::floor`, the output height is `2^53`. -/
theorem C20_counterexample :
    (outDim 3 0 5 2 = .ok (2 ^ 63) ∧ ⌊((3 : ℚ) + 2 * 0 - 5) / 2 + 1⌋ = 0 ∧
      AvgPoolForwardOp.inferShape ⟨.matrix 5 9, none⟩ ⟨.sca .si64, some (.int 1)⟩
        ⟨.sca .si64, some (.int 3)⟩ ⟨.sca .si64, some (.int 1)⟩ ⟨.sca .si64, some (.int 5)⟩
        ⟨.sca .si64, some (.int 1)⟩ ⟨.sca .si64, some (.int 0)⟩ ⟨.sca .si64, some (.int 0)⟩
        ⟨.sca .si64, some (.int 2)⟩ ⟨.sca .si64, some (.int 1)⟩
        = .ok [(5, -2 ^ 63), (1, 1), (1, 1)]) ∧
      (outDim (2 ^ 53) 0 0 1 = .ok (2 ^ 53) ∧
        ⌊((2 ^ 53 : ℚ) + 2 * 0 - 0) / 1 + 1⌋ = 2 ^ 53 + 1) := by
  have hlog63 : Nat.log2 (2 ^ 63) = 63 := by
    rw [Nat.log2_eq_log_two, Nat.log_pow (by norm_num)]
  have hlog53 : Nat.log2 (2 ^ 53 + 1) = 53 := by
    rw [Nat.log2_eq_log_two]
    exact Nat.log_eq_of_pow_le_of_lt_pow (by norm_num) (by norm_num)
  have hout : outDim 3 0 5 2 = .ok (2 ^ 63) := by
    have h1 : addSz (subSz (addSz 3 (mulSz 2 0)) 5 / 2) 1 = 2 ^ 63 := by decide
    unfold outDim
    rw [if_neg (by decide), h1]
    unfold floorSizeT
    simp only [hlog63]
    rfl
  refine ⟨⟨hout, by norm_num, ?_⟩, ?_, ?_⟩
  · exact AvgPoolForwardOp_eq ⟨.matrix 5 9, none⟩ ⟨.sca .si64, some (.int 1)⟩
      ⟨.sca .si64, some (.int 3)⟩ ⟨.sca .si64, some (.int 1)⟩ ⟨.sca .si64, some (.int 5)⟩
      ⟨.sca .si64, some (.int 1)⟩ ⟨.sca .si64, some (.int 0)⟩ ⟨.sca .si64, some (.int 0)⟩
      ⟨.sca .si64, some (.int 2)⟩ ⟨.sca .si64, some (.int 1)⟩ (5, 9) (2 ^ 63) 1 rfl hout rfl
  · have h1 : addSz (subSz (addSz (2 ^ 53) (mulSz 2 0)) 0 / 1) 1 = 2 ^ 53 + 1 := by decide
    unfold outDim
    rw [if_neg (by decide), h1]
    unfold floorSizeT
    simp only [hlog53]
    rfl
  · norm_num

/-- C20, amended: for non-negative `in`, `pad`, `f` and `stride ≥ 1` with `f ≤ in + 2 * pad`,
`in + 2 * pad` below `2^64` and a result below `2^53`, the output dimension is
`(in + 2 * pad - f) / stride + 1`, the floor of the rational expression; it is the output
height, and likewise the output width, that `AvgPoolForwardOp`, `MaxPoolForwardOp` and
`Conv2DForwardOp` multiply into the column count when their height (width) constants read
as these four values. -/
theorem C20_outDim (inDim pad fDim stride : Nat) (hs : 1 ≤ stride)
    (hf : fDim ≤ inDim + 2 * pad) (hfit : inDim + 2 * pad < 2 ^ 64)
    (hres : (inDim + 2 * pad - fDim) / stride + 1 < 2 ^ 53) :
    outDim inDim pad fDim stride = .ok ((inDim + 2 * pad - fDim) / stride + 1) ∧
      (((inDim + 2 * pad - fDim) / stride + 1 : Nat) : Int)
        = ⌊((inDim : ℚ) + 2 * pad - fDim) / stride + 1⌋ ∧
      ∀ (input chanOrFilter inputHeight inputWidth fHeight fWidth padHeight padWidth
          strideHeight strideWidth : Value) (shapeX : Shape) (other : Nat),
        getShape input = .ok shapeX →
        (constantOrDefaultSizeT inputHeight 1 = inDim →
          constantOrDefaultSizeT padHeight 1 = pad →
          constantOrDefaultSizeT fHeight 1 = fDim →
          constantOrDefaultSizeT strideHeight 1 = stride →
          outDim (constantOrDefaultSizeT inputWidth 1) (constantOrDefaultSizeT padWidth 1)
            (constantOrDefaultSizeT fWidth 1) (constantOrDefaultSizeT strideWidth 1)
            = .ok other →
          AvgPoolForwardOp.inferShape input chanOrFilter inputHeight inputWidth fHeight fWidth
              padHeight padWidth strideHeight strideWidth
            = .ok [(shapeX.1, toSSizeT (mulSz (mulSz (constantOrDefaultSizeT chanOrFilter 1)
                ((inDim + 2 * pad - fDim) / stride + 1)) other)), (1, 1), (1, 1)] ∧
          MaxPoolForwardOp.inferShape input chanOrFilter inputHeight inputWidth fHeight fWidth
              padHeight padWidth strideHeight strideWidth
            = .ok [(shapeX.1, toSSizeT (mulSz (mulSz (constantOrDefaultSizeT chanOrFilter 1)
                ((inDim + 2 * pad - fDim) / stride + 1)) other)), (1, 1), (1, 1)] ∧
          ∀ shapeW, getShape chanOrFilter = .ok shapeW →
            Conv2DForwardOp.inferShape input chanOrFilter inputHeight inputWidth fHeight
                fWidth padHeight padWidth strideHeight strideWidth
              = .ok [(shapeX.1, if shapeW.1 = -1 then -1
                  else toSSizeT (mulSz (mulSz (toSizeT shapeW.1)
                    ((inDim + 2 * pad - fDim) / stride + 1)) other)), (1, 1), (1, 1)]) ∧
        (constantOrDefaultSizeT inputWidth 1 = inDim →
          constantOrDefaultSizeT padWidth 1 = pad →
          constantOrDefaultSizeT fWidth 1 = fDim →
          constantOrDefaultSizeT strideWidth 1 = stride →
          outDim (constantOrDefaultSizeT inputHeight 1) (constantOrDefaultSizeT padHeight 1)
            (constantOrDefaultSizeT fHeight 1) (constantOrDefaultSizeT strideHeight 1)
            = .ok other →
          AvgPoolForwardOp.inferShape input chanOrFilter inputHeight inputWidth fHeight fWidth
              padHeight padWidth strideHeight strideWidth
            = .ok [(shapeX.1, toSSizeT (mulSz (mulSz (constantOrDefaultSizeT chanOrFilter 1)
                other) ((inDim + 2 * pad - fDim) / stride + 1))), (1, 1), (1, 1)] ∧
          MaxPoolForwardOp.inferShape input chanOrFilter inputHeight inputWidth fHeight fWidth
              padHeight padWidth strideHeight strideWidth
            = .ok [(shapeX.1, toSSizeT (mulSz (mulSz (constantOrDefaultSizeT chanOrFilter 1)
                other) ((inDim + 2 * pad - fDim) / stride + 1))), (1, 1), (1, 1)] ∧
          ∀ shapeW, getShape chanOrFilter = .ok shapeW →
            Conv2DForwardOp.inferShape input chanOrFilter inputHeight inputWidth fHeight
                fWidth padHeight padWidth strideHeight strideWidth
              = .ok [(shapeX.1, if shapeW.1 = -1 then -1
                  else toSSizeT (mulSz (mulSz (toSizeT shapeW.1) other)
                    ((inDim + 2 * pad - fDim) / stride + 1))), (1, 1), (1, 1)]) := by
  have hout := outDim_wellFormed inDim pad fDim stride hs hf hfit hres
  refine ⟨hout, outDim_floor inDim pad fDim stride hf, ?_⟩
  intro input chanOrFilter inputHeight inputWidth fHeight fWidth padHeight padWidth
    strideHeight strideWidth shapeX other hx
  constructor
  · intro h1 h2 h3 h4 hother
    have hh : outDim (constantOrDefaultSizeT inputHeight 1) (constantOrDefaultSizeT padHeight 1)
        (constantOrDefaultSizeT fHeight 1) (constantOrDefaultSizeT strideHeight 1)
        = .ok ((inDim + 2 * pad - fDim) / stride + 1) := by
      rw [h1, h2, h3, h4]
      exact hout
    exact ⟨AvgPoolForwardOp_eq _ _ _ _ _ _ _ _ _ _ shapeX _ _ hx hh hother,
      MaxPoolForwardOp_eq _ _ _ _ _ _ _ _ _ _ shapeX _ _ hx hh hother,
      fun shapeW hw => Conv2DForwardOp_eq _ _ _ _ _ _ _ _ _ _ shapeX shapeW _ _ hx hw hh hother⟩
  · intro h1 h2 h3 h4 hother
    have hw : outDim (constantOrDefaultSizeT inputWidth 1) (constantOrDefaultSizeT padWidth 1)
        (constantOrDefaultSizeT fWidth 1) (constantOrDefaultSizeT strideWidth 1)
        = .ok ((inDim + 2 * pad - fDim) / stride + 1) := by
      rw [h1, h2, h3, h4]
      exact hout
    exact ⟨AvgPoolForwardOp_eq _ _ _ _ _ _ _ _ _ _ shapeX _ _ hx hother hw,
      MaxPoolForwardOp_eq _ _ _ _ _ _ _ _ _ _ shapeX _ _ hx hother hw,
      fun shapeW hf1 =>
        Conv2DForwardOp_eq _ _ _ _ _ _ _ _ _ _ shapeX shapeW _ _ hx hf1 hother hw⟩

/-- Witness of C20: in = 5, pad = 1, f = 3, stride = 2 give the output height 3; an average
pooling over 3 channels with these height constants and the output width 2 gets 18 columns. -/
theorem C20_witness :
    outDim 5 1 3 2 = .ok 3 ∧
      AvgPoolForwardOp.inferShape ⟨.matrix 8 60, none⟩ ⟨.sca .si64, some (.int 3)⟩
        ⟨.sca .si64, some (.int 5)⟩ ⟨.sca .si64, some (.int 4)⟩ ⟨.sca .si64, some (.int 3)⟩
        ⟨.sca .si64, some (.int 2)⟩ ⟨.sca .si64, some (.int 1)⟩ ⟨.sca .si64, some (.int 0)⟩
        ⟨.sca .si64, some (.int 2)⟩ ⟨.sca .si64, some (.int 2)⟩
        = .ok [(8, 18), (1, 1), (1, 1)] :=
  ⟨(C20_outDim 5 1 3 2 (by decide) (by decide) (by decide) (by decide)).1,
    (((C20_outDim 5 1 3 2 (by decide) (by decide) (by decide) (by decide)).2.2
      ⟨.matrix 8 60, none⟩ ⟨.sca .si64, some (.int 3)⟩
      ⟨.sca .si64, some (.int 5)⟩ ⟨.sca .si64, some (.int 4)⟩ ⟨.sca .si64, some (.int 3)⟩
      ⟨.sca .si64, some (.int 2)⟩ ⟨.sca .si64, some (.int 1)⟩ ⟨.sca .si64, some (.int 0)⟩
      ⟨.sca .si64, some (.int 2)⟩ ⟨.sca .si64, some (.int 2)⟩ (8, 60) 2 rfl).1
      rfl rfl rfl rfl rfl).1⟩

/-! ## The claims on grouping, recoding and the eigen decomposition -/

/-- C28: whenever `GroupOp` inference succeeds, it returns one shape whose row count is the
sentinel `-1`, whatever the frame and its row count are. -/
theorem C28_group_rows (frame : Value) (keyCol aggCol : List Value) (shapes : List Shape)
    (h : GroupOp.inferShape frame keyCol aggCol = .ok shapes) :
    ∃ numCols, shapes = [(-1, numCols)] := by
  unfold GroupOp.inferShape at h
  cases hl : GroupOp.inferShape.loop frame keyCol [] with
  | error e => simp [hl] at h
  | ok newLabels =>
    simp only [hl, Except.ok.injEq] at h
    refine ⟨toSSizeT (addSz newLabels.length aggCol.length), ?_⟩
    rw [← h, validDim_unknownSizeT]

/-- Witness of C28: a 7-row frame grouped by one key with one aggregation column gives
`(-1, 2)`. -/
theorem C28_witness :
    GroupOp.inferShape ⟨.frame 7 2 (some [['t', '.', 'a'], ['t', '.', 'b']]), none⟩
        [⟨.sca .str, some (.str ['t', '.', 'a'])⟩] [⟨.sca .str, some (.str ['t', '.', 'b'])⟩]
        = .ok [(-1, 2)] ∧
      ∃ numCols, [((-1 : Int), (2 : Int))] = [(-1, numCols)] :=
  ⟨rfl,
    C28_group_rows ⟨.frame 7 2 (some [['t', '.', 'a'], ['t', '.', 'b']]), none⟩
      [⟨.sca .str, some (.str ['t', '.', 'a'])⟩] [⟨.sca .str, some (.str ['t', '.', 'b'])⟩]
      [(-1, 2)] rfl⟩

/-- C29: `RecodeOp` inference returns the two shapes `(r, c)` and `(-1, 1)` for a matrix or
frame argument of shape `(r, c)`, the two shapes `(-1, -1)` and `(-1, 1)` for an argument of
unknown type, and fails exactly if the argument is none of matrix, frame and unknown type. -/
theorem C29_recode :
    (∀ (r c : Int) (cst : Option Const),
        RecodeOp.inferShape ⟨.matrix r c, cst⟩ = .ok [(r, c), (-1, 1)]) ∧
      (∀ (r c : Int) (labels : Option (List (List Char))) (cst : Option Const),
        RecodeOp.inferShape ⟨.frame r c labels, cst⟩ = .ok [(r, c), (-1, 1)]) ∧
      (∀ cst : Option Const, RecodeOp.inferShape ⟨.unknown, cst⟩ = .ok [(-1, -1), (-1, 1)]) ∧
      ∀ arg : Value, failed (RecodeOp.inferShape arg) = true ↔
        ¬ ((∃ r c, arg.ty = .matrix r c) ∨ (∃ r c labels, arg.ty = .frame r c labels) ∨
          arg.ty = .unknown) := by
  refine ⟨fun _ _ _ => rfl, fun _ _ _ _ => rfl, fun _ => rfl, ?_⟩
  intro arg
  obtain ⟨ty, cst⟩ := arg
  cases ty <;> simp [RecodeOp.inferShape, failed]

/-- C30: for an operand of shape `(n, m)`, `EigenOp` inference returns exactly the two shapes
`(n, 1)` and `(n, n)`, whatever `m` is. -/
theorem C30_eigen (arg : Value) (n m : Int) (h : getShape arg = .ok (n, m)) :
    EigenOp.inferShape arg = .ok [(n, 1), (n, n)] := by
  simp only [EigenOp.inferShape, h]

/-- Witness of C30: a (4, 9) matrix gives (4, 1) and (4, 4); unknown rows give (-1, 1) and
(-1, -1). -/
theorem C30_witness :
    EigenOp.inferShape ⟨.matrix 4 9, none⟩ = .ok [(4, 1), (4, 4)] ∧
      EigenOp.inferShape ⟨.matrix (-1) 4, none⟩ = .ok [(-1, 1), (-1, -1)] :=
  ⟨C30_eigen ⟨.matrix 4 9, none⟩ 4 9 rfl, C30_eigen ⟨.matrix (-1) 4, none⟩ (-1) 4 rfl⟩

/-! ## The column count of convolution and pooling -/

theorem toSSizeT_mulSz_eq {a b c : Nat} (h : a * b * c < 2 ^ 63) :
    toSSizeT (mulSz (mulSz a b) c) = ((a * b * c : Nat) : Int) := by
  have hm : mulSz (mulSz a b) c = a * b * c := by
    unfold mulSz
    rcases Nat.eq_zero_or_pos c with rfl | hc
    · simp
    · have h1 : a * b ≤ a * b * c := Nat.le_mul_of_pos_right _ hc
      have h2 : a * b % 2 ^ 64 = a * b := Nat.mod_eq_of_lt (by omega)
      rw [h2]
      exact Nat.mod_eq_of_lt (by omega)
  rw [hm]
  unfold toSSizeT
  generalize a * b * c = x at h
  split <;> omega

theorem toSizeT_of_nonneg {x : Int} (h0 : 0 ≤ x) (h1 : x < 2 ^ 64) : toSizeT x = x.toNat := by
  unfold toSizeT
  omega

/-- C21, as stated, fails. For an input with 3 channels (60 = 3 * 5 * 4 columns), 2 filters
and the output height 3 and width 2, `Conv2DForwardOp` infers `2 * 3 * 2 = 12` columns, not
`3 * 3 * 2 * 2 = 36`: the channel count is no factor. With `2^62` filters the `size_t` product
`2^62 * 3 * 2` wraps around and the column count is `-2^63`. -/
theorem C21_counterexample :
    (Conv2DForwardOp.inferShape ⟨.matrix 8 60, none⟩ ⟨.matrix 2 18, none⟩
        ⟨.sca .si64, some (.int 5)⟩ ⟨.sca .si64, some (.int 4)⟩ ⟨.sca .si64, some (.int 3)⟩
        ⟨.sca .si64, some (.int 2)⟩ ⟨.sca .si64, some (.int 1)⟩ ⟨.sca .si64, some (.int 0)⟩
        ⟨.sca .si64, some (.int 2)⟩ ⟨.sca .si64, some (.int 2)⟩
        = .ok [(8, 12), (1, 1), (1, 1)] ∧
      outDim 5 1 3 2 = .ok 3 ∧ outDim 4 0 2 2 = .ok 2 ∧ (12 : Int) ≠ 3 * 3 * 2 * 2) ∧
      Conv2DForwardOp.inferShape ⟨.matrix 8 60, none⟩ ⟨.matrix (2 ^ 62) 18, none⟩
        ⟨.sca .si64, some (.int 5)⟩ ⟨.sca .si64, some (.int 4)⟩ ⟨.sca .si64, some (.int 3)⟩
        ⟨.sca .si64, some (.int 2)⟩ ⟨.sca .si64, some (.int 1)⟩ ⟨.sca .si64, some (.int 0)⟩
        ⟨.sca .si64, some (.int 2)⟩ ⟨.sca .si64, some (.int 2)⟩
        = .ok [(8, -2 ^ 63), (1, 1), (1, 1)] :=
  ⟨⟨rfl, rfl, rfl, by decide⟩, rfl⟩

/-- C21, amended: with the output height `Hout` and width `Wout`, the column count of the data
result of `Conv2DForwardOp` is `F * Hout * Wout` for a known filter count `F` (the row count
of the filter operand) whose product does not overflow, without a factor for the channels,
and `-1` for an unknown `F`. -/
theorem C21_conv_cols (input filter inputHeight inputWidth filterHeight filterWidth padHeight
    padWidth strideHeight strideWidth : Value) (shapeX shapeW : Shape) (Hout Wout : Nat)
    (hx : getShape input = .ok shapeX) (hf : getShape filter = .ok shapeW)
    (hh : outDim (constantOrDefaultSizeT inputHeight 1) (constantOrDefaultSizeT padHeight 1)
      (constantOrDefaultSizeT filterHeight 1) (constantOrDefaultSizeT strideHeight 1)
      = .ok Hout)
    (hw : outDim (constantOrDefaultSizeT inputWidth 1) (constantOrDefaultSizeT padWidth 1)
      (constantOrDefaultSizeT filterWidth 1) (constantOrDefaultSizeT strideWidth 1)
      = .ok Wout) :
    (shapeW.1 = -1 →
        Conv2DForwardOp.inferShape input filter inputHeight inputWidth filterHeight filterWidth
            padHeight padWidth strideHeight strideWidth
          = .ok [(shapeX.1, -1), (1, 1), (1, 1)]) ∧
      (0 ≤ shapeW.1 → shapeW.1 < 2 ^ 63 → shapeW.1 * Hout * Wout < 2 ^ 63 →
        Conv2DForwardOp.inferShape input filter inputHeight inputWidth filterHeight filterWidth
            padHeight padWidth strideHeight strideWidth
          = .ok [(shapeX.1, shapeW.1 * Hout * Wout), (1, 1), (1, 1)]) := by
  have heq := Conv2DForwardOp_eq input filter inputHeight inputWidth filterHeight filterWidth
    padHeight padWidth strideHeight strideWidth shapeX shapeW Hout Wout hx hf hh hw
  constructor
  · intro hF
    rw [heq, if_pos hF]
  · intro h0 h1 hfit
    have hne : shapeW.1 ≠ -1 := by omega
    rw [heq, if_neg hne, toSizeT_of_nonneg h0 (by omega)]
    have hcast : ((shapeW.1.toNat : Nat) : Int) = shapeW.1 := Int.toNat_of_nonneg h0
    have hfitN : shapeW.1.toNat * Hout * Wout < 2 ^ 63 := by
      have : ((shapeW.1.toNat * Hout * Wout : Nat) : Int) < 2 ^ 63 := by
        push_cast
        rw [hcast]
        exact hfit
      exact_mod_cast this
    rw [toSSizeT_mulSz_eq hfitN]
    push_cast
    rw [hcast]

/-- Witness of C21: 2 filters with the output height 3 and width 2 give 12 columns; an unknown
filter count gives unknown columns. -/
theorem C21_witness :
    Conv2DForwardOp.inferShape ⟨.matrix 8 60, none⟩ ⟨.matrix 2 18, none⟩
        ⟨.sca .si64, some (.int 5)⟩ ⟨.sca .si64, some (.int 4)⟩ ⟨.sca .si64, some (.int 3)⟩
        ⟨.sca .si64, some (.int 2)⟩ ⟨.sca .si64, some (.int 1)⟩ ⟨.sca .si64, some (.int 0)⟩
        ⟨.sca .si64, some (.int 2)⟩ ⟨.sca .si64, some (.int 2)⟩
        = .ok [(8, 2 * (3 : Nat) * (2 : Nat)), (1, 1), (1, 1)] ∧
      Conv2DForwardOp.inferShape ⟨.matrix 8 60, none⟩ ⟨.matrix (-1) 18, none⟩
        ⟨.sca .si64, some (.int 5)⟩ ⟨.sca .si64, some (.int 4)⟩ ⟨.sca .si64, some (.int 3)⟩
        ⟨.sca .si64, some (.int 2)⟩ ⟨.sca .si64, some (.int 1)⟩ ⟨.sca .si64, some (.int 0)⟩
        ⟨.sca .si64, some (.int 2)⟩ ⟨.sca .si64, some (.int 2)⟩
        = .ok [(8, -1), (1, 1), (1, 1)] :=
  ⟨(C21_conv_cols ⟨.matrix 8 60, none⟩ ⟨.matrix 2 18, none⟩
      ⟨.sca .si64, some (.int 5)⟩ ⟨.sca .si64, some (.int 4)⟩ ⟨.sca .si64, some (.int 3)⟩
      ⟨.sca .si64, some (.int 2)⟩ ⟨.sca .si64, some (.int 1)⟩ ⟨.sca .si64, some (.int 0)⟩
      ⟨.sca .si64, some (.int 2)⟩ ⟨.sca .si64, some (.int 2)⟩ (8, 60) (2, 18) 3 2
      rfl rfl rfl rfl).2 (by decide) (by decide) (by decide),
    (C21_conv_cols ⟨.matrix 8 60, none⟩ ⟨.matrix (-1) 18, none⟩
      ⟨.sca .si64, some (.int 5)⟩ ⟨.sca .si64, some (.int 4)⟩ ⟨.sca .si64, some (.int 3)⟩
      ⟨.sca .si64, some (.int 2)⟩ ⟨.sca .si64, some (.int 1)⟩ ⟨.sca .si64, some (.int 0)⟩
      ⟨.sca .si64, some (.int 2)⟩ ⟨.sca .si64, some (.int 2)⟩ (8, 60) (-1, 18) 3 2
      rfl rfl rfl rfl).1 rfl⟩

/-- C22: with the channel count `C` (the constant, or the default 1 if it is no constant) and
the output height `Hout` and width `Wout`, the column count of the data result of
`AvgPoolForwardOp` and of `MaxPoolForwardOp` is `C * Hout * Wout`, for a product that fits a
signed 64-bit value. -/
theorem C22_pool_cols (input inputNumChannels inputHeight inputWidth poolHeight poolWidth
    padHeight padWidth strideHeight strideWidth : Value) (shapeX : Shape) (Hout Wout : Nat)
    (hx : getShape input = .ok shapeX)
    (hh : outDim (constantOrDefaultSizeT inputHeight 1) (constantOrDefaultSizeT padHeight 1)
      (constantOrDefaultSizeT poolHeight 1) (constantOrDefaultSizeT strideHeight 1) = .ok Hout)
    (hw : outDim (constantOrDefaultSizeT inputWidth 1) (constantOrDefaultSizeT padWidth 1)
      (constantOrDefaultSizeT poolWidth 1) (constantOrDefaultSizeT strideWidth 1) = .ok Wout)
    (hfit : constantOrDefaultSizeT inputNumChannels 1 * Hout * Wout < 2 ^ 63) :
    AvgPoolForwardOp.inferShape input inputNumChannels inputHeight inputWidth poolHeight
        poolWidth padHeight padWidth strideHeight strideWidth
      = .ok [(shapeX.1, ((constantOrDefaultSizeT inputNumChannels 1 * Hout * Wout : Nat) : Int)),
          (1, 1), (1, 1)] ∧
      MaxPoolForwardOp.inferShape input inputNumChannels inputHeight inputWidth poolHeight
          poolWidth padHeight padWidth strideHeight strideWidth
        = .ok [(shapeX.1,
            ((constantOrDefaultSizeT inputNumChannels 1 * Hout * Wout : Nat) : Int)),
            (1, 1), (1, 1)] ∧
      (∀ n : Nat, inputNumChannels.cst = some (.int (n : Int)) → n < 2 ^ 64 →
        constantOrDefaultSizeT inputNumChannels 1 = n) ∧
      ((∀ n, inputNumChannels.cst ≠ some (.int n)) →
        constantOrDefaultSizeT inputNumChannels 1 = 1) := by
  refine ⟨?_, ?_, fun n hn hlt => constantOrDefaultSizeT_of_int 1 hn hlt, ?_⟩
  · rw [AvgPoolForwardOp_eq input inputNumChannels inputHeight inputWidth poolHeight poolWidth
      padHeight padWidth strideHeight strideWidth shapeX Hout Wout hx hh hw,
      toSSizeT_mulSz_eq hfit]
  · rw [MaxPoolForwardOp_eq input inputNumChannels inputHeight inputWidth poolHeight poolWidth
      padHeight padWidth strideHeight strideWidth shapeX Hout Wout hx hh hw,
      toSSizeT_mulSz_eq hfit]
  · intro hnot
    unfold constantOrDefaultSizeT
    rw [isConstantInt_of_not_int hnot]
    rfl

/-- Witness of C22: 3 channels with the output height 3 and width 2 give 18 columns in a
max pooling; without a constant channel count the default 1 gives 6 columns. -/
theorem C22_witness :
    MaxPoolForwardOp.inferShape ⟨.matrix 8 60, none⟩ ⟨.sca .si64, some (.int 3)⟩
        ⟨.sca .si64, some (.int 5)⟩ ⟨.sca .si64, some (.int 4)⟩ ⟨.sca .si64, some (.int 3)⟩
        ⟨.sca .si64, some (.int 2)⟩ ⟨.sca .si64, some (.int 1)⟩ ⟨.sca .si64, some (.int 0)⟩
        ⟨.sca .si64, some (.int 2)⟩ ⟨.sca .si64, some (.int 2)⟩
        = .ok [(8, ((3 * 3 * 2 : Nat) : Int)), (1, 1), (1, 1)] ∧
      AvgPoolForwardOp.inferShape ⟨.matrix 8 60, none⟩ ⟨.sca .si64, none⟩
        ⟨.sca .si64, some (.int 5)⟩ ⟨.sca .si64, some (.int 4)⟩ ⟨.sca .si64, some (.int 3)⟩
        ⟨.sca .si64, some (.int 2)⟩ ⟨.sca .si64, some (.int 1)⟩ ⟨.sca .si64, some (.int 0)⟩
        ⟨.sca .si64, some (.int 2)⟩ ⟨.sca .si64, some (.int 2)⟩
        = .ok [(8, ((1 * 3 * 2 : Nat) : Int)), (1, 1), (1, 1)] :=
  ⟨(C22_pool_cols ⟨.matrix 8 60, none⟩ ⟨.sca .si64, some (.int 3)⟩
      ⟨.sca .si64, some (.int 5)⟩ ⟨.sca .si64, some (.int 4)⟩ ⟨.sca .si64, some (.int 3)⟩
      ⟨.sca .si64, some (.int 2)⟩ ⟨.sca .si64, some (.int 1)⟩ ⟨.sca .si64, some (.int 0)⟩
      ⟨.sca .si64, some (.int 2)⟩ ⟨.sca .si64, some (.int 2)⟩ (8, 60) 3 2
      rfl rfl rfl (by decide)).2.1,
    (C22_pool_cols ⟨.matrix 8 60, none⟩ ⟨.sca .si64, none⟩
      ⟨.sca .si64, some (.int 5)⟩ ⟨.sca .si64, some (.int 4)⟩ ⟨.sca .si64, some (.int 3)⟩
      ⟨.sca .si64, some (.int 2)⟩ ⟨.sca .si64, some (.int 1)⟩ ⟨.sca .si64, some (.int 0)⟩
      ⟨.sca .si64, some (.int 2)⟩ ⟨.sca .si64, some (.int 2)⟩ (8, 60) 3 2
      rfl rfl rfl (by decide)).1⟩

/-- C23, as stated, fails: with the stride height 0 the output height divides by zero and an
average pooling on a matrix input returns no shapes. -/
theorem C23_counterexample :
    getShape ⟨.matrix 8 60, none⟩ = .ok (8, 60) ∧
      AvgPoolForwardOp.inferShape ⟨.matrix 8 60, none⟩ ⟨.sca .si64, some (.int 3)⟩
        ⟨.sca .si64, some (.int 5)⟩ ⟨.sca .si64, some (.int 4)⟩ ⟨.sca .si64, some (.int 3)⟩
        ⟨.sca .si64, some (.int 2)⟩ ⟨.sca .si64, some (.int 1)⟩ ⟨.sca .si64, some (.int 0)⟩
        ⟨.sca .si64, some (.int 0)⟩ ⟨.sca .si64, some (.int 2)⟩
        = .error .undefinedBehaviour :=
  ⟨rfl, rfl⟩

/-- C23, amended: for an input with a shape and parameters for which both output dimensions
are computed, `AvgPoolForwardOp` and `MaxPoolForwardOp`, and `Conv2DForwardOp` on a filter
with a shape, return exactly three shapes: the first has the row count of the input, the
second and the third are `(1, 1)`. -/
theorem C23_three_shapes (input chanOrFilter inputHeight inputWidth fHeight fWidth padHeight
    padWidth strideHeight strideWidth : Value) (shapeX : Shape) (Hout Wout : Nat)
    (hx : getShape input = .ok shapeX)
    (hh : outDim (constantOrDefaultSizeT inputHeight 1) (constantOrDefaultSizeT padHeight 1)
      (constantOrDefaultSizeT fHeight 1) (constantOrDefaultSizeT strideHeight 1) = .ok Hout)
    (hw : outDim (constantOrDefaultSizeT inputWidth 1) (constantOrDefaultSizeT padWidth 1)
      (constantOrDefaultSizeT fWidth 1) (constantOrDefaultSizeT strideWidth 1) = .ok Wout) :
    (∃ numCols, AvgPoolForwardOp.inferShape input chanOrFilter inputHeight inputWidth fHeight
        fWidth padHeight padWidth strideHeight strideWidth
        = .ok [(shapeX.1, numCols), (1, 1), (1, 1)]) ∧
      (∃ numCols, MaxPoolForwardOp.inferShape input chanOrFilter inputHeight inputWidth fHeight
        fWidth padHeight padWidth strideHeight strideWidth
        = .ok [(shapeX.1, numCols), (1, 1), (1, 1)]) ∧
      ∀ shapeW, getShape chanOrFilter = .ok shapeW →
        ∃ numCols, Conv2DForwardOp.inferShape input chanOrFilter inputHeight inputWidth fHeight
          fWidth padHeight padWidth strideHeight strideWidth
          = .ok [(shapeX.1, numCols), (1, 1), (1, 1)] :=
  ⟨⟨_, AvgPoolForwardOp_eq _ _ _ _ _ _ _ _ _ _ shapeX Hout Wout hx hh hw⟩,
    ⟨_, MaxPoolForwardOp_eq _ _ _ _ _ _ _ _ _ _ shapeX Hout Wout hx hh hw⟩,
    fun shapeW hf => ⟨_, Conv2DForwardOp_eq _ _ _ _ _ _ _ _ _ _ shapeX shapeW Hout Wout hx hf
      hh hw⟩⟩

/-- Witness of C23: a max pooling on an input with unknown rows returns three shapes, the
first with unknown rows. -/
theorem C23_witness :
    ∃ numCols, MaxPoolForwardOp.inferShape ⟨.matrix (-1) 60, none⟩
        ⟨.sca .si64, some (.int 3)⟩ ⟨.sca .si64, some (.int 5)⟩ ⟨.sca .si64, some (.int 4)⟩
        ⟨.sca .si64, some (.int 3)⟩ ⟨.sca .si64, some (.int 2)⟩ ⟨.sca .si64, some (.int 1)⟩
        ⟨.sca .si64, some (.int 0)⟩ ⟨.sca .si64, some (.int 2)⟩ ⟨.sca .si64, some (.int 2)⟩
        = .ok [(-1, numCols), (1, 1), (1, 1)] :=
  (C23_three_shapes ⟨.matrix (-1) 60, none⟩
    ⟨.sca .si64, some (.int 3)⟩ ⟨.sca .si64, some (.int 5)⟩ ⟨.sca .si64, some (.int 4)⟩
    ⟨.sca .si64, some (.int 3)⟩ ⟨.sca .si64, some (.int 2)⟩ ⟨.sca .si64, some (.int 1)⟩
    ⟨.sca .si64, some (.int 0)⟩ ⟨.sca .si64, some (.int 2)⟩ ⟨.sca .si64, some (.int 2)⟩
    (-1, 60) 3 2 rfl rfl rfl).2.1

/-! ## Lemmas on labels -/

theorem prefixBeforeDot_cons_dot (xs : List Char) : prefixBeforeDot ('.' :: xs) = [] := by
  simp [prefixBeforeDot]

theorem prefixBeforeDot_cons_ne {x : Char} (hx : x ≠ '.') (xs : List Char) :
    prefixBeforeDot (x :: xs) = x :: prefixBeforeDot xs := by
  simp [prefixBeforeDot, hx]

/-- The search for the delimiter returns the length of the prefix before the first dot, or
`npos` if there is no dot. -/
theorem findFrom_dot (s : List Char) :
    ∀ i : Nat, findFrom '.' s i
      = if '.' ∈ s then i + (prefixBeforeDot s).length else npos := by
  induction s with
  | nil =>
    intro i
    simp [findFrom]
  | cons x xs ih =>
    intro i
    by_cases hx : x = '.'
    · subst hx
      simp [findFrom, prefixBeforeDot_cons_dot]
    · have hx1 : ¬ '.' = x := fun h => hx h.symm
      simp only [findFrom, hx, if_false, ih, List.mem_cons, hx1, false_or,
        prefixBeforeDot_cons_ne hx, List.length_cons]
      split
      · omega
      · rfl

theorem prefixBeforeDot_of_not_mem (s : List Char) (h : '.' ∉ s) : prefixBeforeDot s = s := by
  induction s with
  | nil => rfl
  | cons x xs ih =>
    have hx : x ≠ '.' := fun hx => h (by simp [hx])
    have hxs : '.' ∉ xs := fun hm => h (List.mem_cons_of_mem _ hm)
    rw [prefixBeforeDot_cons_ne hx, ih hxs]

theorem take_prefixBeforeDot (s : List Char) :
    s.take (prefixBeforeDot s).length = prefixBeforeDot s := by
  induction s with
  | nil => rfl
  | cons x xs ih =>
    by_cases hx : x = '.'
    · subst hx
      simp [prefixBeforeDot_cons_dot]
    · rw [prefixBeforeDot_cons_ne hx, List.length_cons, List.take_succ_cons, ih]

/-- A label with a dot is its prefix, the dot and the rest. -/
theorem split_at_dot (s : List Char) (h : '.' ∈ s) :
    s = prefixBeforeDot s ++ '.' :: s.drop ((prefixBeforeDot s).length + 1) := by
  induction s with
  | nil => simp at h
  | cons x xs ih =>
    by_cases hx : x = '.'
    · subst hx
      simp [prefixBeforeDot_cons_dot]
    · have hxs : '.' ∈ xs := by
        rcases List.mem_cons.mp h with h1 | h1
        · exact absurd h1.symm hx
        · exact h1
      rw [prefixBeforeDot_cons_ne hx, List.length_cons, List.drop_succ_cons, List.cons_append,
        ← ih hxs]

theorem prefixBeforeDot_length_le (s : List Char) : (prefixBeforeDot s).length ≤ s.length := by
  have h := congrArg List.length (take_prefixBeforeDot s)
  rw [List.length_take] at h
  omega

/-- The code's frame name of a label is the prefix before the first dot. -/
theorem frameNameOf_eq (s : List Char) (hlen : s.length < 2 ^ 64) :
    frameNameOf s = prefixBeforeDot s := by
  unfold frameNameOf substr findDelimiter
  rw [findFrom_dot, List.drop_zero]
  split
  · rw [Nat.zero_add, take_prefixBeforeDot]
  · rename_i hn
    rw [prefixBeforeDot_of_not_mem s hn]
    apply List.take_of_length_le
    unfold npos
    omega

/-- The code's column label of a label is the rest after the first dot, or the whole label
if there is no dot. -/
theorem colLabelOf_eq (s : List Char) (hlen : s.length < 2 ^ 64 - 1) :
    colLabelOf s = if '.' ∈ s then s.drop ((prefixBeforeDot s).length + 1) else s := by
  have hp := prefixBeforeDot_length_le s
  unfold colLabelOf substr findDelimiter
  rw [findFrom_dot]
  split
  · have h1 : addSz (0 + (prefixBeforeDot s).length) 1 = (prefixBeforeDot s).length + 1 := by
      unfold addSz
      omega
    rw [h1]
    apply List.take_of_length_le
    rw [List.length_drop]
    omega
  · have h1 : addSz npos 1 = 0 := by decide
    rw [h1, List.drop_zero]
    exact List.take_of_length_le (le_refl _)

/-- The column label is the wildcard exactly for the key `"*"` and for the keys `"f.*"` whose
`f` is the prefix before the first dot. -/
theorem colLabelOf_eq_star_iff (s : List Char) (hlen : s.length < 2 ^ 64 - 1) :
    colLabelOf s = ['*'] ↔ s = ['*'] ∨ s = prefixBeforeDot s ++ ['.', '*'] := by
  rw [colLabelOf_eq s hlen]
  by_cases hd : '.' ∈ s
  · rw [if_pos hd]
    have hs := split_at_dot s hd
    constructor
    · intro h
      right
      rw [h] at hs
      exact hs
    · rintro (h | h)
      · rw [h] at hd
        simp at hd
      · have h2 : prefixBeforeDot s ++ '.' :: s.drop ((prefixBeforeDot s).length + 1)
            = prefixBeforeDot s ++ ['.', '*'] := by
          rw [← hs]
          exact h
        have h3 := List.append_cancel_left h2
        simpa using h3
  · rw [if_neg hd]
    constructor
    · intro h
      exact Or.inl h
    · rintro (h | h)
      · exact h
      · exfalso
        apply hd
        rw [h]
        simp

theorem prefixBeforeDot_append_dot (f rest : List Char) (hf : '.' ∉ f) :
    prefixBeforeDot (f ++ '.' :: rest) = f := by
  induction f with
  | nil => exact prefixBeforeDot_cons_dot rest
  | cons x xs ih =>
    have hx : x ≠ '.' := fun hx => hf (by simp [hx])
    have hxs : '.' ∉ xs := fun hm => hf (List.mem_cons_of_mem _ hm)
    rw [List.cons_append, prefixBeforeDot_cons_ne hx, ih hxs]

/-- The counting loop of `ExtractColOp` adds the number of labels of the frame. -/
theorem extractLoop_eq (frameName : List Char) (labels : List (List Char)) :
    ∀ numCols : Int, (∀ label ∈ labels, label.length < 2 ^ 64) →
      ExtractColOp.inferShape.loop frameName labels numCols
        = numCols + (countFrameLabels frameName labels : Nat) := by
  induction labels with
  | nil =>
    intro numCols _
    simp [ExtractColOp.inferShape.loop, countFrameLabels]
  | cons label labels ih =>
    intro numCols hlen
    have hl := frameNameOf_eq label (hlen label (List.mem_cons_self _ _))
    have hrest : ∀ l ∈ labels, l.length < 2 ^ 64 :=
      fun l hl => hlen l (List.mem_cons_of_mem _ hl)
    unfold ExtractColOp.inferShape.loop
    rw [hl]
    by_cases hm : prefixBeforeDot label = frameName
    · rw [if_pos hm, ih _ hrest]
      simp only [countFrameLabels, List.filter_cons, hm, decide_True, if_true,
        List.length_cons]
      push_cast
      ring
    · rw [if_neg hm, ih _ hrest]
      simp only [countFrameLabels, List.filter_cons, hm, decide_False]
      rfl

/-! ## The claims on column extraction -/

theorem constantOrThrowStr_of_str {v : Value} {t : List Char} (h : v.cst = some (.str t)) :
    constantOrThrowStr v = .ok t := by
  simp [constantOrThrowStr, isConstantStr, h]

theorem constantOrThrowStr_of_not_str {v : Value} (h : ∀ t, v.cst ≠ some (.str t)) :
    constantOrThrowStr v = .error .notConstant := by
  unfold constantOrThrowStr isConstantStr
  cases hc : v.cst with
  | none => rfl
  | some k =>
    cases k with
    | str t => exact absurd hc (h t)
    | bool b => rfl
    | int n => rfl
    | float => rfl

/-- C24: for a frame source with `r` rows and the labels `L` and a constant string label
`"f.*"` whose frame name `f` has no `'.'`, `ExtractColOp` inference returns the single shape
`(r, k)`, `k` being the number of labels in `L` whose prefix before the first `'.'` is `f`
(strings are shorter than `2^64`). -/
theorem C24_extractCol_wildcard (source selectedCols : Value) (r c : Int)
    (L : List (List Char)) (f : List Char) (hsrc : source.ty = .frame r c (some L))
    (hty : selectedCols.ty = .sca .str)
    (hcst : selectedCols.cst = some (.str (f ++ ['.', '*']))) (hf : '.' ∉ f)
    (hlen : f.length + 2 < 2 ^ 64 - 1) (hL : ∀ label ∈ L, label.length < 2 ^ 64) :
    ExtractColOp.inferShape source selectedCols = .ok [(r, (countFrameLabels f L : Nat))] := by
  have hlen1 : (f ++ ['.', '*']).length < 2 ^ 64 - 1 := by
    rw [List.length_append]
    exact hlen
  have hpre : prefixBeforeDot (f ++ ['.', '*']) = f := prefixBeforeDot_append_dot f ['*'] hf
  have hcol : colLabelOf (f ++ ['.', '*']) = ['*'] := by
    rw [colLabelOf_eq_star_iff _ hlen1, hpre]
    exact Or.inr rfl
  have hname : frameNameOf (f ++ ['.', '*']) = f := by
    rw [frameNameOf_eq _ (by omega), hpre]
  have hshape : getShape source = .ok (r, c) := by
    unfold getShape
    rw [hsrc]
  simp only [ExtractColOp.inferShape, hshape, hsrc, hty, constantOrThrowStr_of_str hcst, hcol,
    if_true, hname, extractLoop_eq f L 0 hL, zero_add]

/-- Witness of C24: the label `"t.*"` on a frame with the labels `"t.a"`, `"t.b"`, `"u.c"`
gives 2 columns. -/
theorem C24_witness :
    ExtractColOp.inferShape
        ⟨.frame 4 3 (some [['t', '.', 'a'], ['t', '.', 'b'], ['u', '.', 'c']]), none⟩
        ⟨.sca .str, some (.str ['t', '.', '*'])⟩
      = .ok [(4, (countFrameLabels ['t']
          [['t', '.', 'a'], ['t', '.', 'b'], ['u', '.', 'c']] : Nat))] ∧
      countFrameLabels ['t'] [['t', '.', 'a'], ['t', '.', 'b'], ['u', '.', 'c']] = 2 :=
  ⟨C24_extractCol_wildcard
      ⟨.frame 4 3 (some [['t', '.', 'a'], ['t', '.', 'b'], ['u', '.', 'c']]), none⟩
      ⟨.sca .str, some (.str ['t', '.', '*'])⟩ 4 3
      [['t', '.', 'a'], ['t', '.', 'b'], ['u', '.', 'c']] ['t'] rfl rfl rfl (by decide)
      (by decide) (by decide),
    by decide⟩

/-- C25 on the code: for the constant label `"*"` on a frame with the labels `"t.a"`, `"t.b"`,
`"u.c"`, `ExtractColOp` inference counts the labels whose frame name is `"*"` and returns 0
columns, not 3; `GroupOp` with the key `"*"` on the same frame takes all 3 labels. -/
theorem C25_extractCol_star :
    ExtractColOp.inferShape
        ⟨.frame 4 3 (some [['t', '.', 'a'], ['t', '.', 'b'], ['u', '.', 'c']]), none⟩
        ⟨.sca .str, some (.str ['*'])⟩
      = .ok [(4, 0)] ∧
      GroupOp.inferShape
        ⟨.frame 4 3 (some [['t', '.', 'a'], ['t', '.', 'b'], ['u', '.', 'c']]), none⟩
        [⟨.sca .str, some (.str ['*'])⟩] []
      = .ok [(-1, 3)] :=
  ⟨rfl, rfl⟩

/-- C26, as stated, fails: for a frame source and a string-typed label that is no constant,
`ExtractColOp` inference throws, because the label is read with `constantOrThrow`. -/
theorem C26_counterexample :
    ExtractColOp.inferShape
        ⟨.frame 4 3 (some [['t', '.', 'a'], ['t', '.', 'b'], ['u', '.', 'c']]), none⟩
        ⟨.sca .str, none⟩
      = .error .notConstant ∧
      failed (ExtractColOp.inferShape
        ⟨.frame 4 3 (some [['t', '.', 'a'], ['t', '.', 'b'], ['u', '.', 'c']]), none⟩
        ⟨.sca .str, none⟩) = true :=
  ⟨rfl, rfl⟩

/-- C26, amended: for a frame source with `r` rows and a string-typed label operand,
`ExtractColOp` inference fails if the label is no compile-time constant; for a constant label
that is neither `"*"` nor of the form `"f.*"` it returns the source rows and the column count
of the shape of the label operand, which is 1. -/
theorem C26_extractCol_label (source selectedCols : Value) (r c : Int)
    (labels : Option (List (List Char))) (hsrc : source.ty = .frame r c labels)
    (hty : selectedCols.ty = .sca .str) :
    ((∀ t, selectedCols.cst ≠ some (.str t)) →
        ExtractColOp.inferShape source selectedCols = .error .notConstant) ∧
      (∀ t, selectedCols.cst = some (.str t) → t.length < 2 ^ 64 - 1 → t ≠ ['*'] →
        t ≠ prefixBeforeDot t ++ ['.', '*'] →
        getShape selectedCols = .ok (1, 1) ∧
          ExtractColOp.inferShape source selectedCols = .ok [(r, 1)]) := by
  have hshape : getShape source = .ok (r, c) := by
    unfold getShape
    rw [hsrc]
  have hsel : getShape selectedCols = .ok (1, 1) := by
    unfold getShape
    rw [hty]
  constructor
  · intro hnot
    simp only [ExtractColOp.inferShape, hshape, hsrc, hty, constantOrThrowStr_of_not_str hnot]
  · intro t ht hlen h1 h2
    have hcol : colLabelOf t ≠ ['*'] := by
      rw [ne_eq, colLabelOf_eq_star_iff t hlen]
      rintro (h | h)
      · exact h1 h
      · exact h2 h
    refine ⟨hsel, ?_⟩
    simp only [ExtractColOp.inferShape, hshape, hsrc, hty, constantOrThrowStr_of_str ht, hcol,
      if_false, hsel]

/-- Witness of C26: the constant label `"t.a"` gives the source rows and 1 column. -/
theorem C26_witness :
    ExtractColOp.inferShape
        ⟨.frame 4 3 (some [['t', '.', 'a'], ['t', '.', 'b'], ['u', '.', 'c']]), none⟩
        ⟨.sca .str, some (.str ['t', '.', 'a'])⟩
      = .ok [(4, 1)] :=
  ((C26_extractCol_label
      ⟨.frame 4 3 (some [['t', '.', 'a'], ['t', '.', 'b'], ['u', '.', 'c']]), none⟩
      ⟨.sca .str, some (.str ['t', '.', 'a'])⟩ 4 3
      (some [['t', '.', 'a'], ['t', '.', 'b'], ['u', '.', 'c']]) rfl rfl).2
    ['t', '.', 'a'] rfl (by decide) (by decide) (by decide)).2

/-! ## The column count of grouping -/

/-- The key loop of `GroupOp` on constant keys appends, for each key, as many labels as the
key stands for. -/
theorem groupLoop_length (frame : Value) (r c : Int) (L : List (List Char))
    (hfrm : frame.ty = .frame r c (some L)) (hL : ∀ label ∈ L, label.length < 2 ^ 64)
    (keyCol : List Value) :
    ∀ (K : List (List Char)) (newLabels : List (List Char)),
      List.Forall₂ (fun v k => v.cst = some (.str k)) keyCol K →
      (∀ k ∈ K, k.length < 2 ^ 64 - 1) →
      ∃ res, GroupOp.inferShape.loop frame keyCol newLabels = .ok res ∧
        res.length = newLabels.length + (K.map (expandCount L)).sum := by
  have hlab : frameLabels frame = .ok L := by
    unfold frameLabels
    rw [hfrm]
  induction keyCol with
  | nil =>
    intro K newLabels hK _
    cases hK
    exact ⟨newLabels, rfl, by simp⟩
  | cons t ts ih =>
    intro K newLabels hK hlen
    cases hK with
    | cons hk hrest =>
      rename_i k ks
      have hklen := hlen k (List.mem_cons_self _ _)
      have hkslen : ∀ x ∈ ks, x.length < 2 ^ 64 - 1 :=
        fun x hx => hlen x (List.mem_cons_of_mem _ hx)
      simp only [GroupOp.inferShape.loop, constantOrThrowStr_of_str hk, hlab]
      by_cases h1 : k = ['*']
      · rw [if_pos h1]
        obtain ⟨res, hres, hlenres⟩ := ih ks (newLabels ++ L) hrest hkslen
        refine ⟨res, hres, ?_⟩
        rw [hlenres, List.length_append, List.map_cons, List.sum_cons]
        simp only [expandCount, h1, if_true]
        omega
      · rw [if_neg h1]
        by_cases h2 : colLabelOf k = ['*']
        · rw [if_pos h2]
          have h3 : k = prefixBeforeDot k ++ ['.', '*'] := by
            rcases (colLabelOf_eq_star_iff k hklen).mp h2 with h | h
            · exact absurd h h1
            · exact h
          have hfilter : L.filter (fun label => decide (frameNameOf label = frameNameOf k))
              = L.filter (fun label => decide (prefixBeforeDot label = prefixBeforeDot k)) := by
            apply List.filter_congr
            intro x hx
            rw [frameNameOf_eq x (hL x hx), frameNameOf_eq k (by omega)]
          obtain ⟨res, hres, hlenres⟩ := ih ks
            (newLabels ++ L.filter (fun label => decide (frameNameOf label = frameNameOf k)))
            hrest hkslen
          refine ⟨res, hres, ?_⟩
          rw [hlenres, List.length_append, List.map_cons, List.sum_cons, hfilter]
          simp only [expandCount, h1, if_false, ← h3, if_true, countFrameLabels]
          omega
        · rw [if_neg h2]
          have h3 : ¬ k = prefixBeforeDot k ++ ['.', '*'] := by
            intro h
            exact h2 ((colLabelOf_eq_star_iff k hklen).mpr (Or.inr h))
          obtain ⟨res, hres, hlenres⟩ := ih ks (newLabels ++ [k]) hrest hkslen
          refine ⟨res, hres, ?_⟩
          rw [hlenres, List.length_append, List.map_cons, List.sum_cons]
          simp only [expandCount, h1, if_false, h3, List.length_singleton]
          omega

/-- C27: for a frame with the labels `L`, constant key labels `K` and aggregation columns `A`,
`GroupOp` inference returns one shape whose column count is the sum of `e(k)` over the keys
plus the number of aggregation columns, each key counted as often as it occurs:
`e("*")` is the number of labels, `e("f.*")` for a frame name `f` without `'.'` is the number
of labels whose prefix before the first `'.'` is `f`, and `e(k)` is 1 for any other key
(strings are shorter than `2^64`, the count is below `2^63`). -/
theorem C27_group_cols (frame : Value) (r c : Int) (L : List (List Char))
    (keyCol aggCol : List Value) (K : List (List Char))
    (hfrm : frame.ty = .frame r c (some L)) (hL : ∀ label ∈ L, label.length < 2 ^ 64)
    (hK : List.Forall₂ (fun v k => v.cst = some (.str k)) keyCol K)
    (hKlen : ∀ k ∈ K, k.length < 2 ^ 64 - 1)
    (hfit : (K.map (expandCount L)).sum + aggCol.length < 2 ^ 63) :
    GroupOp.inferShape frame keyCol aggCol
        = .ok [(-1, (((K.map (expandCount L)).sum + aggCol.length : Nat) : Int))] ∧
      expandCount L ['*'] = L.length ∧
      (∀ f : List Char, '.' ∉ f →
        expandCount L (f ++ ['.', '*']) = countFrameLabels f L) ∧
      (∀ k : List Char, k ≠ ['*'] → (∀ f : List Char, '.' ∉ f → k ≠ f ++ ['.', '*']) →
        expandCount L k = 1) := by
  refine ⟨?_, ?_, ?_, ?_⟩
  · obtain ⟨res, hres, hlen⟩ := groupLoop_length frame r c L hfrm hL keyCol K [] hK hKlen
    rw [List.length_nil, Nat.zero_add] at hlen
    simp only [GroupOp.inferShape, hres, validDim_unknownSizeT, hlen]
    have h1 : addSz (K.map (expandCount L)).sum aggCol.length
        = (K.map (expandCount L)).sum + aggCol.length := by
      unfold addSz
      omega
    have h2 : toSSizeT ((K.map (expandCount L)).sum + aggCol.length)
        = (((K.map (expandCount L)).sum + aggCol.length : Nat) : Int) := by
      unfold toSSizeT
      split <;> omega
    rw [h1, h2]
  · simp [expandCount]
  · intro f hf
    have hpre : prefixBeforeDot (f ++ ['.', '*']) = f := prefixBeforeDot_append_dot f ['*'] hf
    have hne : f ++ ['.', '*'] ≠ ['*'] := by
      intro h
      have := congrArg List.length h
      simp at this
    simp only [expandCount, hne, if_false, hpre, if_true]
  · intro k hk hform
    have hne : ¬ k = prefixBeforeDot k ++ ['.', '*'] := by
      intro h
      refine hform (prefixBeforeDot k) ?_ h
      unfold prefixBeforeDot
      intro hmem
      have := List.mem_takeWhile_imp hmem
      simp at this
    simp only [expandCount, hk, if_false, hne]

/-- Witness of C27: on the labels `"t.a"`, `"t.b"`, `"u.c"` the keys `"*"`, `"t.*"`, `"u.c"`
and `"t.*"` again with one aggregation column give 3 + 2 + 1 + 2 + 1 = 9 columns. -/
theorem C27_witness :
    GroupOp.inferShape
        ⟨.frame 4 3 (some [['t', '.', 'a'], ['t', '.', 'b'], ['u', '.', 'c']]), none⟩
        [⟨.sca .str, some (.str ['*'])⟩, ⟨.sca .str, some (.str ['t', '.', '*'])⟩,
          ⟨.sca .str, some (.str ['u', '.', 'c'])⟩, ⟨.sca .str, some (.str ['t', '.', '*'])⟩]
        [⟨.sca .str, some (.str ['u', '.', 'c'])⟩]
      = .ok [(-1, ((([['*'], ['t', '.', '*'], ['u', '.', 'c'], ['t', '.', '*']].map
          (expandCount [['t', '.', 'a'], ['t', '.', 'b'], ['u', '.', 'c']])).sum + 1 : Nat)
          : Int))] ∧
      ([['*'], ['t', '.', '*'], ['u', '.', 'c'], ['t', '.', '*']].map
          (expandCount [['t', '.', 'a'], ['t', '.', 'b'], ['u', '.', 'c']])).sum + 1 = 9 :=
  ⟨(C27_group_cols
      ⟨.frame 4 3 (some [['t', '.', 'a'], ['t', '.', 'b'], ['u', '.', 'c']]), none⟩ 4 3
      [['t', '.', 'a'], ['t', '.', 'b'], ['u', '.', 'c']]
      [⟨.sca .str, some (.str ['*'])⟩, ⟨.sca .str, some (.str ['t', '.', '*'])⟩,
        ⟨.sca .str, some (.str ['u', '.', 'c'])⟩, ⟨.sca .str, some (.str ['t', '.', '*'])⟩]
      [⟨.sca .str, some (.str ['u', '.', 'c'])⟩]
      [['*'], ['t', '.', '*'], ['u', '.', 'c'], ['t', '.', '*']] rfl (by decide)
      (List.Forall₂.cons rfl (List.Forall₂.cons rfl (List.Forall₂.cons rfl
        (List.Forall₂.cons rfl List.Forall₂.nil))))
      (by decide) (by decide)).1,
    by decide⟩

/-! ## The claims on relations between runs -/

/-- C38 on the code: the integer branch of `SeqOp` calls the `int` function `abs`. For the
signed 64-bit constants from = 1, to = 10 and inc = 2^32, where `inc` is not 0 and nothing
overflows 64 bits, `inc` is converted to the `int` 0 and the branch divides by zero: no row
count is inferred. For from = 0, to = 2^31, inc = 1 the difference is converted to `INT_MIN`,
whose `abs` is `INT_MIN` on the usual builds, and the row count is -2147483647, below 1. The
example from = 1, to = 10, inc = -2 gives 5, as do the swapped bounds and the increment 2. -/
theorem C38_seq_direction :
    SeqOp.inferNumRows ⟨.sca .si64, some (.int 1)⟩ ⟨.sca .si64, some (.int 10)⟩
        ⟨.sca .si64, some (.int (2 ^ 32))⟩ 0 = .error .undefinedBehaviour ∧
      SeqOp.inferNumRows ⟨.sca .si64, some (.int 0)⟩ ⟨.sca .si64, some (.int (2 ^ 31))⟩
        ⟨.sca .si64, some (.int 1)⟩ 0 = .ok (-2147483647) ∧
      SeqOp.inferNumRows ⟨.sca .si64, some (.int 1)⟩ ⟨.sca .si64, some (.int 10)⟩
        ⟨.sca .si64, some (.int (-2))⟩ 0 = .ok 5 ∧
      SeqOp.inferNumRows ⟨.sca .si64, some (.int 10)⟩ ⟨.sca .si64, some (.int 1)⟩
        ⟨.sca .si64, some (.int (-2))⟩ 0 = .ok 5 ∧
      SeqOp.inferNumRows ⟨.sca .si64, some (.int 1)⟩ ⟨.sca .si64, some (.int 10)⟩
        ⟨.sca .si64, some (.int 2)⟩ 0 = .ok 5 := by
  refine ⟨?_, ?_, ?_, ?_, ?_⟩
  · have hb : absInt (wrapInt (2 ^ 32)) = 0 := by decide
    simp only [SeqOp.inferNumRows, isConstantInt, and_self, if_true, hb]
  · have h : wrapInt (Int.tdiv (absInt (wrapInt (wrapSSizeT (2 ^ 31 - 0))))
        (absInt (wrapInt 1)) + 1) = -2147483647 := by decide
    have hb : ¬ absInt (wrapInt 1) = 0 := by decide
    simp only [SeqOp.inferNumRows, isConstantInt, and_self, if_true, hb, if_false, h]
  · exact seq_int_fit ⟨.sca .si64, some (.int 1)⟩ ⟨.sca .si64, some (.int 10)⟩
      ⟨.sca .si64, some (.int (-2))⟩ 0 1 10 (-2) rfl rfl rfl rfl (by decide) (by decide)
      (by decide)
  · exact seq_int_fit ⟨.sca .si64, some (.int 10)⟩ ⟨.sca .si64, some (.int 1)⟩
      ⟨.sca .si64, some (.int (-2))⟩ 0 10 1 (-2) rfl rfl rfl rfl (by decide) (by decide)
      (by decide)
  · exact seq_int_fit _ _ _ 0 1 10 2 rfl rfl rfl rfl (by decide) (by decide) (by decide)

/-- C37: for operands with shapes `(r1, c1)` and `(r2, c2)`, `MatMulOp` inference succeeds
whatever the transpose flags are, constants or not. With both flags constant the result is the
kept dimension of each operand (`r1` or, transposed, `c1`; `c2` or, transposed, `r2`), so two
products whose operands have the same kept dimensions get the same result, whatever their
contracted dimensions are and whether or not these agree. -/
theorem C37_matMul_contracted (lhs rhs lhs2 rhs2 transa transb : Value)
    (r1 c1 r2 c2 r3 c3 r4 c4 : Int) (hl : getShape lhs = .ok (r1, c1))
    (hr : getShape rhs = .ok (r2, c2)) (hl2 : getShape lhs2 = .ok (r3, c3))
    (hr2 : getShape rhs2 = .ok (r4, c4)) :
    failed (MatMulOp.inferShape lhs rhs transa transb) = false ∧
      ∀ ta tb : Bool, transa.cst = some (.bool ta) → transb.cst = some (.bool tb) →
        MatMulOp.inferShape lhs rhs transa transb
            = .ok [(if ta then c1 else r1, if tb then r2 else c2)] ∧
          ((if ta then c1 else r1) = (if ta then c3 else r3) →
            (if tb then r2 else c2) = (if tb then r4 else c4) →
            MatMulOp.inferShape lhs2 rhs2 transa transb
              = MatMulOp.inferShape lhs rhs transa transb) := by
  constructor
  · simp only [MatMulOp.inferShape, hl, hr]
    rfl
  · intro ta tb ha hb
    have hca : isConstantBool transa = (true, ta) := by
      unfold isConstantBool
      rw [ha]
    have hcb : isConstantBool transb = (true, tb) := by
      unfold isConstantBool
      rw [hb]
    have h1 : MatMulOp.inferShape lhs rhs transa transb
        = .ok [(if ta then c1 else r1, if tb then r2 else c2)] := by
      simp only [MatMulOp.inferShape, hl, hr, hca, hcb]
      cases ta <;> cases tb <;> rfl
    have h2 : MatMulOp.inferShape lhs2 rhs2 transa transb
        = .ok [(if ta then c3 else r3, if tb then r4 else c4)] := by
      simp only [MatMulOp.inferShape, hl2, hr2, hca, hcb]
      cases ta <;> cases tb <;> rfl
    refine ⟨h1, ?_⟩
    intro hrows hcols
    rw [h1, h2, hrows, hcols]

/-- Witness of C37: with both flags false, (3, 4) times (7, 5) yields (3, 5) exactly like
(3, 4) times (4, 5). -/
theorem C37_witness :
    MatMulOp.inferShape ⟨.matrix 3 4, none⟩ ⟨.matrix 7 5, none⟩
        ⟨.sca .otherSca, some (.bool false)⟩ ⟨.sca .otherSca, some (.bool false)⟩
      = .ok [(3, 5)] ∧
      MatMulOp.inferShape ⟨.matrix 3 4, none⟩ ⟨.matrix 4 5, none⟩
          ⟨.sca .otherSca, some (.bool false)⟩ ⟨.sca .otherSca, some (.bool false)⟩
        = MatMulOp.inferShape ⟨.matrix 3 4, none⟩ ⟨.matrix 7 5, none⟩
          ⟨.sca .otherSca, some (.bool false)⟩ ⟨.sca .otherSca, some (.bool false)⟩ :=
  ⟨((C37_matMul_contracted ⟨.matrix 3 4, none⟩ ⟨.matrix 7 5, none⟩ ⟨.matrix 3 4, none⟩
      ⟨.matrix 4 5, none⟩ ⟨.sca .otherSca, some (.bool false)⟩
      ⟨.sca .otherSca, some (.bool false)⟩ 3 4 7 5 3 4 4 5 rfl rfl rfl rfl).2
      false false rfl rfl).1,
    ((C37_matMul_contracted ⟨.matrix 3 4, none⟩ ⟨.matrix 7 5, none⟩ ⟨.matrix 3 4, none⟩
      ⟨.matrix 4 5, none⟩ ⟨.sca .otherSca, some (.bool false)⟩
      ⟨.sca .otherSca, some (.bool false)⟩ 3 4 7 5 3 4 4 5 rfl rfl rfl rfl).2
      false false rfl rfl).2 rfl rfl⟩

/-- C36: for a matrix or frame source of shape `(r, c)` and a matrix or frame source of the
transposed shape `(c, r)`, with the same two bound operands, constants or not, `SliceColOp`
inference on the first fails exactly if `SliceRowOp` inference on the second fails, and a
result of `SliceRowOp` with rows and columns swapped is the result of `SliceColOp`. -/
theorem C36_slice_dual (source sourceT lowerIncl upperExcl : Value) (r c : Int)
    (hs : isMatOrFrm source.ty = true) (hd : matOrFrmDims source.ty = (r, c))
    (hsT : isMatOrFrm sourceT.ty = true) (hdT : matOrFrmDims sourceT.ty = (c, r)) :
    failed (SliceColOp.inferShape source lowerIncl upperExcl)
        = failed (SliceRowOp.inferShape sourceT lowerIncl upperExcl) ∧
      (∀ shapes, SliceRowOp.inferShape sourceT lowerIncl upperExcl = .ok shapes →
        SliceColOp.inferShape source lowerIncl upperExcl = .ok (shapes.map Prod.swap)) ∧
      (∀ shapes, SliceColOp.inferShape source lowerIncl upperExcl = .ok shapes →
        SliceRowOp.inferShape sourceT lowerIncl upperExcl = .ok (shapes.map Prod.swap)) := by
  have hcol : SliceColOp.inferShape source lowerIncl upperExcl =
      if c ≠ -1 ∧ (isConstantInt lowerIncl).1 ∧ (isConstantInt upperExcl).1 then
        if (isConstantInt lowerIncl).2 < 0 ∨ (isConstantInt lowerIncl).2 ≥ c then
          .error (.sliceColLower (isConstantInt lowerIncl).2 c)
        else if (isConstantInt upperExcl).2 < 0 ∨ (isConstantInt upperExcl).2 > c then
          .error (.sliceColUpper (isConstantInt upperExcl).2 c)
        else if (isConstantInt lowerIncl).2 > (isConstantInt upperExcl).2 then
          .error (.sliceColOrder (isConstantInt lowerIncl).2 (isConstantInt upperExcl).2)
        else .ok [(r, (isConstantInt upperExcl).2 - (isConstantInt lowerIncl).2)]
      else .ok [(r, -1)] := by
    obtain ⟨ty, cst⟩ := source
    cases ty <;> simp only [isMatOrFrm, Bool.false_eq_true] at hs <;>
      simp only [matOrFrmDims, Prod.mk.injEq] at hd <;> obtain ⟨rfl, rfl⟩ := hd <;> rfl
  have hrow : SliceRowOp.inferShape sourceT lowerIncl upperExcl =
      if c ≠ -1 ∧ (isConstantInt lowerIncl).1 ∧ (isConstantInt upperExcl).1 then
        if (isConstantInt lowerIncl).2 < 0 ∨ (isConstantInt lowerIncl).2 ≥ c then
          .error (.sliceRowLower (isConstantInt lowerIncl).2 c)
        else if (isConstantInt upperExcl).2 < 0 ∨ (isConstantInt upperExcl).2 > c then
          .error (.sliceRowUpper (isConstantInt upperExcl).2 c)
        else if (isConstantInt lowerIncl).2 > (isConstantInt upperExcl).2 then
          .error (.sliceRowOrder (isConstantInt lowerIncl).2 (isConstantInt upperExcl).2)
        else .ok [((isConstantInt upperExcl).2 - (isConstantInt lowerIncl).2, r)]
      else .ok [(-1, r)] := by
    obtain ⟨ty, cst⟩ := sourceT
    cases ty <;> simp only [isMatOrFrm, Bool.false_eq_true] at hsT <;>
      simp only [matOrFrmDims, Prod.mk.injEq] at hdT <;> obtain ⟨rfl, rfl⟩ := hdT <;> rfl
  rw [hcol, hrow]
  refine ⟨?_, ?_, ?_⟩
  · split_ifs <;> rfl
  · intro shapes h
    split_ifs at h ⊢ <;> simp only [Except.ok.injEq, reduceCtorEq] at h <;> subst h <;> rfl
  · intro shapes h
    split_ifs at h ⊢ <;> simp only [Except.ok.injEq, reduceCtorEq] at h <;> subst h <;> rfl

/-- Witness of C36: the columns 1 to 3 of a 5 x 4 matrix and the rows 1 to 3 of a 4 x 5 frame
give (5, 2) and (2, 5); the upper bound 6 is rejected by both. -/
theorem C36_witness :
    (failed (SliceColOp.inferShape ⟨.matrix 5 4, none⟩ ⟨.sca .si64, some (.int 1)⟩
        ⟨.sca .si64, some (.int 6)⟩)
      = failed (SliceRowOp.inferShape ⟨.frame 4 5 none, none⟩ ⟨.sca .si64, some (.int 1)⟩
        ⟨.sca .si64, some (.int 6)⟩)) ∧
      failed (SliceColOp.inferShape ⟨.matrix 5 4, none⟩ ⟨.sca .si64, some (.int 1)⟩
        ⟨.sca .si64, some (.int 6)⟩) = true ∧
      SliceRowOp.inferShape ⟨.frame 4 5 none, none⟩ ⟨.sca .si64, some (.int 1)⟩
        ⟨.sca .si64, some (.int 3)⟩ = .ok [(2, 5)] ∧
      SliceColOp.inferShape ⟨.matrix 5 4, none⟩ ⟨.sca .si64, some (.int 1)⟩
        ⟨.sca .si64, some (.int 3)⟩ = .ok ([((2 : Int), (5 : Int))].map Prod.swap) :=
  ⟨(C36_slice_dual ⟨.matrix 5 4, none⟩ ⟨.frame 4 5 none, none⟩ ⟨.sca .si64, some (.int 1)⟩
      ⟨.sca .si64, some (.int 6)⟩ 5 4 rfl rfl rfl rfl).1,
    rfl, rfl,
    (C36_slice_dual ⟨.matrix 5 4, none⟩ ⟨.frame 4 5 none, none⟩ ⟨.sca .si64, some (.int 1)⟩
      ⟨.sca .si64, some (.int 3)⟩ 5 4 rfl rfl rfl rfl).2.1 [(2, 5)] rfl⟩

/-- A value without a shape makes the row loop fail. -/
theorem rowsLoop_noShape (vs : List Value) (v : Value) (e : Err) (hv : v ∈ vs)
    (he : getShape v = .error e) :
    ∀ (n : Int) (u : Bool), failed (inferNumRowsFromArgs.loop vs n u) = true := by
  induction vs with
  | nil => simp at hv
  | cons w ws ih =>
    intro n u
    unfold inferNumRowsFromArgs.loop
    cases hw : getShape w with
    | error e1 => rfl
    | ok s =>
      have hmem : v ∈ ws := by
        rcases List.mem_cons.mp hv with h | h
        · rw [h, hw] at he
          cases he
        · exact h
      simp only []
      split_ifs
      · exact ih hmem n true
      · exact ih hmem s.1 u
      · rfl
      · exact ih hmem n u

/-- A value without a shape makes `inferNumRowsFromArgs` fail. -/
theorem rows_noShape (vs : List Value) (v : Value) (e : Err) (hv : v ∈ vs)
    (he : getShape v = .error e) : failed (inferNumRowsFromArgs vs) = true := by
  cases vs with
  | nil => rfl
  | cons v0 rest =>
    unfold inferNumRowsFromArgs
    cases h0 : getShape v0 with
    | error e1 =>
      simp only [h0]
      rfl
    | ok s =>
      have hmem : v ∈ rest := by
        rcases List.mem_cons.mp hv with h | h
        · rw [h, h0] at he
          cases he
        · exact h
      have hl := rowsLoop_noShape rest v e hmem he s.1 (decide (s.1 = -1))
      simp only [h0]
      cases hloop : inferNumRowsFromArgs.loop rest s.1 (decide (s.1 = -1)) with
      | error e1 => rfl
      | ok p =>
        rw [hloop] at hl
        cases hl

/-- Values that all have a shape have the list of their shapes. -/
theorem hasShapes_of_all (vs : List Value) (h : ∀ v ∈ vs, ∃ s, getShape v = .ok s) :
    ∃ ss, HasShapes vs ss ∧ ∀ s, s ∈ ss ↔ ∃ v ∈ vs, getShape v = .ok s := by
  induction vs with
  | nil => exact ⟨[], List.Forall₂.nil, by simp⟩
  | cons v vs ih =>
    obtain ⟨s, hs⟩ := h v (List.mem_cons_self _ _)
    obtain ⟨ss, hss, hmem⟩ := ih (fun w hw => h w (List.mem_cons_of_mem _ hw))
    refine ⟨s :: ss, List.Forall₂.cons hs hss, ?_⟩
    intro t
    constructor
    · intro ht
      rcases List.mem_cons.mp ht with rfl | ht
      · exact ⟨v, List.mem_cons_self _ _, hs⟩
      · obtain ⟨w, hw, hwt⟩ := (hmem t).mp ht
        exact ⟨w, List.mem_cons_of_mem _ hw, hwt⟩
    · rintro ⟨w, hw, hwt⟩
      rcases List.mem_cons.mp hw with rfl | hw
      · rw [hs] at hwt
        cases hwt
        exact List.mem_cons_self _ _
      · exact List.mem_cons_of_mem _ ((hmem t).mpr ⟨w, hw, hwt⟩)

/-- The outcome of `inferNumRowsFromArgs` depends on the values only through the set of
values: on two lists with the same members it fails on both or returns the same count. -/
theorem rows_of_same_members (vs ws : List Value) (hmem : ∀ v, v ∈ vs ↔ v ∈ ws) :
    failed (inferNumRowsFromArgs vs) = failed (inferNumRowsFromArgs ws) ∧
      ∀ n, inferNumRowsFromArgs vs = .ok n → inferNumRowsFromArgs ws = .ok n := by
  by_cases hall : ∀ v ∈ vs, ∃ s, getShape v = .ok s
  · have hall2 : ∀ v ∈ ws, ∃ s, getShape v = .ok s := fun v hv => hall v ((hmem v).mpr hv)
    obtain ⟨ss, hss, hs⟩ := hasShapes_of_all vs hall
    obtain ⟨ts, hts, ht⟩ := hasShapes_of_all ws hall2
    have hst : ∀ s, s ∈ ss ↔ s ∈ ts := by
      intro s
      rw [hs, ht]
      constructor
      · rintro ⟨v, hv, h⟩
        exact ⟨v, (hmem v).mp hv, h⟩
      · rintro ⟨v, hv, h⟩
        exact ⟨v, (hmem v).mpr hv, h⟩
    by_cases hne : vs = []
    · have hne2 : ws = [] := by
        cases ws with
        | nil => rfl
        | cons w ws1 =>
          have := (hmem w).mpr (List.mem_cons_self _ _)
          rw [hne] at this
          simp at this
      rw [hne, hne2]
      exact ⟨rfl, fun n h => h⟩
    · have hne2 : ws ≠ [] := by
        intro h
        cases vs with
        | nil => exact hne rfl
        | cons v vs1 =>
          have := (hmem v).mp (List.mem_cons_self _ _)
          rw [h] at this
          simp at this
      have hf1 := rows_failed_iff hss hne
      have hf2 := rows_failed_iff hts hne2
      have hfail : failed (inferNumRowsFromArgs vs) = failed (inferNumRowsFromArgs ws) := by
        rw [Bool.eq_iff_iff, hf1, hf2]
        constructor
        · rintro ⟨s, hsm, t, htm, h⟩
          exact ⟨s, (hst s).mp hsm, t, (hst t).mp htm, h⟩
        · rintro ⟨s, hsm, t, htm, h⟩
          exact ⟨s, (hst s).mpr hsm, t, (hst t).mpr htm, h⟩
      refine ⟨hfail, ?_⟩
      intro n hn
      rw [hn] at hfail
      cases hw : inferNumRowsFromArgs ws with
      | error e =>
        rw [hw] at hfail
        cases hfail
      | ok m =>
        obtain ⟨-, hu1, hk1⟩ := rows_ok hss hn
        obtain ⟨-, hu2, hk2⟩ := rows_ok hts hw
        by_cases hunk : ∃ s ∈ ss, s.1 = -1
        · obtain ⟨s, hsm, hsu⟩ := hunk
          rw [hu1 ⟨s, hsm, hsu⟩, hu2 ⟨s, (hst s).mp hsm, hsu⟩]
        · have hknown : ∀ s ∈ ss, s.1 ≠ -1 := fun s hsm hsu => hunk ⟨s, hsm, hsu⟩
          have hknown2 : ∀ s ∈ ts, s.1 ≠ -1 := fun s hsm => hknown s ((hst s).mpr hsm)
          cases ss with
          | nil =>
            cases hss
            exact absurd rfl hne
          | cons s0 ss1 =>
            have h1 := hk1 hknown s0 (List.mem_cons_self _ _)
            have h2 := hk2 hknown2 s0 ((hst s0).mp (List.mem_cons_self _ _))
            rw [← h1, ← h2]
  · have hex : ∃ v ∈ vs, ∃ e, getShape v = .error e := by
      by_contra hcon
      apply hall
      intro v hv
      cases hg : getShape v with
      | error e => exact absurd ⟨v, hv, e, hg⟩ hcon
      | ok s => exact ⟨s, rfl⟩
    obtain ⟨v, hv, e, he⟩ := hex
    have h1 := rows_noShape vs v e hv he
    have h2 := rows_noShape ws v e ((hmem v).mp hv) he
    refine ⟨by rw [h1, h2], ?_⟩
    intro n hn
    rw [hn] at h1
    cases h1

/-- C34: for every list of arguments and every permutation of it, `inferNumRowsFromArgs`
fails on both lists or returns the same row count on both (which exception is thrown may
depend on the order). -/
theorem C34_rows_permutation (vs ws : List Value) (hp : vs.Perm ws) :
    failed (inferNumRowsFromArgs vs) = failed (inferNumRowsFromArgs ws) ∧
      (∀ n, inferNumRowsFromArgs vs = .ok n ↔ inferNumRowsFromArgs ws = .ok n) := by
  have h1 := rows_of_same_members vs ws (fun v => hp.mem_iff)
  have h2 := rows_of_same_members ws vs (fun v => hp.symm.mem_iff)
  exact ⟨h1.1, fun n => ⟨h1.2 n, h2.2 n⟩⟩

/-- Witness of C34: the row counts 3, unknown, 3 give -1 in two orders; the row counts 3, 4,
unknown are rejected in two orders, with different exceptions. -/
theorem C34_witness :
    (failed (inferNumRowsFromArgs [⟨.matrix 3 4, none⟩, ⟨.matrix (-1) 2, none⟩, ⟨.column 3, none⟩])
        = failed (inferNumRowsFromArgs
          [⟨.column 3, none⟩, ⟨.matrix 3 4, none⟩, ⟨.matrix (-1) 2, none⟩]) ∧
      (∀ n, inferNumRowsFromArgs [⟨.matrix 3 4, none⟩, ⟨.matrix (-1) 2, none⟩, ⟨.column 3, none⟩]
          = .ok n ↔
        inferNumRowsFromArgs [⟨.column 3, none⟩, ⟨.matrix 3 4, none⟩, ⟨.matrix (-1) 2, none⟩]
          = .ok n)) ∧
      inferNumRowsFromArgs [⟨.matrix 3 4, none⟩, ⟨.matrix (-1) 2, none⟩, ⟨.column 3, none⟩]
        = .ok (-1) ∧
      inferNumRowsFromArgs [⟨.matrix 3 4, none⟩, ⟨.matrix 4 2, none⟩, ⟨.matrix (-1) 2, none⟩]
        = .error (.rowsMismatch 3 4) ∧
      inferNumRowsFromArgs [⟨.matrix 4 2, none⟩, ⟨.matrix (-1) 2, none⟩, ⟨.matrix 3 4, none⟩]
        = .error (.rowsMismatch 4 3) :=
  ⟨C34_rows_permutation
      [⟨.matrix 3 4, none⟩, ⟨.matrix (-1) 2, none⟩, ⟨.column 3, none⟩]
      [⟨.column 3, none⟩, ⟨.matrix 3 4, none⟩, ⟨.matrix (-1) 2, none⟩]
      (by decide),
    rfl, rfl, rfl⟩

/-! ## The agreement of grouping and column extraction on frame wildcards -/

/-- The result of `ExtractColOp` for a constant wildcard label `"f.*"` on a frame. -/
theorem extractCol_wildcard_eq (source selectedCols : Value) (r c : Int)
    (L : List (List Char)) (f : List Char) (hsrc : source.ty = .frame r c (some L))
    (hty : selectedCols.ty = .sca .str)
    (hcst : selectedCols.cst = some (.str (f ++ ['.', '*']))) (hf : '.' ∉ f)
    (hlen : f.length + 2 < 2 ^ 64 - 1) (hL : ∀ label ∈ L, label.length < 2 ^ 64) :
    ExtractColOp.inferShape source selectedCols = .ok [(r, (countFrameLabels f L : Nat))] := by
  have hlen1 : (f ++ ['.', '*']).length < 2 ^ 64 - 1 := by
    rw [List.length_append]
    exact hlen
  have hpre : prefixBeforeDot (f ++ ['.', '*']) = f := prefixBeforeDot_append_dot f ['*'] hf
  have hcol : colLabelOf (f ++ ['.', '*']) = ['*'] := by
    rw [colLabelOf_eq_star_iff _ hlen1, hpre]
    exact Or.inr rfl
  have hname : frameNameOf (f ++ ['.', '*']) = f := by
    rw [frameNameOf_eq _ (by omega), hpre]
  have hshape : getShape source = .ok (r, c) := by
    unfold getShape
    rw [hsrc]
  simp only [ExtractColOp.inferShape, hshape, hsrc, hty, constantOrThrowStr_of_str hcst, hcol,
    if_true, hname, extractLoop_eq f L 0 hL, zero_add]

/-- The result of `GroupOp` for the single constant wildcard key `"f.*"` and no aggregation
column. -/
theorem group_wildcard_eq (frame key : Value) (r c : Int) (L : List (List Char))
    (f : List Char) (hfrm : frame.ty = .frame r c (some L))
    (hkey : key.cst = some (.str (f ++ ['.', '*']))) (hf : '.' ∉ f)
    (hlen : f.length + 2 < 2 ^ 64 - 1) (hL : ∀ label ∈ L, label.length < 2 ^ 64)
    (hfit : L.length < 2 ^ 63) :
    GroupOp.inferShape frame [key] [] = .ok [(-1, (countFrameLabels f L : Nat))] := by
  have hle : countFrameLabels f L ≤ L.length := List.length_filter_le _ _
  have hlen1 : ∀ k ∈ [f ++ ['.', '*']], k.length < 2 ^ 64 - 1 := by
    intro k hk
    rw [List.mem_singleton.mp hk, List.length_append]
    exact hlen
  have hpre : prefixBeforeDot (f ++ ['.', '*']) = f := prefixBeforeDot_append_dot f ['*'] hf
  have hne : f ++ ['.', '*'] ≠ ['*'] := by
    intro h
    have := congrArg List.length h
    simp at this
  have hexp : expandCount L (f ++ ['.', '*']) = countFrameLabels f L := by
    simp only [expandCount, hne, if_false, hpre, if_true]
  obtain ⟨res, hres, hlenres⟩ := groupLoop_length frame r c L hfrm hL [key] [f ++ ['.', '*']] []
    (List.Forall₂.cons hkey List.Forall₂.nil) hlen1
  simp only [List.length_nil, Nat.zero_add, List.map_cons, List.map_nil, List.sum_cons,
    List.sum_nil, Nat.add_zero, hexp] at hlenres
  simp only [GroupOp.inferShape, hres, validDim_unknownSizeT, hlenres, List.length_nil]
  have h1 : addSz (countFrameLabels f L) 0 = countFrameLabels f L := by
    unfold addSz
    omega
  have h2 : toSSizeT (countFrameLabels f L) = ((countFrameLabels f L : Nat) : Int) := by
    unfold toSSizeT
    split <;> omega
  rw [h1, h2]

/-- C35: for a frame with `r` rows and the labels `L` and a frame name `f` without `'.'`,
`GroupOp` with the single constant key `"f.*"` and no aggregation column and `ExtractColOp`
with the constant label `"f.*"` infer the same column count `n`, the number of labels whose
prefix before the first `'.'` is `f`, and `n` is at most the number of labels (strings are
shorter than `2^64`, there are fewer than `2^63` labels). -/
theorem C35_group_extract_agree (frame label : Value) (r c : Int) (L : List (List Char))
    (f : List Char) (hfrm : frame.ty = .frame r c (some L)) (hty : label.ty = .sca .str)
    (hcst : label.cst = some (.str (f ++ ['.', '*']))) (hf : '.' ∉ f)
    (hlen : f.length + 2 < 2 ^ 64 - 1) (hL : ∀ l ∈ L, l.length < 2 ^ 64)
    (hfit : L.length < 2 ^ 63) :
    ∃ n : Nat, GroupOp.inferShape frame [label] [] = .ok [(-1, (n : Int))] ∧
      ExtractColOp.inferShape frame label = .ok [(r, (n : Int))] ∧
      n = countFrameLabels f L ∧ n ≤ L.length :=
  ⟨countFrameLabels f L, group_wildcard_eq frame label r c L f hfrm hcst hf hlen hL hfit,
    extractCol_wildcard_eq frame label r c L f hfrm hty hcst hf hlen hL, rfl,
    List.length_filter_le _ _⟩

/-- Witness of C35: on the labels `"t.a"`, `"t.b"`, `"u.c"` the wildcard `"t.*"` gives 2
columns with both operations. -/
theorem C35_witness :
    (∃ n : Nat,
      GroupOp.inferShape
          ⟨.frame 4 3 (some [['t', '.', 'a'], ['t', '.', 'b'], ['u', '.', 'c']]), none⟩
          [⟨.sca .str, some (.str ['t', '.', '*'])⟩] [] = .ok [(-1, (n : Int))] ∧
        ExtractColOp.inferShape
          ⟨.frame 4 3 (some [['t', '.', 'a'], ['t', '.', 'b'], ['u', '.', 'c']]), none⟩
          ⟨.sca .str, some (.str ['t', '.', '*'])⟩ = .ok [(4, (n : Int))] ∧
        n = countFrameLabels ['t'] [['t', '.', 'a'], ['t', '.', 'b'], ['u', '.', 'c']] ∧
        n ≤ [['t', '.', 'a'], ['t', '.', 'b'], ['u', '.', 'c']].length) ∧
      GroupOp.inferShape
          ⟨.frame 4 3 (some [['t', '.', 'a'], ['t', '.', 'b'], ['u', '.', 'c']]), none⟩
          [⟨.sca .str, some (.str ['t', '.', '*'])⟩] [] = .ok [(-1, 2)] ∧
      ExtractColOp.inferShape
          ⟨.frame 4 3 (some [['t', '.', 'a'], ['t', '.', 'b'], ['u', '.', 'c']]), none⟩
          ⟨.sca .str, some (.str ['t', '.', '*'])⟩ = .ok [(4, 2)] :=
  ⟨C35_group_extract_agree
      ⟨.frame 4 3 (some [['t', '.', 'a'], ['t', '.', 'b'], ['u', '.', 'c']]), none⟩
      ⟨.sca .str, some (.str ['t', '.', '*'])⟩ 4 3
      [['t', '.', 'a'], ['t', '.', 'b'], ['u', '.', 'c']] ['t'] rfl rfl rfl (by decide)
      (by decide) (by decide) (by decide),
    rfl, rfl⟩

/-! ## The output dimension in the well-formed case -/

/-- A parameter that is no integer constant is read as the default. -/
theorem constantOrDefaultSizeT_of_not_int {v : Value} (d : Nat)
    (h : (isConstantInt v).1 = false) : constantOrDefaultSizeT v d = d := by
  unfold constantOrDefaultSizeT
  rw [h]
  rfl

/-- C33: let `in`, `pad`, `f` and `stride` be what the code reads from the four parameters of
one direction: the constant, or the default 1 for a parameter that is no compile-time
constant. When `f ≤ in + 2 * pad`, `stride ≥ 1`, `in + 2 * pad` is below `2^64` and the result
below `2^53`, the output dimension is `(in + 2 * pad - f) / stride + 1` with the division of
natural numbers; it is the `Hout` (in the other direction the `Wout`) in the column count of
the two pooling operations and of the convolution. With no parameter constant, `Hout` and
`Wout` are 3 and a pooling operation reports 9 columns. -/
theorem C33_outDim_wellFormed (vIn vPad vF vStride : Value)
    (hs : 1 ≤ constantOrDefaultSizeT vStride 1)
    (hf : constantOrDefaultSizeT vF 1
      ≤ constantOrDefaultSizeT vIn 1 + 2 * constantOrDefaultSizeT vPad 1)
    (hfit : constantOrDefaultSizeT vIn 1 + 2 * constantOrDefaultSizeT vPad 1 < 2 ^ 64)
    (hres : (constantOrDefaultSizeT vIn 1 + 2 * constantOrDefaultSizeT vPad 1
      - constantOrDefaultSizeT vF 1) / constantOrDefaultSizeT vStride 1 + 1 < 2 ^ 53) :
    outDim (constantOrDefaultSizeT vIn 1) (constantOrDefaultSizeT vPad 1)
        (constantOrDefaultSizeT vF 1) (constantOrDefaultSizeT vStride 1)
      = .ok ((constantOrDefaultSizeT vIn 1 + 2 * constantOrDefaultSizeT vPad 1
          - constantOrDefaultSizeT vF 1) / constantOrDefaultSizeT vStride 1 + 1) ∧
      (∀ (v : Value) (n : Nat), v.cst = some (.int (n : Int)) → n < 2 ^ 64 →
        constantOrDefaultSizeT v 1 = n) ∧
      (∀ v : Value, (isConstantInt v).1 = false → constantOrDefaultSizeT v 1 = 1) ∧
      (∀ (input chanOrFilter wIn wPad wF wStride : Value) (shapeX : Shape) (Wout : Nat),
        getShape input = .ok shapeX →
        outDim (constantOrDefaultSizeT wIn 1) (constantOrDefaultSizeT wPad 1)
          (constantOrDefaultSizeT wF 1) (constantOrDefaultSizeT wStride 1) = .ok Wout →
        AvgPoolForwardOp.inferShape input chanOrFilter vIn wIn vF wF vPad wPad vStride wStride
            = .ok [(shapeX.1, toSSizeT (mulSz (mulSz (constantOrDefaultSizeT chanOrFilter 1)
              ((constantOrDefaultSizeT vIn 1 + 2 * constantOrDefaultSizeT vPad 1
                - constantOrDefaultSizeT vF 1) / constantOrDefaultSizeT vStride 1 + 1)) Wout)),
              (1, 1), (1, 1)] ∧
          MaxPoolForwardOp.inferShape input chanOrFilter vIn wIn vF wF vPad wPad vStride wStride
            = .ok [(shapeX.1, toSSizeT (mulSz (mulSz (constantOrDefaultSizeT chanOrFilter 1)
              ((constantOrDefaultSizeT vIn 1 + 2 * constantOrDefaultSizeT vPad 1
                - constantOrDefaultSizeT vF 1) / constantOrDefaultSizeT vStride 1 + 1)) Wout)),
              (1, 1), (1, 1)] ∧
          ∀ shapeW, getShape chanOrFilter = .ok shapeW →
            Conv2DForwardOp.inferShape input chanOrFilter vIn wIn vF wF vPad wPad vStride
                wStride
              = .ok [(shapeX.1, if shapeW.1 = -1 then -1
                  else toSSizeT (mulSz (mulSz (toSizeT shapeW.1)
                    ((constantOrDefaultSizeT vIn 1 + 2 * constantOrDefaultSizeT vPad 1
                      - constantOrDefaultSizeT vF 1) / constantOrDefaultSizeT vStride 1 + 1))
                    Wout)), (1, 1), (1, 1)]) ∧
      (∀ (input inputNumChannels inputHeight inputWidth poolHeight poolWidth padHeight padWidth
          strideHeight strideWidth : Value) (shapeX : Shape),
        getShape input = .ok shapeX →
        (isConstantInt inputNumChannels).1 = false → (isConstantInt inputHeight).1 = false →
        (isConstantInt inputWidth).1 = false → (isConstantInt poolHeight).1 = false →
        (isConstantInt poolWidth).1 = false → (isConstantInt padHeight).1 = false →
        (isConstantInt padWidth).1 = false → (isConstantInt strideHeight).1 = false →
        (isConstantInt strideWidth).1 = false →
        outDim (constantOrDefaultSizeT inputHeight 1) (constantOrDefaultSizeT padHeight 1)
            (constantOrDefaultSizeT poolHeight 1) (constantOrDefaultSizeT strideHeight 1)
          = .ok 3 ∧
        outDim (constantOrDefaultSizeT inputWidth 1) (constantOrDefaultSizeT padWidth 1)
            (constantOrDefaultSizeT poolWidth 1) (constantOrDefaultSizeT strideWidth 1)
          = .ok 3 ∧
        AvgPoolForwardOp.inferShape input inputNumChannels inputHeight inputWidth poolHeight
            poolWidth padHeight padWidth strideHeight strideWidth
          = .ok [(shapeX.1, 9), (1, 1), (1, 1)] ∧
        MaxPoolForwardOp.inferShape input inputNumChannels inputHeight inputWidth poolHeight
            poolWidth padHeight padWidth strideHeight strideWidth
          = .ok [(shapeX.1, 9), (1, 1), (1, 1)]) := by
  have hout := outDim_wellFormed _ _ _ _ hs hf hfit hres
  refine ⟨hout, ?_, ?_, ?_, ?_⟩
  · intro v n hv hn
    exact constantOrDefaultSizeT_of_int 1 hv hn
  · intro v hv
    exact constantOrDefaultSizeT_of_not_int 1 hv
  · intro input chanOrFilter wIn wPad wF wStride shapeX Wout hx hw
    exact ⟨AvgPoolForwardOp_eq _ _ _ _ _ _ _ _ _ _ shapeX _ _ hx hout hw,
      MaxPoolForwardOp_eq _ _ _ _ _ _ _ _ _ _ shapeX _ _ hx hout hw,
      fun shapeW hfl => Conv2DForwardOp_eq _ _ _ _ _ _ _ _ _ _ shapeX shapeW _ _ hx hfl hout hw⟩
  · intro input inputNumChannels inputHeight inputWidth poolHeight poolWidth padHeight
      padWidth strideHeight strideWidth shapeX hx hc hih hiw hph hpw hpadh hpadw hsh hsw
    have h3 : outDim 1 1 1 1 = .ok 3 := rfl
    have hh : outDim (constantOrDefaultSizeT inputHeight 1) (constantOrDefaultSizeT padHeight 1)
        (constantOrDefaultSizeT poolHeight 1) (constantOrDefaultSizeT strideHeight 1)
        = .ok 3 := by
      rw [constantOrDefaultSizeT_of_not_int 1 hih, constantOrDefaultSizeT_of_not_int 1 hpadh,
        constantOrDefaultSizeT_of_not_int 1 hph, constantOrDefaultSizeT_of_not_int 1 hsh]
      exact h3
    have hw : outDim (constantOrDefaultSizeT inputWidth 1) (constantOrDefaultSizeT padWidth 1)
        (constantOrDefaultSizeT poolWidth 1) (constantOrDefaultSizeT strideWidth 1)
        = .ok 3 := by
      rw [constantOrDefaultSizeT_of_not_int 1 hiw, constantOrDefaultSizeT_of_not_int 1 hpadw,
        constantOrDefaultSizeT_of_not_int 1 hpw, constantOrDefaultSizeT_of_not_int 1 hsw]
      exact h3
    have h9 : toSSizeT (mulSz (mulSz (constantOrDefaultSizeT inputNumChannels 1) 3) 3) = 9 := by
      rw [constantOrDefaultSizeT_of_not_int 1 hc]
      rfl
    refine ⟨hh, hw, ?_, ?_⟩
    · rw [AvgPoolForwardOp_eq _ _ _ _ _ _ _ _ _ _ shapeX _ _ hx hh hw, h9]
    · rw [MaxPoolForwardOp_eq _ _ _ _ _ _ _ _ _ _ shapeX _ _ hx hh hw, h9]

/-- Witness of C33: in = 7, pad = 1, f = 3, stride = 2 give (7 + 2 - 3) / 2 + 1 = 4; with no
constant at all the four parameters are 1 and the output dimension is 3. -/
theorem C33_witness :
    outDim (constantOrDefaultSizeT ⟨.sca .si64, some (.int 7)⟩ 1)
        (constantOrDefaultSizeT ⟨.sca .si64, some (.int 1)⟩ 1)
        (constantOrDefaultSizeT ⟨.sca .si64, some (.int 3)⟩ 1)
        (constantOrDefaultSizeT ⟨.sca .si64, some (.int 2)⟩ 1)
      = .ok ((constantOrDefaultSizeT ⟨.sca .si64, some (.int 7)⟩ 1
          + 2 * constantOrDefaultSizeT ⟨.sca .si64, some (.int 1)⟩ 1
          - constantOrDefaultSizeT ⟨.sca .si64, some (.int 3)⟩ 1)
          / constantOrDefaultSizeT ⟨.sca .si64, some (.int 2)⟩ 1 + 1) ∧
      outDim 7 1 3 2 = .ok 4 ∧
      outDim (constantOrDefaultSizeT ⟨.sca .si64, none⟩ 1)
        (constantOrDefaultSizeT ⟨.sca .si64, none⟩ 1)
        (constantOrDefaultSizeT ⟨.sca .si64, none⟩ 1)
        (constantOrDefaultSizeT ⟨.sca .si64, none⟩ 1) = .ok 3 :=
  ⟨(C33_outDim_wellFormed ⟨.sca .si64, some (.int 7)⟩ ⟨.sca .si64, some (.int 1)⟩
      ⟨.sca .si64, some (.int 3)⟩ ⟨.sca .si64, some (.int 2)⟩ (by decide) (by decide)
      (by decide) (by decide)).1,
    rfl, rfl⟩

/-! ## The trait engine as a list of steps -/

theorem applySteps_append (a b : List (Option (Except Err Int) × Option (Except Err Int))) :
    ∀ s : Shape, applySteps (a ++ b) s = (applySteps a s >>= applySteps b) := by
  induction a with
  | nil =>
    intro s
    rfl
  | cons st sts ih =>
    intro s
    simp only [List.cons_append, applySteps]
    cases applyStep s st with
    | error e => rfl
    | ok s1 => exact ih s1

theorem tryParamTraitUntil_eq
    (tryParametricTrait : Nat → Shape → Operation → Except Err Shape) (op : Operation)
    (d : Nat → Option (Except Err Int) × Option (Except Err Int))
    (h : ∀ i s, tryParametricTrait i s op = applyStep s (d i)) :
    ∀ (upper : Nat) (s : Shape),
      tryParamTraitUntil tryParametricTrait upper s op
        = applySteps ((traitIndices upper).map d) s := by
  intro upper
  induction upper with
  | zero =>
    intro s
    simp only [tryParamTraitUntil, traitIndices, List.map_cons, List.map_nil, applySteps, h]
    cases applyStep s (d 0) with
    | error e => rfl
    | ok s1 => rfl
  | succ k ih =>
    intro s
    simp only [tryParamTraitUntil, traitIndices, List.map_cons, applySteps, h]
    cases applyStep s (d (k + 1)) with
    | error e => rfl
    | ok s1 => exact ih s1

theorem applyStep_rows (op : Operation) (t : Trait) (x : Except Err Int) (s : Shape) :
    applyStep s (ifDeclared op t x, none)
      = if op.hasTrait t then x.map (fun numRows => (numRows, s.2)) else .ok s := by
  unfold applyStep ifDeclared
  by_cases ht : op.hasTrait t = true
  · simp only [ht, if_true, Option.getD_some, Option.getD_none]
    cases x with
    | error e => rfl
    | ok r => rfl
  · simp only [ht, if_false, Option.getD_none]
    rfl

theorem applyStep_cols (op : Operation) (t : Trait) (x : Except Err Int) (s : Shape) :
    applyStep s (none, ifDeclared op t x)
      = if op.hasTrait t then x.map (fun numCols => (s.1, numCols)) else .ok s := by
  unfold applyStep ifDeclared
  by_cases ht : op.hasTrait t = true
  · simp only [ht, if_true, Option.getD_some, Option.getD_none]
    cases x with
    | error e => rfl
    | ok r => rfl
  · simp only [ht, if_false, Option.getD_none]
    rfl

theorem tryNumRowsFromIthScalar_eq (op : Operation) (i : Nat) (s : Shape) :
    tryNumRowsFromIthScalar i s op
      = applyStep s (ifDeclared op (.NumRowsFromIthScalar i) (operandScalar op i), none) := by
  rw [applyStep_rows]
  unfold tryNumRowsFromIthScalar operandScalar
  cases op.getOperand i <;> rfl

theorem tryNumColsFromIthScalar_eq (op : Operation) (i : Nat) (s : Shape) :
    tryNumColsFromIthScalar i s op
      = applyStep s (none, ifDeclared op (.NumColsFromIthScalar i) (operandScalar op i)) := by
  rw [applyStep_cols]
  unfold tryNumColsFromIthScalar operandScalar
  cases op.getOperand i <;> rfl

theorem tryNumRowsFromIthArg_eq (op : Operation) (i : Nat) (s : Shape) :
    tryNumRowsFromIthArg i s op
      = applyStep s (ifDeclared op (.NumRowsFromIthArg i) (operandRows op i), none) := by
  rw [applyStep_rows]
  unfold tryNumRowsFromIthArg operandRows operandShape
  cases op.getOperand i with
  | error e => rfl
  | ok v =>
    simp only []
    cases getShape v <;> rfl

theorem tryNumColsFromIthArg_eq (op : Operation) (i : Nat) (s : Shape) :
    tryNumColsFromIthArg i s op
      = applyStep s (none, ifDeclared op (.NumColsFromIthArg i) (operandCols op i)) := by
  rw [applyStep_cols]
  unfold tryNumColsFromIthArg operandCols operandShape
  cases op.getOperand i with
  | error e => rfl
  | ok v =>
    simp only []
    cases getShape v <;> rfl

theorem tryNumRowsFromIthArgNumCols_eq (op : Operation) (i : Nat) (s : Shape) :
    tryNumRowsFromIthArgNumCols i s op
      = applyStep s (ifDeclared op (.NumRowsFromIthArgNumCols i) (operandCols op i), none) := by
  rw [applyStep_rows]
  unfold tryNumRowsFromIthArgNumCols operandCols operandShape
  cases op.getOperand i with
  | error e => rfl
  | ok v =>
    simp only []
    cases getShape v <;> rfl

theorem tryNumColsFromIthArgNumRows_eq (op : Operation) (i : Nat) (s : Shape) :
    tryNumColsFromIthArgNumRows i s op
      = applyStep s (none, ifDeclared op (.NumColsFromIthArgNumRows i) (operandRows op i)) := by
  rw [applyStep_cols]
  unfold tryNumColsFromIthArgNumRows operandRows operandShape
  cases op.getOperand i with
  | error e => rfl
  | ok v =>
    simp only []
    cases getShape v <;> rfl

theorem applyStep_both (op : Operation) (t : Trait) (x : Except Err Shape) (s : Shape) :
    applyStep s (ifDeclared op t (x.map Prod.fst), ifDeclared op t (x.map Prod.snd))
      = if op.hasTrait t then x else .ok s := by
  unfold applyStep ifDeclared
  by_cases ht : op.hasTrait t = true
  · simp only [ht, if_true, Option.getD_some]
    cases x with
    | error e => rfl
    | ok r => rfl
  · simp only [ht, if_false, Option.getD_none]
    rfl

theorem tryShapeFromIthArg_eq (op : Operation) (i : Nat) (s : Shape) :
    tryShapeFromIthArg i s op
      = applyStep s (ifDeclared op (.ShapeFromIthArg i) (operandRows op i),
          ifDeclared op (.ShapeFromIthArg i) (operandCols op i)) := by
  unfold operandRows operandCols
  rw [applyStep_both]
  unfold tryShapeFromIthArg operandShape
  cases op.getOperand i <;> rfl

/-- The element-wise binary step gives the shape of the rule if the trait is declared. -/
theorem tryShapeEwBinary_eq (op : Operation) (s : Shape) :
    tryShapeEwBinary s op = if op.hasTrait .ShapeEwBinary then ewBinaryShape op else .ok s := by
  unfold tryShapeEwBinary ewBinaryShape operandShape
  by_cases ht : op.hasTrait .ShapeEwBinary = true
  · simp only [ht, if_true]
    cases op.getOperand 0 with
    | error e => rfl
    | ok v0 =>
      simp only []
      cases getShape v0 with
      | error e => rfl
      | ok l =>
        simp only []
        cases op.getOperand 1 with
        | error e => rfl
        | ok v1 =>
          simp only []
          cases getShape v1 with
          | error e => rfl
          | ok r =>
            simp only [ewBinaryRule, Prod.mk.injEq, Prod.ext_iff, and_assoc]
            split_ifs <;> rfl
  · simp only [ht, if_false]
    rfl

theorem applyStep_rowHook (h : Option InferNumRowsOp) (s : Shape) :
    applyStep s (h.map InferNumRowsOp.inferNumRows, none)
      = match h with
        | some inferNumRowsOp => inferNumRowsOp.inferNumRows.map fun numRows => (numRows, s.2)
        | none => .ok s := by
  unfold applyStep
  cases h with
  | none => rfl
  | some r =>
    simp only [Option.map_some', Option.getD_some, Option.getD_none]
    cases r.inferNumRows <;> rfl

theorem applyStep_colHook (h : Option (Except Err Int)) (s : Shape) :
    applyStep s (none, h)
      = match h with
        | some inferNumCols => inferNumCols.map fun numCols => (s.1, numCols)
        | none => .ok s := by
  unfold applyStep
  cases h with
  | none => rfl
  | some r =>
    simp only [Option.getD_some, Option.getD_none]
    cases r <;> rfl

theorem applySteps_cons (st : Option (Except Err Int) × Option (Except Err Int))
    (sts : List (Option (Except Err Int) × Option (Except Err Int))) :
    applySteps (st :: sts) = fun s => applyStep s st >>= fun s1 => applySteps sts s1 := by
  funext s
  cases h : applyStep s st with
  | error e =>
    simp only [applySteps, h]
    rfl
  | ok s1 =>
    simp only [applySteps, h]
    rfl

theorem applySteps_nil : applySteps [] = fun s => pure s := by
  funext s
  rfl

theorem applyStep_oneRow (op : Operation) (s : Shape) :
    applyStep s (ifDeclared op .OneRow (.ok 1), none)
      = pure (if op.hasTrait .OneRow then (1, s.2) else s) := by
  rw [applyStep_rows]
  split <;> rfl

theorem applyStep_oneCol (op : Operation) (s : Shape) :
    applyStep s (none, ifDeclared op .OneCol (.ok 1))
      = pure (if op.hasTrait .OneCol then (s.1, 1) else s) := by
  rw [applyStep_cols]
  split <;> rfl

/-- The trait engine applies its steps one after the other to the unknown shape. -/
theorem inferShapeFromTraits_eq (op : Operation) :
    inferShapeFromTraits op = applySteps (traitSteps op) (-1, -1) := by
  unfold inferShapeFromTraits traitSteps
  simp only [applySteps_append, bind_assoc, applySteps_cons, applySteps_nil,
    ← tryParamTraitUntil_eq tryNumRowsFromIthScalar op _ (tryNumRowsFromIthScalar_eq op),
    ← tryParamTraitUntil_eq tryNumColsFromIthScalar op _ (tryNumColsFromIthScalar_eq op),
    ← tryParamTraitUntil_eq tryNumRowsFromIthArg op _ (tryNumRowsFromIthArg_eq op),
    ← tryParamTraitUntil_eq tryNumColsFromIthArg op _ (tryNumColsFromIthArg_eq op),
    ← tryParamTraitUntil_eq tryNumRowsFromIthArgNumCols op _
      (tryNumRowsFromIthArgNumCols_eq op),
    ← tryParamTraitUntil_eq tryNumColsFromIthArgNumRows op _
      (tryNumColsFromIthArgNumRows_eq op),
    ← tryParamTraitUntil_eq tryShapeFromIthArg op _ (tryShapeFromIthArg_eq op),
    applyStep_oneRow, applyStep_oneCol, pure_bind]
  simp only [applyStep_rows, applyStep_cols, applyStep_both, applyStep_rowHook,
    tryShapeEwBinary_eq]
  simp only [applyStep_colHook]

/-- When every declared computation succeeds, the steps end with the row count of the last
step that sets the rows and the column count of the last step that sets the columns; a field
that no step sets keeps its value. -/
theorem applySteps_last (steps : List (Option (Except Err Int) × Option (Except Err Int))) :
    ∀ s : Shape, (∀ x ∈ steps.filterMap Prod.fst, failed x = false) →
      (∀ x ∈ steps.filterMap Prod.snd, failed x = false) →
      ∃ r c, applySteps steps s = .ok (r, c) ∧
        (steps.filterMap Prod.fst).getLastD (.ok s.1) = .ok r ∧
        (steps.filterMap Prod.snd).getLastD (.ok s.2) = .ok c := by
  induction steps with
  | nil =>
    intro s _ _
    exact ⟨s.1, s.2, rfl, rfl, rfl⟩
  | cons st sts ih =>
    intro s hr hc
    obtain ⟨a, b⟩ := st
    have hr1 : ∀ x ∈ sts.filterMap Prod.fst, failed x = false := by
      intro x hx
      apply hr
      cases a with
      | none => simpa [List.filterMap_cons] using hx
      | some y => simp [List.filterMap_cons, hx]
    have hc1 : ∀ x ∈ sts.filterMap Prod.snd, failed x = false := by
      intro x hx
      apply hc
      cases b with
      | none => simpa [List.filterMap_cons] using hx
      | some y => simp [List.filterMap_cons, hx]
    have ha : ∃ r1, a.getD (.ok s.1) = .ok r1 ∧
        (((a, b) :: sts).filterMap Prod.fst).getLastD (.ok s.1)
          = (sts.filterMap Prod.fst).getLastD (.ok r1) := by
      cases a with
      | none => exact ⟨s.1, rfl, by simp only [List.filterMap_cons]⟩
      | some y =>
        cases y with
        | error e =>
          have := hr (.error e) (by simp [List.filterMap_cons])
          cases this
        | ok v => exact ⟨v, rfl, by simp only [List.filterMap_cons, List.getLastD_cons]⟩
    have hb : ∃ c1, b.getD (.ok s.2) = .ok c1 ∧
        (((a, b) :: sts).filterMap Prod.snd).getLastD (.ok s.2)
          = (sts.filterMap Prod.snd).getLastD (.ok c1) := by
      cases b with
      | none => exact ⟨s.2, rfl, by simp only [List.filterMap_cons]⟩
      | some y =>
        cases y with
        | error e =>
          have := hc (.error e) (by simp [List.filterMap_cons])
          cases this
        | ok v => exact ⟨v, rfl, by simp only [List.filterMap_cons, List.getLastD_cons]⟩
    obtain ⟨r1, har, hlr⟩ := ha
    obtain ⟨c1, hbc, hlc⟩ := hb
    obtain ⟨r, c, hres, hrl, hcl⟩ := ih (r1, c1) hr1 hc1
    refine ⟨r, c, ?_, ?_, ?_⟩
    · simp only [applySteps, applyStep, har, hbc]
      exact hres
    · rw [hlr]
      exact hrl
    · rw [hlc]
      exact hcl

theorem filterMap_fst_rowSteps (op : Operation) (t : Nat → Trait) (g : Nat → Except Err Int)
    (l : List Nat) :
    (l.map (fun i =>
        ((ifDeclared op (t i) (g i), none) : Option (Except Err Int) × Option (Except Err Int))
        )).filterMap Prod.fst
      = (l.filter (fun i => op.hasTrait (t i))).map g := by
  induction l with
  | nil => rfl
  | cons i l ih =>
    by_cases h : op.hasTrait (t i) = true
    · simp only [List.map_cons, List.filterMap_cons, ifDeclared, h, if_true, List.filter_cons]
      rw [← ih]
      rfl
    · simp only [List.map_cons, List.filterMap_cons, ifDeclared, h, Bool.false_eq_true, if_false,
        List.filter_cons]
      rw [← ih]
      rfl

theorem filterMap_snd_rowSteps (a : Nat → Option (Except Err Int)) (l : List Nat) :
    (l.map (fun i =>
        ((a i, none) : Option (Except Err Int) × Option (Except Err Int)))).filterMap Prod.snd
      = [] := by
  induction l with
  | nil => rfl
  | cons i l ih =>
    simp only [List.map_cons, List.filterMap_cons]
    exact ih

theorem filterMap_snd_colSteps (op : Operation) (t : Nat → Trait) (g : Nat → Except Err Int)
    (l : List Nat) :
    (l.map (fun i =>
        ((none, ifDeclared op (t i) (g i)) : Option (Except Err Int) × Option (Except Err Int))
        )).filterMap Prod.snd
      = (l.filter (fun i => op.hasTrait (t i))).map g := by
  induction l with
  | nil => rfl
  | cons i l ih =>
    by_cases h : op.hasTrait (t i) = true
    · simp only [List.map_cons, List.filterMap_cons, ifDeclared, h, if_true, List.filter_cons]
      rw [← ih]
      rfl
    · simp only [List.map_cons, List.filterMap_cons, ifDeclared, h, Bool.false_eq_true, if_false,
        List.filter_cons]
      rw [← ih]
      rfl

theorem filterMap_fst_colSteps (b : Nat → Option (Except Err Int)) (l : List Nat) :
    (l.map (fun i =>
        ((none, b i) : Option (Except Err Int) × Option (Except Err Int)))).filterMap Prod.fst
      = [] := by
  induction l with
  | nil => rfl
  | cons i l ih =>
    simp only [List.map_cons, List.filterMap_cons]
    exact ih

theorem filterMap_fst_shapeSteps (op : Operation) (t : Nat → Trait)
    (g h : Nat → Except Err Int) (l : List Nat) :
    (l.map (fun i => (ifDeclared op (t i) (g i), ifDeclared op (t i) (h i)))).filterMap Prod.fst
      = (l.filter (fun i => op.hasTrait (t i))).map g := by
  induction l with
  | nil => rfl
  | cons i l ih =>
    by_cases hd : op.hasTrait (t i) = true
    · simp only [List.map_cons, List.filterMap_cons, ifDeclared, hd, if_true, List.filter_cons]
      rw [← ih]
      rfl
    · simp only [List.map_cons, List.filterMap_cons, ifDeclared, hd, Bool.false_eq_true, if_false,
        List.filter_cons]
      rw [← ih]
      rfl

theorem filterMap_snd_shapeSteps (op : Operation) (t : Nat → Trait)
    (g h : Nat → Except Err Int) (l : List Nat) :
    (l.map (fun i => (ifDeclared op (t i) (g i), ifDeclared op (t i) (h i)))).filterMap Prod.snd
      = (l.filter (fun i => op.hasTrait (t i))).map h := by
  induction l with
  | nil => rfl
  | cons i l ih =>
    by_cases hd : op.hasTrait (t i) = true
    · simp only [List.map_cons, List.filterMap_cons, ifDeclared, hd, if_true, List.filter_cons]
      rw [← ih]
      rfl
    · simp only [List.map_cons, List.filterMap_cons, ifDeclared, hd, Bool.false_eq_true, if_false,
        List.filter_cons]
      rw [← ih]
      rfl

/-- The declared row-governing steps, written out. -/
theorem declaredRowSteps_eq (op : Operation) :
    declaredRowSteps op =
      (if op.hasTrait .OneRow then [.ok 1] else []) ++
      ((traitIndices 9).filter (fun i => op.hasTrait (.NumRowsFromIthScalar i))).map
        (operandScalar op) ++
      ((traitIndices 9).filter (fun i => op.hasTrait (.NumRowsFromIthArg i))).map
        (operandRows op) ++
      ((traitIndices 9).filter (fun i => op.hasTrait (.NumRowsFromIthArgNumCols i))).map
        (operandCols op) ++
      (if op.hasTrait .NumRowsFromAllArgs then [inferNumRowsFromArgs op.operands] else []) ++
      (if op.hasTrait .NumRowsFromSumOfAllArgs then [inferNumRowsFromSumOfArgs op.operands]
        else []) ++
      ((traitIndices 9).filter (fun i => op.hasTrait (.ShapeFromIthArg i))).map
        (operandRows op) ++
      (if op.hasTrait .ShapeEwBinary then [(ewBinaryShape op).map Prod.fst] else []) ++
      (match op.inferNumRowsOp with
        | some inferNumRowsOp => [inferNumRowsOp.inferNumRows]
        | none => []) := by
  unfold declaredRowSteps traitSteps
  simp only [List.filterMap_append, filterMap_fst_rowSteps, filterMap_fst_colSteps,
    filterMap_fst_shapeSteps, List.filterMap_cons, List.filterMap_nil, List.append_nil,
    List.nil_append]
  unfold ifDeclared
  cases op.hasTrait .OneRow <;> cases op.hasTrait .NumRowsFromAllArgs <;>
    cases op.hasTrait .NumRowsFromSumOfAllArgs <;> cases op.hasTrait .ShapeEwBinary <;>
    cases op.inferNumRowsOp <;> simp

/-- The declared column-governing steps, written out. -/
theorem declaredColSteps_eq (op : Operation) :
    declaredColSteps op =
      (if op.hasTrait .OneCol then [.ok 1] else []) ++
      ((traitIndices 9).filter (fun i => op.hasTrait (.NumColsFromIthScalar i))).map
        (operandScalar op) ++
      ((traitIndices 9).filter (fun i => op.hasTrait (.NumColsFromIthArg i))).map
        (operandCols op) ++
      ((traitIndices 9).filter (fun i => op.hasTrait (.NumColsFromIthArgNumRows i))).map
        (operandRows op) ++
      (if op.hasTrait .NumColsFromAllArgs then [inferNumColsFromArgs op.operands] else []) ++
      (if op.hasTrait .NumColsFromSumOfAllArgs then [inferNumColsFromSumOfArgs op.operands]
        else []) ++
      ((traitIndices 9).filter (fun i => op.hasTrait (.ShapeFromIthArg i))).map
        (operandCols op) ++
      (if op.hasTrait .ShapeEwBinary then [(ewBinaryShape op).map Prod.snd] else []) ++
      (match op.inferNumColsOp with
        | some inferNumCols => [inferNumCols]
        | none => []) := by
  unfold declaredColSteps traitSteps
  simp only [List.filterMap_append, filterMap_snd_rowSteps, filterMap_snd_colSteps,
    filterMap_snd_shapeSteps, List.filterMap_cons, List.filterMap_nil, List.append_nil,
    List.nil_append]
  unfold ifDeclared
  cases op.hasTrait .OneCol <;> cases op.hasTrait .NumColsFromAllArgs <;>
    cases op.hasTrait .NumColsFromSumOfAllArgs <;> cases op.hasTrait .ShapeEwBinary <;>
    cases op.inferNumColsOp <;> simp

/-- When every declared step succeeds, the trait engine returns the row count of the last
declared row-governing step and the column count of the last declared column-governing step,
`-1` for a field without a declared step. -/
theorem inferShapeFromTraits_last (op : Operation)
    (hr : ∀ x ∈ declaredRowSteps op, failed x = false)
    (hc : ∀ x ∈ declaredColSteps op, failed x = false) :
    ∃ r c, inferShapeFromTraits op = .ok (r, c) ∧
      (declaredRowSteps op).getLastD (.ok (-1)) = .ok r ∧
      (declaredColSteps op).getLastD (.ok (-1)) = .ok c := by
  rw [inferShapeFromTraits_eq]
  exact applySteps_last (traitSteps op) (-1, -1) hr hc

theorem applyStep_keeps_cols (a : Option (Except Err Int)) (s s1 : Shape)
    (h : applyStep s (a, none) = .ok s1) : s1.2 = s.2 := by
  unfold applyStep at h
  simp only [Option.getD_none] at h
  cases ha : a.getD (.ok s.1) with
  | error e =>
    rw [ha] at h
    cases h
  | ok r =>
    rw [ha] at h
    cases h
    rfl

theorem applyStep_keeps_rows (b : Option (Except Err Int)) (s s1 : Shape)
    (h : applyStep s (none, b) = .ok s1) : s1.1 = s.1 := by
  unfold applyStep at h
  simp only [Option.getD_none] at h
  cases hb : b.getD (.ok s.2) with
  | error e =>
    rw [hb] at h
    cases h
  | ok c =>
    rw [hb] at h
    cases h
    rfl

/-! ## The claims on the trait engine -/

/-- C31: for an operation with one result and without a custom rule, when every step the
operation declares succeeds, `tryInferShape` returns the single shape `(r, c)` where `r` is
the row count produced by the last row-governing step that the operation declares, in the
fixed order (OneRow; rows from the i-th scalar; rows from the i-th argument; rows from the
columns of the i-th argument; rows from all arguments; rows from the sum; shape from the i-th
argument; element-wise binary; row hook), and `-1` if it declares none; `c` is the same for
the column-governing steps. A row-only step of a parametric trait keeps the column count, a
column-only step keeps the row count. -/
theorem C31_trait_precedence (op : Operation) (hnone : op.inferShapeOp = none)
    (hone : op.numResults = 1) (hr : ∀ x ∈ declaredRowSteps op, failed x = false)
    (hc : ∀ x ∈ declaredColSteps op, failed x = false) :
    (∃ r c, tryInferShape op = .ok [(r, c)] ∧
      (declaredRowSteps op).getLastD (.ok (-1)) = .ok r ∧
      (declaredColSteps op).getLastD (.ok (-1)) = .ok c ∧
      (declaredRowSteps op = [] → r = -1) ∧ (declaredColSteps op = [] → c = -1)) ∧
    declaredRowSteps op =
      (if op.hasTrait .OneRow then [.ok 1] else []) ++
      ((traitIndices 9).filter (fun i => op.hasTrait (.NumRowsFromIthScalar i))).map
        (operandScalar op) ++
      ((traitIndices 9).filter (fun i => op.hasTrait (.NumRowsFromIthArg i))).map
        (operandRows op) ++
      ((traitIndices 9).filter (fun i => op.hasTrait (.NumRowsFromIthArgNumCols i))).map
        (operandCols op) ++
      (if op.hasTrait .NumRowsFromAllArgs then [inferNumRowsFromArgs op.operands] else []) ++
      (if op.hasTrait .NumRowsFromSumOfAllArgs then [inferNumRowsFromSumOfArgs op.operands]
        else []) ++
      ((traitIndices 9).filter (fun i => op.hasTrait (.ShapeFromIthArg i))).map
        (operandRows op) ++
      (if op.hasTrait .ShapeEwBinary then [(ewBinaryShape op).map Prod.fst] else []) ++
      (match op.inferNumRowsOp with
        | some inferNumRowsOp => [inferNumRowsOp.inferNumRows]
        | none => []) ∧
    declaredColSteps op =
      (if op.hasTrait .OneCol then [.ok 1] else []) ++
      ((traitIndices 9).filter (fun i => op.hasTrait (.NumColsFromIthScalar i))).map
        (operandScalar op) ++
      ((traitIndices 9).filter (fun i => op.hasTrait (.NumColsFromIthArg i))).map
        (operandCols op) ++
      ((traitIndices 9).filter (fun i => op.hasTrait (.NumColsFromIthArgNumRows i))).map
        (operandRows op) ++
      (if op.hasTrait .NumColsFromAllArgs then [inferNumColsFromArgs op.operands] else []) ++
      (if op.hasTrait .NumColsFromSumOfAllArgs then [inferNumColsFromSumOfArgs op.operands]
        else []) ++
      ((traitIndices 9).filter (fun i => op.hasTrait (.ShapeFromIthArg i))).map
        (operandCols op) ++
      (if op.hasTrait .ShapeEwBinary then [(ewBinaryShape op).map Prod.snd] else []) ++
      (match op.inferNumColsOp with
        | some inferNumCols => [inferNumCols]
        | none => []) ∧
    (∀ i shape shape1,
      tryNumRowsFromIthScalar i shape op = .ok shape1 ∨
        tryNumRowsFromIthArg i shape op = .ok shape1 ∨
        tryNumRowsFromIthArgNumCols i shape op = .ok shape1 → shape1.2 = shape.2) ∧
    (∀ i shape shape1,
      tryNumColsFromIthScalar i shape op = .ok shape1 ∨
        tryNumColsFromIthArg i shape op = .ok shape1 ∨
        tryNumColsFromIthArgNumRows i shape op = .ok shape1 → shape1.1 = shape.1) := by
  refine ⟨?_, declaredRowSteps_eq op, declaredColSteps_eq op, ?_, ?_⟩
  · obtain ⟨r, c, hres, hrl, hcl⟩ := inferShapeFromTraits_last op hr hc
    refine ⟨r, c, ?_, hrl, hcl, ?_, ?_⟩
    · simp only [tryInferShape, hnone, hone, if_true, hres]
    · intro hnil
      rw [hnil] at hrl
      cases hrl
      rfl
    · intro hnil
      rw [hnil] at hcl
      cases hcl
      rfl
  · rintro i shape shape1 (h | h | h)
    · rw [tryNumRowsFromIthScalar_eq] at h
      exact applyStep_keeps_cols _ _ _ h
    · rw [tryNumRowsFromIthArg_eq] at h
      exact applyStep_keeps_cols _ _ _ h
    · rw [tryNumRowsFromIthArgNumCols_eq] at h
      exact applyStep_keeps_cols _ _ _ h
  · rintro i shape shape1 (h | h | h)
    · rw [tryNumColsFromIthScalar_eq] at h
      exact applyStep_keeps_rows _ _ _ h
    · rw [tryNumColsFromIthArg_eq] at h
      exact applyStep_keeps_rows _ _ _ h
    · rw [tryNumColsFromIthArgNumRows_eq] at h
      exact applyStep_keeps_rows _ _ _ h

/-- Witness of C31: an operation on a 3 x 4 and a 5 x 6 matrix that declares OneRow, rows
from the argument 0 and columns from the rows of the argument 1 gets the rows 3 of the later
row step, not the 1 of OneRow, and the columns 5. -/
theorem C31_witness :
    (∃ r c,
      tryInferShape
          { operands := [⟨.matrix 3 4, none⟩, ⟨.matrix 5 6, none⟩],
            traits := [.OneRow, .NumRowsFromIthArg 0, .NumColsFromIthArgNumRows 1] }
        = .ok [(r, c)] ∧
      (declaredRowSteps
          { operands := [⟨.matrix 3 4, none⟩, ⟨.matrix 5 6, none⟩],
            traits := [.OneRow, .NumRowsFromIthArg 0, .NumColsFromIthArgNumRows 1] }).getLastD
        (.ok (-1)) = .ok r ∧
      (declaredColSteps
          { operands := [⟨.matrix 3 4, none⟩, ⟨.matrix 5 6, none⟩],
            traits := [.OneRow, .NumRowsFromIthArg 0, .NumColsFromIthArgNumRows 1] }).getLastD
        (.ok (-1)) = .ok c ∧
      (declaredRowSteps
          { operands := [⟨.matrix 3 4, none⟩, ⟨.matrix 5 6, none⟩],
            traits := [.OneRow, .NumRowsFromIthArg 0, .NumColsFromIthArgNumRows 1] } = [] →
        r = -1) ∧
      (declaredColSteps
          { operands := [⟨.matrix 3 4, none⟩, ⟨.matrix 5 6, none⟩],
            traits := [.OneRow, .NumRowsFromIthArg 0, .NumColsFromIthArgNumRows 1] } = [] →
        c = -1)) ∧
      tryInferShape
          { operands := [⟨.matrix 3 4, none⟩, ⟨.matrix 5 6, none⟩],
            traits := [.OneRow, .NumRowsFromIthArg 0, .NumColsFromIthArgNumRows 1] }
        = .ok [(3, 5)] ∧
      declaredRowSteps
          { operands := [⟨.matrix 3 4, none⟩, ⟨.matrix 5 6, none⟩],
            traits := [.OneRow, .NumRowsFromIthArg 0, .NumColsFromIthArgNumRows 1] }
        = [.ok 1, .ok 3] :=
  ⟨(C31_trait_precedence
      { operands := [⟨.matrix 3 4, none⟩, ⟨.matrix 5 6, none⟩],
        traits := [.OneRow, .NumRowsFromIthArg 0, .NumColsFromIthArgNumRows 1] }
      rfl rfl (by decide) (by decide)).1,
    rfl, rfl⟩

/-- The shape of the element-wise binary rule for two operands with shapes. -/
theorem ewBinaryShape_ok (op : Operation) (v0 v1 : Value) (l r : Shape)
    (h0 : op.operands[0]? = some v0) (h1 : op.operands[1]? = some v1)
    (hl : getShape v0 = .ok l) (hr : getShape v1 = .ok r) :
    ewBinaryShape op = .ok (ewBinaryRule l r) := by
  simp only [ewBinaryShape, operandShape, Operation.getOperand, h0, h1, hl, hr]

/-- C32: for an operation that declares the element-wise binary trait and whose operands 0
and 1 have the shapes `l` and `r`, the step sets the shape, whatever it was before, to
`(-1, 1)` if `l` and `r` both are `(-1, 1)`; otherwise to `(-1, -1)` if a field of `r` is
`-1`; otherwise to `l`, also if `l` is partly unknown or differs from `r`: the step never
fails on operands with shapes. When no row or column hook follows and every declared step
succeeds, this is the shape `tryInferShape` returns, whatever the earlier traits set. -/
theorem C32_ewBinary (op : Operation) (v0 v1 : Value) (l r : Shape)
    (ht : op.hasTrait .ShapeEwBinary = true) (h0 : op.operands[0]? = some v0)
    (h1 : op.operands[1]? = some v1) (hl : getShape v0 = .ok l) (hr : getShape v1 = .ok r) :
    (∀ shape : Shape, tryShapeEwBinary shape op
      = .ok (if l = (-1, 1) ∧ r = (-1, 1) then (-1, 1)
          else if r.1 = -1 ∨ r.2 = -1 then (-1, -1)
          else l)) ∧
      (op.inferShapeOp = none → op.numResults = 1 → op.inferNumRowsOp = none →
        op.inferNumColsOp = none → (∀ x ∈ declaredRowSteps op, failed x = false) →
        (∀ x ∈ declaredColSteps op, failed x = false) →
        tryInferShape op
          = .ok [if l = (-1, 1) ∧ r = (-1, 1) then (-1, 1)
              else if r.1 = -1 ∨ r.2 = -1 then (-1, -1)
              else l]) := by
  have hew := ewBinaryShape_ok op v0 v1 l r h0 h1 hl hr
  constructor
  · intro shape
    rw [tryShapeEwBinary_eq, if_pos ht, hew]
    rfl
  · intro hnone hone hrows hcols hr1 hc1
    obtain ⟨a, b, hres, hrl, hcl⟩ := inferShapeFromTraits_last op hr1 hc1
    rw [declaredRowSteps_eq, hrows, if_pos ht, hew] at hrl
    rw [declaredColSteps_eq, hcols, if_pos ht, hew] at hcl
    simp only [List.append_nil, List.getLastD_concat, Except.map, Except.ok.injEq] at hrl hcl
    have hab : (a, b) = ewBinaryRule l r := by
      rw [← hrl, ← hcl]
    simp only [tryInferShape, hnone, hone, if_true, hres, hab]
    rfl

/-- Witness of C32: an operation that declares OneRow and the element-wise binary trait on a
3 x 4 and a 7 x 5 matrix gets the shape (3, 4) of the left operand: the differing known
shapes are accepted and the row count 1 of OneRow is overwritten. -/
theorem C32_witness :
    (∀ shape : Shape,
      tryShapeEwBinary shape
          { operands := [⟨.matrix 3 4, none⟩, ⟨.matrix 7 5, none⟩],
            traits := [.OneRow, .ShapeEwBinary] }
        = .ok (if ((3 : Int), (4 : Int)) = (-1, 1) ∧ ((7 : Int), (5 : Int)) = (-1, 1)
            then (-1, 1)
            else if ((7 : Int), (5 : Int)).1 = -1 ∨ ((7 : Int), (5 : Int)).2 = -1 then (-1, -1)
            else (3, 4))) ∧
      tryInferShape
          { operands := [⟨.matrix 3 4, none⟩, ⟨.matrix 7 5, none⟩],
            traits := [.OneRow, .ShapeEwBinary] }
        = .ok [(3, 4)] ∧
      tryInferShape
          { operands := [⟨.column (-1), none⟩, ⟨.column (-1), none⟩],
            traits := [.ShapeEwBinary] }
        = .ok [(-1, 1)] ∧
      tryInferShape
          { operands := [⟨.matrix 3 4, none⟩, ⟨.matrix 3 (-1), none⟩],
            traits := [.ShapeEwBinary] }
        = .ok [(-1, -1)] :=
  ⟨(C32_ewBinary
      { operands := [⟨.matrix 3 4, none⟩, ⟨.matrix 7 5, none⟩],
        traits := [.OneRow, .ShapeEwBinary] }
      ⟨.matrix 3 4, none⟩ ⟨.matrix 7 5, none⟩ (3, 4) (7, 5) rfl rfl rfl rfl rfl).1,
    rfl, rfl, rfl⟩

end Daphne
